import Mathlib

/-! # cx: the lexer of `src/cx.c`

A shallow embedding of the lexical analyser of `cx.c` and of the growable
array it fills, followed by theorems about them.

Modelling conventions.

* A byte of the source buffer is a `Nat`, the value of the byte read as an
  unsigned char (ASCII code).  The `<ctype.h>` predicates are those of the
  C locale, false on every byte from 128 on.
* Plain `char` is signed, as on x86-64: a byte from 128 on held in a `char`
  has the negative value `char_value`.  The comparisons of a `char` with a
  character constant are comparisons of the bytes; the value matters where
  the `char` is converted to `int` and used as an index (cx.c:427).
* A pointer into the source buffer is the offset from `lexer->source`;
  a null pointer is `none`.
* `size_t` values are natural numbers.  Every increment in the lexer is
  bounded by `source_len`, so only the subtractions can wrap; they are
  modelled by `size_sub`.
* Every read of `lexer->source[i]` is checked against the buffer: a read
  outside the buffer is the fault `out_of_bounds i`.
* `exit(1)` through `loc_panic` is the fault `loc_panic location first`.
* The `while` loops are run with fuel; the callers pass enough fuel and
  `out_of_fuel` is shown to be unreachable where a result is claimed.
-/

namespace Cx

/-! ## Characters -/

/-- The predicate `isspace` of the C locale: the bytes 32 and 9 to 13. -/
def isspace (c : Nat) : Bool := c == 32 || (9 ≤ c && c ≤ 13)

/-- The predicate `isalpha` of the C locale. -/
def isalpha (c : Nat) : Bool := (65 ≤ c && c ≤ 90) || (97 ≤ c && c ≤ 122)

/-- The predicate `isdigit`. -/
def isdigit (c : Nat) : Bool := 48 ≤ c && c ≤ 57

/-- The predicate `isalnum` of the C locale. -/
def isalnum (c : Nat) : Bool := isalpha c || isdigit c

/-- The value of the byte `b` held in a plain `char`, which is signed: the
bytes from 128 on are the negative values `b - 256`. -/
def char_value (b : Nat) : Int := if b < 128 then (b : Int) else (b : Int) - 256

/-- The bytes of a string literal, used to write inputs readably. -/
def bytes (s : String) : List Nat := s.toList.map Char.toNat

/-- Unsigned `size_t` subtraction `a - b` (64-bit), for `a b < 2 ^ 64`. -/
def size_sub (a b : Nat) : Nat := if b ≤ a then a - b else a + 2 ^ 64 - b

/-! ## Faults -/

/-- The struct `Location` (cx.c:97-100); `row` is the column. -/
structure Location where
  file_path : Option String
  line : Nat
  row : Nat
deriving DecidableEq, Repr

/-- The ways a run stops without returning. -/
inductive Fault where
  /-- The call of `loc_panic` with the location and the byte `first`, then `exit(1)`. -/
  | loc_panic (location : Location) (first : Nat)
  /-- A read or write at index `index`, outside the allocated object. -/
  | out_of_bounds (index : Nat)
  /-- A read of the table `literal_tokens` at `index`, outside its 256 entries. -/
  | table_index (index : Int)
  /-- The fuel of a loop of the model ran out. -/
  | out_of_fuel
deriving DecidableEq, Repr

/-- The function `Location_print` (cx.c:102-104): the path, `line + 1` and
`row + 1`, separated by colons. -/
def Location_print (location : Location) : String :=
  location.file_path.getD "(null)" ++ ":" ++ toString (location.line + 1) ++ ":"
    ++ toString (location.row + 1)

/-! ## Tokens -/

/-- The enum `Token_Type` (cx.c:127-168), in declaration order; `TOKEN_NULL` is `0`. -/
inductive Token_Type where
  | TOKEN_NULL
  | TOKEN_NAME
  | TOKEN_OPEN_PARENTHESIS
  | TOKEN_OPEN_CURLY
  | TOKEN_CLOSE_PARENTHESIS
  | TOKEN_CLOSE_CURLY
  | TOKEN_OPEN_SQUARE
  | TOKEN_CLOSE_SQUARE
  | TOKEN_DOT
  | TOKEN_COMMA
  | TOKEN_SEMICOLON
  | TOKEN_EQUALS
  | TOKEN_NUMBER
  | TOKEN_STRING
  | TOKEN_PLUS
  | TOKEN_PLUS_EQUALS
  | TOKEN_PLUS_PLUS
  | TOKEN_MINUS
  | TOKEN_MINUS_EQUALS
  | TOKEN_MINUS_MINUS
  | TOKEN_ASTERISK
  | TOKEN_TIMES_EQUALS
  | TOKEN_SLASH
  | TOKEN_DIVIDE_EQUALS
  | TOKEN_LESS_THAN
  | TOKEN_GREATER_THAN
  | TOKEN_NOT
  | TOKEN_ARROW
  | TOKEN_CHAR
  | TOKEN_AMPERSTAND
  | TOKEN_AND_EQUALS
  | TOKEN_LOGIC_AND
  | TOKEN_PIPE
  | TOKEN_OR_EQUALS
  | TOKEN_LOGIC_OR
  | TOKEN_XOR
  | TOKEN_XOR_EQUALS
  | TOKEN_MOD
  | TOKEN_MOD_EQUALS
  | TOKEN_COLON
deriving DecidableEq, Repr

open Token_Type

/-- The struct `StringView` (cx.c:90-93): `data` is an offset into the source buffer. -/
structure StringView where
  data : Option Nat
  size : Nat
deriving DecidableEq, Repr

/-- The anonymous union of `Token` (cx.c:260-264), tagged by the member written. -/
inductive Token_value where
  | value_sv (sv : StringView)
  | value_char (c : Nat)
  | value_int (i : Int)
deriving DecidableEq, Repr

open Token_value

/-- The struct `Token` (cx.c:257-265). -/
structure Token where
  location : Location
  type : Token_Type
  value : Token_value
deriving DecidableEq, Repr

/-- The sentinel `(Token) { 0 }`. -/
def Token_zero : Token :=
  { location := { file_path := none, line := 0, row := 0 },
    type := TOKEN_NULL,
    value := value_sv { data := none, size := 0 } }

/-! ## darray -/

/-- The struct `DARRAY(T)` (cx.c:62-66): `data` lists the allocated cells, `none` being a
cell never written. -/
structure DARRAY (T : Type) where
  data : List (Option T)
  len : Nat
  _allocated : Nat
deriving DecidableEq, Repr

/-- The call `realloc(data, n * sizeof(T))`: the first `n` cells are kept, new cells
are unwritten (allocation succeeds). -/
def darray_realloc {T : Type} (data : List (Option T)) (n : Nat) : List (Option T) :=
  (data ++ List.replicate (n - data.length) none).take n

/-- The function `DARRAY_INIT(T)` (cx.c:68-72). -/
def DARRAY_INIT {T : Type} (n : Nat) : DARRAY T :=
  { data := List.replicate n none, len := 0, _allocated := n }

/-- The function `DARRAY_PUSH(T)` (cx.c:74-80). -/
def DARRAY_PUSH {T : Type} (da : DARRAY T) (t : T) : Except Fault (DARRAY T) :=
  let da1 : DARRAY T :=
    if da.len = da._allocated then
      { da with _allocated := da._allocated * 2,
                data := darray_realloc da.data (da._allocated * 2) }
    else da
  if da1.len < da1.data.length then
    .ok { da1 with data := da1.data.set da1.len (some t), len := da1.len + 1 }
  else .error (.out_of_bounds da1.len)

/-- The elements `data[0 .. len-1]`. -/
def DARRAY.elems {T : Type} (da : DARRAY T) : List (Option T) := da.data.take da.len

/-! ## Lexer -/

/-- The struct `Lexer` (cx.c:333-338). -/
structure Lexer where
  file_path : String
  source : List Nat
  source_len : Nat
  cur : Nat
  bol : Nat
  row : Nat
deriving DecidableEq, Repr

/-- The lexer built by `main` (cx.c:712-716) over a buffer of exactly
`source_len` bytes. -/
def Lexer_init (file_path : String) (source : List Nat) : Lexer :=
  { file_path := file_path, source := source, source_len := source.length,
    cur := 0, bol := 0, row := 0 }

/-- The function `Lexer_location` (cx.c:340-346). -/
def Lexer_location (lexer : Lexer) : Location :=
  { file_path := some lexer.file_path,
    line := lexer.row,
    row := size_sub lexer.cur lexer.bol }

/-- The function `Lexer_is_not_empty` (cx.c:348-350). -/
def Lexer_is_not_empty (lexer : Lexer) : Bool := decide (lexer.cur < lexer.source_len)

/-- The function `Lexer_is_empty` (cx.c:352-354). -/
def Lexer_is_empty (lexer : Lexer) : Bool := !(Lexer_is_not_empty lexer)

/-- The read `lexer->source[i]`. -/
def Lexer_read (lexer : Lexer) (i : Nat) : Except Fault Nat :=
  match lexer.source[i]? with
  | some c => .ok c
  | none => .error (.out_of_bounds i)

/-- The function `Lexer_chop_char` (cx.c:356-364). -/
def Lexer_chop_char (lexer : Lexer) : Except Fault Lexer :=
  if Lexer_is_not_empty lexer then
    match Lexer_read lexer lexer.cur with
    | .error e => .error e
    | .ok c =>
      let lexer1 := { lexer with cur := lexer.cur + 1 }
      if c = 10 then .ok { lexer1 with bol := lexer1.cur, row := lexer1.row + 1 }
      else .ok lexer1
  else .ok lexer

/-- The loop `while(Lexer_is_not_empty(lexer) && p(lexer->source[lexer->cur]))
Lexer_chop_char(lexer);`, the shape of the loops at cx.c:367, 373, 397, 502. -/
def Lexer_chop_while (p : Nat → Bool) : Nat → Lexer → Except Fault Lexer
  | 0, _ => .error .out_of_fuel
  | fuel + 1, lexer =>
    if Lexer_is_not_empty lexer then
      match Lexer_read lexer lexer.cur with
      | .error e => .error e
      | .ok c =>
        if p c then
          match Lexer_chop_char lexer with
          | .error e => .error e
          | .ok lexer1 => Lexer_chop_while p fuel lexer1
        else .ok lexer
    else .ok lexer

/-- Fuel that suffices for a loop which consumes a byte per iteration. -/
def Lexer_fuel (lexer : Lexer) : Nat := lexer.source_len - lexer.cur + 1

/-- The function `Lexer_trim` (cx.c:366-370). -/
def Lexer_trim (lexer : Lexer) : Except Fault Lexer :=
  Lexer_chop_while isspace (Lexer_fuel lexer) lexer

/-- The function `Lexer_drop` (cx.c:372-379). -/
def Lexer_drop (lexer : Lexer) : Except Fault Lexer :=
  match Lexer_chop_while (fun c => c != 10) (Lexer_fuel lexer) lexer with
  | .error e => .error e
  | .ok lexer1 =>
    if Lexer_is_not_empty lexer1 then Lexer_chop_char lexer1 else .ok lexer1

/-- The comment loop of `Lexer_next_token` (cx.c:383-388); `s[1]` is read only
when `s[0]` is a slash. -/
def Lexer_comments : Nat → Lexer → Except Fault Lexer
  | 0, _ => .error .out_of_fuel
  | fuel + 1, lexer =>
    if Lexer_is_not_empty lexer then
      match Lexer_read lexer lexer.cur with
      | .error e => .error e
      | .ok s0 =>
        if s0 = 47 then
          match Lexer_read lexer (lexer.cur + 1) with
          | .error e => .error e
          | .ok s1 =>
            if s1 = 47 then
              match Lexer_drop lexer with
              | .error e => .error e
              | .ok lexer1 =>
                match Lexer_trim lexer1 with
                | .error e => .error e
                | .ok lexer2 => Lexer_comments fuel lexer2
            else .ok lexer
        else .ok lexer
    else .ok lexer

/-- The trivia skip of `Lexer_next_token` (cx.c:382-388). -/
def Lexer_skip_trivia (lexer : Lexer) : Except Fault Lexer :=
  match Lexer_trim lexer with
  | .error e => .error e
  | .ok lexer1 => Lexer_comments (Lexer_fuel lexer1) lexer1

/-- The identifier branch (cx.c:396-408). -/
def Lexer_name (lexer : Lexer) (location : Location) : Except Fault (Token × Lexer) :=
  let index := lexer.cur
  match Lexer_chop_while (fun c => isalnum c || c == 95) (Lexer_fuel lexer) lexer with
  | .error e => .error e
  | .ok lexer1 =>
    .ok ({ location := location, type := TOKEN_NAME,
           value := value_sv { data := some index, size := size_sub lexer1.cur index } },
         lexer1)

/-- The table `literal_tokens` (cx.c:411-425): its entries, by index; the
entries 0 to 255 exist. -/
def literal_tokens : Nat → Token_Type
  | 40 => TOKEN_OPEN_PARENTHESIS
  | 41 => TOKEN_CLOSE_PARENTHESIS
  | 123 => TOKEN_OPEN_CURLY
  | 125 => TOKEN_CLOSE_CURLY
  | 91 => TOKEN_OPEN_SQUARE
  | 93 => TOKEN_CLOSE_SQUARE
  | 46 => TOKEN_DOT
  | 44 => TOKEN_COMMA
  | 59 => TOKEN_SEMICOLON
  | 58 => TOKEN_COLON
  | 61 => TOKEN_EQUALS
  | 60 => TOKEN_LESS_THAN
  | 62 => TOKEN_GREATER_THAN
  | 33 => TOKEN_NOT
  | _ => TOKEN_NULL

/-- The read `literal_tokens[(int) first]` (cx.c:427, 431).  The byte `first`
is held in a plain `char` (cx.c:393) and converted to `int`: for a byte below
128 the index is the byte, for a byte from 128 on the index is the negative
`char_value first`, outside the 256 entries of the table. -/
def literal_tokens_at (first : Nat) : Except Fault Token_Type :=
  if first < 128 then .ok (literal_tokens first)
  else .error (.table_index (char_value first))

/-- The punctuation branch (cx.c:427-434), entered after the test of the
table entry. -/
def Lexer_literal (lexer : Lexer) (location : Location) (first : Nat) :
    Except Fault (Token × Lexer) :=
  match Lexer_chop_char lexer with
  | .error e => .error e
  | .ok lexer1 =>
    match literal_tokens_at first with
    | .error e => .error e
    | .ok type =>
      match Lexer_read lexer1 (size_sub lexer1.cur 1) with
      | .error e => .error e
      | .ok c => .ok ({ location := location, type := type, value := value_char c }, lexer1)

/-- The scanning loop of the string branch (cx.c:439-451). -/
def Lexer_string_loop : Nat → Lexer → Except Fault Lexer
  | 0, _ => .error .out_of_fuel
  | fuel + 1, lexer =>
    if Lexer_is_not_empty lexer then
      match Lexer_read lexer lexer.cur with
      | .error e => .error e
      | .ok c =>
        if c = 34 then .ok lexer
        else if c = 92 then
          match Lexer_chop_char lexer with
          | .error e => .error e
          | .ok lexer1 =>
            match Lexer_chop_char lexer1 with
            | .error e => .error e
            | .ok lexer2 => Lexer_string_loop fuel lexer2
        else
          match Lexer_chop_char lexer with
          | .error e => .error e
          | .ok lexer1 => Lexer_string_loop fuel lexer1
    else .ok lexer

/-- The string branch (cx.c:437-465); `none` when control leaves the branch
without returning a token. -/
def Lexer_string (lexer : Lexer) (location : Location) :
    Except Fault (Option Token × Lexer) :=
  match Lexer_chop_char lexer with
  | .error e => .error e
  | .ok lexer1 =>
    let start := lexer1.cur
    match Lexer_string_loop (Lexer_fuel lexer1) lexer1 with
    | .error e => .error e
    | .ok lexer2 =>
      if Lexer_is_not_empty lexer2 then
        match Lexer_chop_char lexer2 with
        | .error e => .error e
        | .ok lexer3 =>
          .ok (some { location := location, type := TOKEN_STRING,
                      value := value_sv { data := some start,
                                          size := size_sub (size_sub lexer3.cur start) 1 } },
               lexer3)
      else .ok (none, lexer2)

/-- The scanning loop of the char branch (cx.c:471-483). -/
def Lexer_char_loop : Nat → Lexer → Except Fault Lexer
  | 0, _ => .error .out_of_fuel
  | fuel + 1, lexer =>
    if Lexer_is_not_empty lexer then
      match Lexer_read lexer lexer.cur with
      | .error e => .error e
      | .ok c =>
        if c = 39 then .ok lexer
        else if c = 92 then
          match Lexer_chop_char lexer with
          | .error e => .error e
          | .ok lexer1 =>
            match Lexer_chop_char lexer1 with
            | .error e => .error e
            | .ok lexer2 => Lexer_char_loop fuel lexer2
        else
          match Lexer_chop_char lexer with
          | .error e => .error e
          | .ok lexer1 => Lexer_char_loop fuel lexer1
    else .ok lexer

/-- The char branch (cx.c:469-497); `none` when control leaves the branch
without returning a token. -/
def Lexer_char (lexer : Lexer) (location : Location) :
    Except Fault (Option Token × Lexer) :=
  match Lexer_chop_char lexer with
  | .error e => .error e
  | .ok lexer1 =>
    let start := lexer1.cur
    match Lexer_char_loop (Lexer_fuel lexer1) lexer1 with
    | .error e => .error e
    | .ok lexer2 =>
      if Lexer_is_not_empty lexer2 then
        match Lexer_chop_char lexer2 with
        | .error e => .error e
        | .ok lexer3 =>
          .ok (some { location := location, type := TOKEN_CHAR,
                      value := value_sv { data := some start,
                                          size := size_sub (size_sub lexer3.cur start) 1 } },
               lexer3)
      else .ok (none, lexer2)

/-- The digit scan of `strtol`: the decimal value of the digits at the head
of the memory, `none` when the scan runs off the buffer. -/
def atoi_digits : List Nat → Nat → Option Nat
  | [], _ => none
  | c :: cs, acc => if isdigit c then atoi_digits cs (acc * 10 + (c - 48)) else some acc

/-- The conversion of the result of `strtol` to `int`: the magnitude saturates at
the range of `long`, the cast keeps the low 32 bits. -/
def atoi_int (negative : Bool) (n : Nat) : Int :=
  let v : Int := if negative then -(min n (2 ^ 63) : Nat) else (min n (2 ^ 63 - 1) : Nat)
  (v + 2 ^ 31) % 2 ^ 32 - 2 ^ 31

/-- The function `atoi` on the memory starting at a pointer: white space, an optional
sign, then digits; `none` when it reads past the end of the buffer. -/
def atoi : List Nat → Option Int
  | [] => none
  | c :: cs =>
    if isspace c then atoi cs
    else if c = 45 then (atoi_digits cs 0).map (atoi_int true)
    else if c = 43 then (atoi_digits cs 0).map (atoi_int false)
    else (atoi_digits (c :: cs) 0).map (atoi_int false)

/-- The number branch (cx.c:501-510). -/
def Lexer_number (lexer : Lexer) (location : Location) : Except Fault (Token × Lexer) :=
  let start := lexer.cur
  match Lexer_chop_while isdigit (Lexer_fuel lexer) lexer with
  | .error e => .error e
  | .ok lexer1 =>
    match atoi (lexer1.source.drop start) with
    | none => .error (.out_of_bounds lexer1.source.length)
    | some i => .ok ({ location := location, type := TOKEN_NUMBER, value := value_int i }, lexer1)

/-- The test `Lexer_is_not_empty(lexer) && lexer->source[lexer->cur] == c`. -/
def Lexer_next_is (lexer : Lexer) (c : Nat) : Except Fault Bool :=
  if Lexer_is_not_empty lexer then
    match Lexer_read lexer lexer.cur with
    | .error e => .error e
    | .ok d => .ok (d == c)
  else .ok false

/-- An `if … else if …` chain of `Lexer_next_is` tests after the default
`type` was assigned: the first test that succeeds decides the type. -/
def Lexer_select (lexer : Lexer) (type : Token_Type) :
    List (Nat × Token_Type) → Except Fault Token_Type
  | [] => .ok type
  | (c, t) :: alts =>
    match Lexer_next_is lexer c with
    | .error e => .error e
    | .ok true => .ok t
    | .ok false => Lexer_select lexer type alts

/-- The cases of `switch(first)` (cx.c:518-578): the default type and the
chain of tests of each operator lead; `none` is `default: goto not_operand`. -/
def operator_cases : Nat → Option (Token_Type × List (Nat × Token_Type))
  | 43 => some (TOKEN_PLUS, [(61, TOKEN_PLUS_EQUALS), (43, TOKEN_PLUS_PLUS)])
  | 45 => some (TOKEN_MINUS, [(61, TOKEN_MINUS_EQUALS), (43, TOKEN_MINUS_MINUS), (62, TOKEN_ARROW)])
  | 42 => some (TOKEN_ASTERISK, [(61, TOKEN_TIMES_EQUALS)])
  | 47 => some (TOKEN_SLASH, [(61, TOKEN_DIVIDE_EQUALS)])
  | 38 => some (TOKEN_AMPERSTAND, [(61, TOKEN_AND_EQUALS), (38, TOKEN_LOGIC_AND)])
  | 124 => some (TOKEN_PIPE, [(61, TOKEN_OR_EQUALS), (124, TOKEN_LOGIC_OR)])
  | 94 => some (TOKEN_XOR, [(61, TOKEN_XOR_EQUALS)])
  | 37 => some (TOKEN_MOD, [(61, TOKEN_MOD_EQUALS)])
  | _ => none

/-- The operator block and the error path after it (cx.c:513-593). -/
def Lexer_operator (lexer : Lexer) (location : Location) (first : Nat) :
    Except Fault (Token × Lexer) :=
  let start := lexer.cur
  match operator_cases first with
  | none => .error (.loc_panic location first)
  | some (type, alts) =>
    match Lexer_chop_char lexer with
    | .error e => .error e
    | .ok lexer1 =>
      match Lexer_select lexer1 type alts with
      | .error e => .error e
      | .ok type1 =>
        .ok ({ location := location, type := type1,
               value := value_sv { data := some start, size := 0 } },
             lexer1)

/-- The classification of `Lexer_next_token` (cx.c:390-593), entered after
the trivia skip. -/
def Lexer_dispatch (lexer : Lexer) : Except Fault (Token × Lexer) :=
  if Lexer_is_empty lexer then .ok (Token_zero, lexer)
  else
    let location := Lexer_location lexer
    match Lexer_read lexer lexer.cur with
    | .error e => .error e
    | .ok first =>
      if isalpha first || first == 95 then Lexer_name lexer location
      else
        match literal_tokens_at first with
        | .error e => .error e
        | .ok type =>
          if type ≠ TOKEN_NULL then Lexer_literal lexer location first
          else
            match (if first = 34 then Lexer_string lexer location else .ok (none, lexer)) with
            | .error e => .error e
            | .ok (some token, lexer1) => .ok (token, lexer1)
            | .ok (none, lexer1) =>
              match (if first = 39 then Lexer_char lexer1 location
                     else .ok (none, lexer1)) with
              | .error e => .error e
              | .ok (some token, lexer2) => .ok (token, lexer2)
              | .ok (none, lexer2) =>
                if isdigit first then Lexer_number lexer2 location
                else Lexer_operator lexer2 location first

/-- The function `Lexer_next_token` (cx.c:381-594). -/
def Lexer_next_token (lexer : Lexer) : Except Fault (Token × Lexer) :=
  match Lexer_skip_trivia lexer with
  | .error e => .error e
  | .ok lexer1 => Lexer_dispatch lexer1

/-- The driver loop of `main` (cx.c:718-722). -/
def main_loop : Nat → Lexer → DARRAY Token → Except Fault (Lexer × DARRAY Token)
  | 0, _, _ => .error .out_of_fuel
  | fuel + 1, lexer, tokens =>
    if Lexer_is_not_empty lexer then
      match Lexer_next_token lexer with
      | .error e => .error e
      | .ok (token, lexer1) =>
        match DARRAY_PUSH tokens token with
        | .error e => .error e
        | .ok tokens1 => main_loop fuel lexer1 tokens1
    else .ok (lexer, tokens)

/-- The lexical analysis of `main` (cx.c:682-722) on a loaded buffer: the
token array when the loop ends. -/
def main_lex (file_path : String) (source : List Nat) : Except Fault (DARRAY Token) :=
  match main_loop (source.length + 1) (Lexer_init file_path source) (DARRAY_INIT 1000) with
  | .error e => .error e
  | .ok (_, tokens) => .ok tokens

/-- The tokens in the array when the loop ends, in order. -/
def main_tokens (file_path : String) (source : List Nat) : Except Fault (List (Option Token)) :=
  match main_lex file_path source with
  | .error e => .error e
  | .ok tokens => .ok tokens.elems

/-! ## Specification-side definitions -/

/-- The buffer has exactly `source_len` bytes, as loaded by `main`. -/
def Lexer_wf (lexer : Lexer) : Prop := lexer.source_len = lexer.source.length

instance (lexer : Lexer) : Decidable (Lexer_wf lexer) := by
  unfold Lexer_wf; infer_instance

/-- The state after one byte was consumed by `Lexer_chop_char`. -/
def Lexer_step (lexer : Lexer) : Lexer :=
  if lexer.source[lexer.cur]? = some 10 then
    { lexer with cur := lexer.cur + 1, bol := lexer.cur + 1, row := lexer.row + 1 }
  else { lexer with cur := lexer.cur + 1 }

/-- The state after `k` bytes were consumed one by one. -/
def Lexer_advance : Nat → Lexer → Lexer
  | 0, lexer => lexer
  | k + 1, lexer => Lexer_advance k (Lexer_step lexer)

/-- The number of line-feed bytes strictly before offset `p`. -/
def line_at (source : List Nat) (p : Nat) : Nat := (source.take p).count 10

/-- The offset just after the last line-feed strictly before offset `p`, or
`0` when there is none. -/
def bol_at (source : List Nat) : Nat → Nat
  | 0 => 0
  | p + 1 => if source[p]? = some 10 then p + 1 else bol_at source p

/-- The line and beginning-of-line fields agree with the cursor. -/
def Lexer_tracked (lexer : Lexer) : Prop :=
  lexer.row = line_at lexer.source lexer.cur ∧ lexer.bol = bol_at lexer.source lexer.cur

/-- After the trivia skip of a call on `lexer` the state is `lexer1`, not at the
end of input, and `first` is the byte at its cursor: the first significant byte. -/
def Lexer_first (lexer lexer1 : Lexer) (first : Nat) : Prop :=
  Lexer_skip_trivia lexer = .ok lexer1 ∧ lexer1.cur < lexer1.source_len ∧
    lexer1.source[lexer1.cur]? = some first

/-- The states of a session on a buffer: the initial state and every state
left by a call of `Lexer_next_token` that returned. -/
inductive Lexer_reachable (file_path : String) (source : List Nat) : Lexer → Prop
  | init : Lexer_reachable file_path source (Lexer_init file_path source)
  | next {lexer lexer1 : Lexer} {token : Token} :
      Lexer_reachable file_path source lexer →
      Lexer_next_token lexer = .ok (token, lexer1) →
      Lexer_reachable file_path source lexer1

/-- The offset, from the byte after an opening quote `q`, of the closing
unescaped `q`: a backslash takes itself and the byte after it, whatever it
is; `none` when the input ends first. -/
def closing_offset (q : Nat) : List Nat → Option Nat
  | [] => none
  | c :: cs =>
    if c = q then some 0
    else if c = 92 then
      match cs with
      | [] => none
      | _ :: cs1 => (closing_offset q cs1).map (· + 2)
    else (closing_offset q cs).map (· + 1)

/-- The bytes consist of white space and `//` line comments only; the flag
says that the scan is inside a comment. -/
def trivia_scan : Bool → List Nat → Bool
  | _, [] => true
  | true, c :: cs => trivia_scan (c != 10) cs
  | false, c :: cs =>
    if isspace c then trivia_scan false cs
    else
      match c, cs with
      | 47, 47 :: cs1 => trivia_scan true cs1
      | _, _ => false

/-- The input is composed solely of white space and `//` line comments. -/
def trivia_only (source : List Nat) : Bool := trivia_scan false source

/-- The exchange of the two quote bytes. -/
def swap_quotes (c : Nat) : Nat := if c = 34 then 39 else if c = 39 then 34 else c

/-- The lexer over the buffer with the two quote bytes exchanged. -/
def Lexer_swap (lexer : Lexer) : Lexer := { lexer with source := lexer.source.map swap_quotes }

/-- The exchange of the kinds STRING and CHAR. -/
def Token_Type_swap : Token_Type → Token_Type
  | TOKEN_STRING => TOKEN_CHAR
  | TOKEN_CHAR => TOKEN_STRING
  | type => type

/-- The token of the run on the buffer with the quotes exchanged. -/
def Token_swap (token : Token) : Token :=
  { token with
    type := Token_Type_swap token.type,
    value := match token.value with
      | value_char c => value_char (swap_quotes c)
      | value => value }

/-- The fault of the run on the buffer with the quotes exchanged. -/
def Fault_swap : Fault → Fault
  | .loc_panic location first => .loc_panic location (swap_quotes first)
  | fault => fault

/-- The result of the run on the buffer with the quotes exchanged. -/
def Except_swap {α β : Type} (f : α → β) : Except Fault α → Except Fault β
  | .ok a => .ok (f a)
  | .error e => .error (Fault_swap e)

/-- The result of a branch of the run on the buffer with the quotes exchanged. -/
def Branch_swap (r : Token × Lexer) : Token × Lexer := (Token_swap r.1, Lexer_swap r.2)

/-- The result of a literal branch of the run on the buffer with the quotes exchanged. -/
def Option_branch_swap (r : Option Token × Lexer) : Option Token × Lexer :=
  (r.1.map Token_swap, Lexer_swap r.2)

/-- The array invariant: `_allocated` cells are allocated and at most that
many are in use. -/
def DARRAY_inv {T : Type} (da : DARRAY T) : Prop :=
  da.data.length = da._allocated ∧ da.len ≤ da._allocated

/-- A sequence of calls of `DARRAY_PUSH`, one for each value, in order. -/
def DARRAY_push_all {T : Type} : DARRAY T → List T → Except Fault (DARRAY T)
  | da, [] => .ok da
  | da, v :: vs =>
    match DARRAY_PUSH da v with
    | .error e => .error e
    | .ok da1 => DARRAY_push_all da1 vs

/-- The kind of an operator token as the specification tabulates it, from the
lead byte and the byte that follows it (`none` at the end of input); `none`
for a byte that is no operator lead. -/
def operator_kind (lead : Nat) (next : Option Nat) : Option Token_Type :=
  if lead = 43 then
    some (if next = some 61 then TOKEN_PLUS_EQUALS
          else if next = some 43 then TOKEN_PLUS_PLUS else TOKEN_PLUS)
  else if lead = 45 then
    some (if next = some 61 then TOKEN_MINUS_EQUALS
          else if next = some 43 then TOKEN_MINUS_MINUS
          else if next = some 62 then TOKEN_ARROW else TOKEN_MINUS)
  else if lead = 42 then
    some (if next = some 61 then TOKEN_TIMES_EQUALS else TOKEN_ASTERISK)
  else if lead = 47 then
    some (if next = some 61 then TOKEN_DIVIDE_EQUALS else TOKEN_SLASH)
  else if lead = 38 then
    some (if next = some 61 then TOKEN_AND_EQUALS
          else if next = some 38 then TOKEN_LOGIC_AND else TOKEN_AMPERSTAND)
  else if lead = 124 then
    some (if next = some 61 then TOKEN_OR_EQUALS
          else if next = some 124 then TOKEN_LOGIC_OR else TOKEN_PIPE)
  else if lead = 94 then
    some (if next = some 61 then TOKEN_XOR_EQUALS else TOKEN_XOR)
  else if lead = 37 then
    some (if next = some 61 then TOKEN_MOD_EQUALS else TOKEN_MOD)
  else none

/-- The first alternative of an `if … else if …` chain that the following
byte matches, or the default type. -/
def select_kind (next : Option Nat) (type : Token_Type) : List (Nat × Token_Type) → Token_Type
  | [] => type
  | (c, t) :: alts => if next = some c then t else select_kind next type alts

/-- The state predicate `bol <= cur <= source_len`. -/
def Lexer_inv (lexer : Lexer) : Prop :=
  lexer.bol ≤ lexer.cur ∧ lexer.cur ≤ lexer.source_len

/-- The number of bytes of the maximal sequence of white space and `//` line
comments at the head of the bytes; the flag says that the scan is inside a
comment, which runs through its line-feed or to the end of input. -/
def trivia_length : Bool → List Nat → Nat
  | _, [] => 0
  | true, c :: cs => 1 + trivia_length (c != 10) cs
  | false, c :: cs =>
    if isspace c then 1 + trivia_length false cs
    else
      match c, cs with
      | 47, 47 :: cs1 => 2 + trivia_length true cs1
      | _, _ => 0

/-- The bytes that `Lexer_drop` consumes: up to the next line-feed and the
line-feed itself, when there is one. -/
def drop_length (xs : List Nat) : Nat :=
  (xs.takeWhile (fun c => c != 10)).length
    + (if xs.dropWhile (fun c => c != 10) = [] then 0 else 1)

/-- Whether a scan of the bytes as white space and line comments ends inside
a comment, one that no line-feed has closed. -/
def comment_open : Bool → List Nat → Bool
  | open_, [] => open_
  | true, c :: cs => comment_open (c != 10) cs
  | false, [_] => false
  | false, c :: d :: cs =>
    if c = 47 ∧ d = 47 then comment_open true cs else comment_open false (d :: cs)

/-- The bytes at the cursor are significant: not white space and not the two
slashes that open a comment. -/
def significant : List Nat → Bool
  | [] => false
  | 47 :: 47 :: _ => false
  | c :: _ => !isspace c

/-- The lexicographic order of locations, by line and then column. -/
def Location_lt (a b : Location) : Prop :=
  a.line < b.line ∨ (a.line = b.line ∧ a.row < b.row)

/-- The location of the byte at offset `p` of a buffer. -/
def location_at (file_path : String) (source : List Nat) (p : Nat) : Location :=
  { file_path := some file_path, line := line_at source p, row := p - bol_at source p }

/-- The order of two cells of the token array: when both hold a token other
than the sentinel, the location of the first is before that of the second. -/
def Token_before (a b : Option Token) : Prop :=
  ∀ ta tb, a = some ta → b = some tb → ta.type ≠ TOKEN_NULL → tb.type ≠ TOKEN_NULL →
    Location_lt ta.location tb.location

/-- The six classes of a first significant byte: identifier start, digit,
double quote, single quote, punctuation, operator lead. -/
def byte_classes (c : Nat) : List Bool :=
  [isalpha c || c == 95, isdigit c, c == 34, c == 39,
   literal_tokens c != TOKEN_NULL, (operator_cases c).isSome]

/-- The classification with the classes tested in the order in which the
specification lists them: identifier, digit, string, char, punctuation,
operator lead; each class is handled by the branch of the code. -/
def Lexer_dispatch_spec_order (lexer : Lexer) : Except Fault (Token × Lexer) :=
  if Lexer_is_empty lexer then .ok (Token_zero, lexer)
  else
    let location := Lexer_location lexer
    match Lexer_read lexer lexer.cur with
    | .error e => .error e
    | .ok first =>
      if isalpha first || first == 95 then Lexer_name lexer location
      else if isdigit first then Lexer_number lexer location
      else
        match (if first = 34 then Lexer_string lexer location else .ok (none, lexer)) with
        | .error e => .error e
        | .ok (some token, lexer1) => .ok (token, lexer1)
        | .ok (none, lexer1) =>
          match (if first = 39 then Lexer_char lexer1 location else .ok (none, lexer1)) with
          | .error e => .error e
          | .ok (some token, lexer2) => .ok (token, lexer2)
          | .ok (none, lexer2) =>
            match literal_tokens_at first with
            | .error e => .error e
            | .ok type =>
              if type ≠ TOKEN_NULL then Lexer_literal lexer2 location first
              else Lexer_operator lexer2 location first

/-- The call with the classes tested in the order of the specification. -/
def Lexer_next_token_spec_order (lexer : Lexer) : Except Fault (Token × Lexer) :=
  match Lexer_skip_trivia lexer with
  | .error e => .error e
  | .ok lexer1 => Lexer_dispatch_spec_order lexer1

/-- The punctuation bytes and their kinds, as the specification lists them. -/
def punctuation_table : List (Nat × Token_Type) :=
  [(40, TOKEN_OPEN_PARENTHESIS), (41, TOKEN_CLOSE_PARENTHESIS), (123, TOKEN_OPEN_CURLY),
   (125, TOKEN_CLOSE_CURLY), (91, TOKEN_OPEN_SQUARE), (93, TOKEN_CLOSE_SQUARE),
   (46, TOKEN_DOT), (44, TOKEN_COMMA), (59, TOKEN_SEMICOLON), (58, TOKEN_COLON),
   (61, TOKEN_EQUALS), (60, TOKEN_LESS_THAN), (62, TOKEN_GREATER_THAN), (33, TOKEN_NOT)]

/-- The operator lead bytes `+ - * / & | ^ %`. -/
def operator_leads : List Nat := [43, 45, 42, 47, 38, 124, 94, 37]

/-- The decimal value of a run of digit bytes. -/
def decimal_value (run : List Nat) : Nat := run.foldl (fun acc c => acc * 10 + (c - 48)) 0

/-! # Theorems -/

/-! ## Basic facts about reads and `Lexer_chop_char` -/

theorem Lexer_read_of_getElem? {l : Lexer} {i c : Nat} (h : l.source[i]? = some c) :
    Lexer_read l i = .ok c := by
  simp [Lexer_read, h]

theorem Lexer_read_ok_iff {l : Lexer} {i c : Nat} :
    Lexer_read l i = .ok c ↔ l.source[i]? = some c := by
  unfold Lexer_read
  cases h : l.source[i]? <;> simp

theorem Lexer_read_of_lt {l : Lexer} {i : Nat} (h : i < l.source.length) :
    Lexer_read l i = .ok (l.source.get ⟨i, h⟩) := by
  apply Lexer_read_of_getElem?
  simp [List.getElem?_eq_getElem h]

theorem Lexer_is_not_empty_iff {l : Lexer} : Lexer_is_not_empty l = true ↔ l.cur < l.source_len := by
  simp [Lexer_is_not_empty]

theorem Lexer_is_empty_iff {l : Lexer} : Lexer_is_empty l = true ↔ l.source_len ≤ l.cur := by
  simp [Lexer_is_empty, Lexer_is_not_empty]

theorem Lexer_chop_char_of_empty {l : Lexer} (h : ¬ l.cur < l.source_len) :
    Lexer_chop_char l = .ok l := by
  simp [Lexer_chop_char, Lexer_is_not_empty, h]

theorem Lexer_chop_char_of_read {l : Lexer} {c : Nat} (h : l.cur < l.source_len)
    (hc : l.source[l.cur]? = some c) : Lexer_chop_char l = .ok (Lexer_step l) := by
  simp only [Lexer_chop_char, Lexer_is_not_empty, h, decide_True, if_true,
    Lexer_read_of_getElem? hc, Lexer_step, hc]
  by_cases h10 : c = 10 <;> simp [h10]

/-- A chop that returns consumed one byte or, at the end of input, none. -/
theorem Lexer_chop_char_ok {l l1 : Lexer} (h : Lexer_chop_char l = .ok l1) :
    (l.cur < l.source_len ∧ l1 = Lexer_step l) ∨ (¬ l.cur < l.source_len ∧ l1 = l) := by
  by_cases hlt : l.cur < l.source_len
  · left
    refine ⟨hlt, ?_⟩
    cases hc : l.source[l.cur]? with
    | none => simp [Lexer_chop_char, Lexer_is_not_empty, hlt, Lexer_read, hc] at h
    | some c =>
      rw [Lexer_chop_char_of_read hlt hc] at h
      exact (Except.ok.inj h).symm
  · right
    rw [Lexer_chop_char_of_empty hlt] at h
    exact ⟨hlt, (Except.ok.inj h).symm⟩

/-! ## `Lexer_step` and `Lexer_advance` -/

@[simp] theorem Lexer_step_cur (l : Lexer) : (Lexer_step l).cur = l.cur + 1 := by
  unfold Lexer_step; split <;> rfl

@[simp] theorem Lexer_step_source (l : Lexer) : (Lexer_step l).source = l.source := by
  unfold Lexer_step; split <;> rfl

@[simp] theorem Lexer_step_source_len (l : Lexer) : (Lexer_step l).source_len = l.source_len := by
  unfold Lexer_step; split <;> rfl

@[simp] theorem Lexer_step_file_path (l : Lexer) : (Lexer_step l).file_path = l.file_path := by
  unfold Lexer_step; split <;> rfl

@[simp] theorem Lexer_advance_zero (l : Lexer) : Lexer_advance 0 l = l := rfl

theorem Lexer_advance_succ (k : Nat) (l : Lexer) :
    Lexer_advance (k + 1) l = Lexer_advance k (Lexer_step l) := rfl

@[simp] theorem Lexer_advance_cur (k : Nat) (l : Lexer) : (Lexer_advance k l).cur = l.cur + k := by
  induction k generalizing l with
  | zero => rfl
  | succ k ih => rw [Lexer_advance_succ, ih, Lexer_step_cur]; omega

@[simp] theorem Lexer_advance_source (k : Nat) (l : Lexer) :
    (Lexer_advance k l).source = l.source := by
  induction k generalizing l with
  | zero => rfl
  | succ k ih => rw [Lexer_advance_succ, ih, Lexer_step_source]

@[simp] theorem Lexer_advance_source_len (k : Nat) (l : Lexer) :
    (Lexer_advance k l).source_len = l.source_len := by
  induction k generalizing l with
  | zero => rfl
  | succ k ih => rw [Lexer_advance_succ, ih, Lexer_step_source_len]

@[simp] theorem Lexer_advance_file_path (k : Nat) (l : Lexer) :
    (Lexer_advance k l).file_path = l.file_path := by
  induction k generalizing l with
  | zero => rfl
  | succ k ih => rw [Lexer_advance_succ, ih, Lexer_step_file_path]

theorem Lexer_advance_add (a b : Nat) (l : Lexer) :
    Lexer_advance (a + b) l = Lexer_advance b (Lexer_advance a l) := by
  induction a generalizing l with
  | zero => simp
  | succ a ih => rw [Nat.succ_add, Lexer_advance_succ, ih, Lexer_advance_succ]

theorem Lexer_advance_one (l : Lexer) : Lexer_advance 1 l = Lexer_step l := rfl

theorem Lexer_advance_succ_right (k : Nat) (l : Lexer) :
    Lexer_advance (k + 1) l = Lexer_step (Lexer_advance k l) := by
  rw [Lexer_advance_add]; rfl

theorem Lexer_wf_step {l : Lexer} (h : Lexer_wf l) : Lexer_wf (Lexer_step l) := by
  simpa [Lexer_wf] using h

theorem Lexer_wf_advance {l : Lexer} (k : Nat) (h : Lexer_wf l) : Lexer_wf (Lexer_advance k l) := by
  simpa [Lexer_wf] using h

/-- Under `Lexer_wf` a chop inside the buffer always succeeds. -/
theorem Lexer_chop_char_wf {l : Lexer} (hwf : Lexer_wf l) (h : l.cur < l.source_len) :
    Lexer_chop_char l = .ok (Lexer_step l) := by
  have hlt : l.cur < l.source.length := hwf ▸ h
  exact Lexer_chop_char_of_read h (List.getElem?_eq_getElem hlt)

/-! ## Line and column bookkeeping -/

theorem line_at_succ (src : List Nat) (p : Nat) :
    line_at src (p + 1) = line_at src p + (if src[p]? = some 10 then 1 else 0) := by
  unfold line_at
  by_cases hp : p < src.length
  · rw [List.take_succ, List.getElem?_eq_getElem hp]
    simp only [Option.toList_some, List.count_append, Option.some.injEq]
    by_cases h10 : src[p] = 10
    · simp [h10]
    · simp [h10, List.count_cons, Ne.symm h10]
  · have h1 : src.length ≤ p := Nat.le_of_not_lt hp
    rw [List.take_of_length_le (by omega), List.take_of_length_le h1]
    simp [List.getElem?_eq_none h1]

theorem bol_at_le (src : List Nat) (p : Nat) : bol_at src p ≤ p := by
  induction p with
  | zero => simp [bol_at]
  | succ p ih =>
    unfold bol_at
    split
    · exact Nat.le_refl _
    · omega

theorem Lexer_tracked_step {l : Lexer} (h : Lexer_tracked l) : Lexer_tracked (Lexer_step l) := by
  obtain ⟨hr, hb⟩ := h
  unfold Lexer_tracked
  by_cases h10 : l.source[l.cur]? = some 10
  · simp [Lexer_step, h10, line_at_succ, bol_at, hr]
  · simp [Lexer_step, h10, line_at_succ, bol_at, hr, hb]

theorem Lexer_tracked_advance {l : Lexer} (k : Nat) (h : Lexer_tracked l) :
    Lexer_tracked (Lexer_advance k l) := by
  induction k generalizing l with
  | zero => exact h
  | succ k ih => exact ih (Lexer_tracked_step h)

theorem Lexer_tracked_init (fp : String) (src : List Nat) : Lexer_tracked (Lexer_init fp src) := by
  simp [Lexer_tracked, Lexer_init, line_at, bol_at]

theorem size_sub_of_le {a b : Nat} (h : b ≤ a) : size_sub a b = a - b := by
  simp [size_sub, h]

/-- The first line-feed-free stretch: no line-feed lies between `bol_at` and `p`. -/
theorem bol_at_no_newline (src : List Nat) (p i : Nat) (h1 : bol_at src p ≤ i) (h2 : i < p) :
    src[i]? ≠ some 10 := by
  induction p with
  | zero => omega
  | succ p ih =>
    unfold bol_at at h1
    split at h1
    · omega
    · rename_i hne
      by_cases hip : i = p
      · subst hip; exact hne
      · exact ih h1 (by omega)

theorem bol_at_after_newline (src : List Nat) (p : Nat) :
    bol_at src p = 0 ∨ src[bol_at src p - 1]? = some 10 := by
  induction p with
  | zero => left; rfl
  | succ p ih =>
    unfold bol_at
    split
    · right; simpa
    · exact ih

/-! ## The punctuation table -/

theorem literal_tokens_at_of_lt {c : Nat} (h : c < 128) :
    literal_tokens_at c = .ok (literal_tokens c) := by
  simp [literal_tokens_at, h]

theorem literal_tokens_at_of_ge {c : Nat} (h : 128 ≤ c) :
    literal_tokens_at c = .error (.table_index ((c : Int) - 256)) := by
  have h1 : ¬ c < 128 := by omega
  simp [literal_tokens_at, char_value, h1]

theorem literal_tokens_at_ok {c : Nat} {type : Token_Type}
    (h : literal_tokens_at c = .ok type) : c < 128 ∧ type = literal_tokens c := by
  unfold literal_tokens_at at h
  split at h
  · rename_i hlt
    cases h
    exact ⟨hlt, rfl⟩
  · cases h

/-! ## The loops consume bytes one by one -/

theorem Lexer_chop_char_advance {l l1 : Lexer} (h : Lexer_chop_char l = .ok l1) :
    ∃ k, l1 = Lexer_advance k l := by
  rcases Lexer_chop_char_ok h with ⟨_, h1⟩ | ⟨_, h1⟩
  · exact ⟨1, h1⟩
  · exact ⟨0, h1⟩

theorem Lexer_advance_trans {l l1 l2 : Lexer} (h1 : ∃ k, l1 = Lexer_advance k l)
    (h2 : ∃ k, l2 = Lexer_advance k l1) : ∃ k, l2 = Lexer_advance k l := by
  obtain ⟨a, ha⟩ := h1
  obtain ⟨b, hb⟩ := h2
  exact ⟨a + b, by rw [hb, ha, Lexer_advance_add]⟩

theorem Lexer_chop_while_advance (p : Nat → Bool) :
    ∀ (fuel : Nat) (l l1 : Lexer), Lexer_chop_while p fuel l = .ok l1 →
      ∃ k, l1 = Lexer_advance k l := by
  intro fuel
  induction fuel with
  | zero => intro l l1 h; simp [Lexer_chop_while] at h
  | succ n ih =>
    intro l l1 h
    rw [Lexer_chop_while] at h
    split at h
    · split at h
      · cases h
      · split at h
        · split at h
          · cases h
          · rename_i l2 hchop
            exact Lexer_advance_trans (Lexer_chop_char_advance hchop) (ih _ _ h)
        · cases h; exact ⟨0, rfl⟩
    · cases h; exact ⟨0, rfl⟩

theorem Lexer_trim_advance {l l1 : Lexer} (h : Lexer_trim l = .ok l1) :
    ∃ k, l1 = Lexer_advance k l :=
  Lexer_chop_while_advance _ _ _ _ h

theorem Lexer_drop_advance {l l1 : Lexer} (h : Lexer_drop l = .ok l1) :
    ∃ k, l1 = Lexer_advance k l := by
  unfold Lexer_drop at h
  split at h
  · cases h
  · rename_i l2 hw
    have h2 := Lexer_chop_while_advance _ _ _ _ hw
    split at h
    · exact Lexer_advance_trans h2 (Lexer_chop_char_advance h)
    · cases h; exact h2

theorem Lexer_comments_advance :
    ∀ (fuel : Nat) (l l1 : Lexer), Lexer_comments fuel l = .ok l1 →
      ∃ k, l1 = Lexer_advance k l := by
  intro fuel
  induction fuel with
  | zero => intro l l1 h; simp [Lexer_comments] at h
  | succ n ih =>
    intro l l1 h
    rw [Lexer_comments] at h
    split at h
    · split at h
      · cases h
      · split at h
        · split at h
          · cases h
          · split at h
            · split at h
              · cases h
              · rename_i l2 hd
                split at h
                · cases h
                · rename_i l3 ht
                  exact Lexer_advance_trans
                    (Lexer_advance_trans (Lexer_drop_advance hd) (Lexer_trim_advance ht)) (ih _ _ h)
            · cases h; exact ⟨0, rfl⟩
        · cases h; exact ⟨0, rfl⟩
    · cases h; exact ⟨0, rfl⟩

theorem Lexer_skip_trivia_advance {l l1 : Lexer} (h : Lexer_skip_trivia l = .ok l1) :
    ∃ k, l1 = Lexer_advance k l := by
  unfold Lexer_skip_trivia at h
  split at h
  · cases h
  · rename_i l2 ht
    exact Lexer_advance_trans (Lexer_trim_advance ht) (Lexer_comments_advance _ _ _ h)

theorem Lexer_string_loop_advance :
    ∀ (fuel : Nat) (l l1 : Lexer), Lexer_string_loop fuel l = .ok l1 →
      ∃ k, l1 = Lexer_advance k l := by
  intro fuel
  induction fuel with
  | zero => intro l l1 h; simp [Lexer_string_loop] at h
  | succ n ih =>
    intro l l1 h
    rw [Lexer_string_loop] at h
    split at h
    · split at h
      · cases h
      · split at h
        · cases h; exact ⟨0, rfl⟩
        · split at h
          · split at h
            · cases h
            · rename_i l2 h2
              split at h
              · cases h
              · rename_i l3 h3
                exact Lexer_advance_trans
                  (Lexer_advance_trans (Lexer_chop_char_advance h2) (Lexer_chop_char_advance h3))
                  (ih _ _ h)
          · split at h
            · cases h
            · rename_i l2 h2
              exact Lexer_advance_trans (Lexer_chop_char_advance h2) (ih _ _ h)
    · cases h; exact ⟨0, rfl⟩

theorem Lexer_char_loop_advance :
    ∀ (fuel : Nat) (l l1 : Lexer), Lexer_char_loop fuel l = .ok l1 →
      ∃ k, l1 = Lexer_advance k l := by
  intro fuel
  induction fuel with
  | zero => intro l l1 h; simp [Lexer_char_loop] at h
  | succ n ih =>
    intro l l1 h
    rw [Lexer_char_loop] at h
    split at h
    · split at h
      · cases h
      · split at h
        · cases h; exact ⟨0, rfl⟩
        · split at h
          · split at h
            · cases h
            · rename_i l2 h2
              split at h
              · cases h
              · rename_i l3 h3
                exact Lexer_advance_trans
                  (Lexer_advance_trans (Lexer_chop_char_advance h2) (Lexer_chop_char_advance h3))
                  (ih _ _ h)
          · split at h
            · cases h
            · rename_i l2 h2
              exact Lexer_advance_trans (Lexer_chop_char_advance h2) (ih _ _ h)
    · cases h; exact ⟨0, rfl⟩

/-! ## The branches: where the token is located and what is consumed -/

theorem Lexer_name_spec {l l1 : Lexer} {loc : Location} {t : Token}
    (h : Lexer_name l loc = .ok (t, l1)) :
    t.location = loc ∧ t.type = TOKEN_NAME ∧ ∃ k, l1 = Lexer_advance k l := by
  unfold Lexer_name at h
  split at h
  · cases h
  · rename_i l2 hw
    cases h
    exact ⟨rfl, rfl, Lexer_chop_while_advance _ _ _ _ hw⟩

theorem Lexer_literal_spec {l l1 : Lexer} {loc : Location} {first : Nat} {t : Token}
    (h : Lexer_literal l loc first = .ok (t, l1)) :
    t.location = loc ∧ literal_tokens_at first = .ok t.type ∧
      ∃ k, l1 = Lexer_advance k l := by
  unfold Lexer_literal at h
  split at h
  · cases h
  · rename_i l2 hc
    split at h
    · cases h
    · rename_i type hat
      split at h
      · cases h
      · cases h
        exact ⟨rfl, hat, Lexer_chop_char_advance hc⟩

theorem Lexer_string_spec {l l1 : Lexer} {loc : Location} {ot : Option Token}
    (h : Lexer_string l loc = .ok (ot, l1)) :
    (∀ t, ot = some t → t.location = loc ∧ t.type = TOKEN_STRING) ∧
      ∃ k, l1 = Lexer_advance k l := by
  unfold Lexer_string at h
  split at h
  · cases h
  · rename_i l2 hc
    simp only at h
    split at h
    · cases h
    · rename_i l3 hl
      have h3 := Lexer_advance_trans (Lexer_chop_char_advance hc) (Lexer_string_loop_advance _ _ _ hl)
      split at h
      · split at h
        · cases h
        · rename_i l4 hc4
          cases h
          refine ⟨?_, Lexer_advance_trans h3 (Lexer_chop_char_advance hc4)⟩
          intro t ht
          cases ht
          exact ⟨rfl, rfl⟩
      · cases h
        exact ⟨fun t ht => (by cases ht), h3⟩

theorem Lexer_char_spec {l l1 : Lexer} {loc : Location} {ot : Option Token}
    (h : Lexer_char l loc = .ok (ot, l1)) :
    (∀ t, ot = some t → t.location = loc ∧ t.type = TOKEN_CHAR) ∧
      ∃ k, l1 = Lexer_advance k l := by
  unfold Lexer_char at h
  split at h
  · cases h
  · rename_i l2 hc
    simp only at h
    split at h
    · cases h
    · rename_i l3 hl
      have h3 := Lexer_advance_trans (Lexer_chop_char_advance hc) (Lexer_char_loop_advance _ _ _ hl)
      split at h
      · split at h
        · cases h
        · rename_i l4 hc4
          cases h
          refine ⟨?_, Lexer_advance_trans h3 (Lexer_chop_char_advance hc4)⟩
          intro t ht
          cases ht
          exact ⟨rfl, rfl⟩
      · cases h
        exact ⟨fun t ht => (by cases ht), h3⟩

theorem Lexer_number_spec {l l1 : Lexer} {loc : Location} {t : Token}
    (h : Lexer_number l loc = .ok (t, l1)) :
    t.location = loc ∧ t.type = TOKEN_NUMBER ∧ ∃ k, l1 = Lexer_advance k l := by
  unfold Lexer_number at h
  split at h
  · cases h
  · rename_i l2 hw
    simp only at h
    split at h
    · cases h
    · cases h
      exact ⟨rfl, rfl, Lexer_chop_while_advance _ _ _ _ hw⟩

theorem Lexer_select_ne_null (l : Lexer) (type : Token_Type) (alts : List (Nat × Token_Type))
    (h0 : type ≠ TOKEN_NULL) (halts : ∀ a ∈ alts, a.2 ≠ TOKEN_NULL) {t : Token_Type}
    (h : Lexer_select l type alts = .ok t) : t ≠ TOKEN_NULL := by
  induction alts with
  | nil => simp [Lexer_select] at h; exact h ▸ h0
  | cons a alts ih =>
    obtain ⟨c, ty⟩ := a
    rw [Lexer_select] at h
    split at h
    · cases h
    · cases h
      exact halts (c, t) (List.mem_cons_self _ _)
    · exact ih (fun a ha => halts a (List.mem_cons_of_mem _ ha)) h

theorem operator_cases_ne_null {first : Nat} {type : Token_Type} {alts : List (Nat × Token_Type)}
    (h : operator_cases first = some (type, alts)) :
    type ≠ TOKEN_NULL ∧ ∀ a ∈ alts, a.2 ≠ TOKEN_NULL := by
  unfold operator_cases at h
  split at h <;> cases h <;> simp

theorem Lexer_operator_spec {l l1 : Lexer} {loc : Location} {first : Nat} {t : Token}
    (h : Lexer_operator l loc first = .ok (t, l1)) :
    t.location = loc ∧ t.type ≠ TOKEN_NULL ∧ ∃ k, l1 = Lexer_advance k l := by
  unfold Lexer_operator at h
  simp only at h
  split at h
  · cases h
  · rename_i type alts hcase
    split at h
    · cases h
    · rename_i l2 hc
      split at h
      · cases h
      · rename_i ty hs
        cases h
        obtain ⟨h0, ha⟩ := operator_cases_ne_null hcase
        exact ⟨rfl, Lexer_select_ne_null _ _ _ h0 ha hs, Lexer_chop_char_advance hc⟩

/-- A call of the classifier that returns gives the sentinel and consumes
nothing, or gives a token located at the entry cursor. -/
theorem Lexer_dispatch_spec {l l1 : Lexer} {t : Token} (h : Lexer_dispatch l = .ok (t, l1)) :
    (t.type ≠ TOKEN_NULL → t.location = Lexer_location l ∧ l.cur < l.source_len) ∧
      ∃ k, l1 = Lexer_advance k l := by
  unfold Lexer_dispatch at h
  split at h
  · cases h
    exact ⟨fun hne => absurd rfl hne, 0, rfl⟩
  · rename_i hne
    have hlt : l.cur < l.source_len := by
      simpa [Lexer_is_empty, Lexer_is_not_empty] using hne
    simp only at h
    split at h
    · cases h
    · rename_i first hread
      split at h
      · obtain ⟨h1, _, h3⟩ := Lexer_name_spec h
        exact ⟨fun _ => ⟨h1, hlt⟩, h3⟩
      · split at h
        · cases h
        · split at h
          · obtain ⟨h1, _, h3⟩ := Lexer_literal_spec h
            exact ⟨fun _ => ⟨h1, hlt⟩, h3⟩
          · split at h
            · cases h
            · rename_i tok l2 hs
              cases h
              have hs2 : ∃ k, l1 = Lexer_advance k l ∧ t.location = Lexer_location l := by
                split at hs
                · obtain ⟨ha, hb⟩ := Lexer_string_spec hs
                  obtain ⟨k, hk⟩ := hb
                  exact ⟨k, hk, (ha _ rfl).1⟩
                · cases hs
              obtain ⟨k, hk, hloc⟩ := hs2
              exact ⟨fun _ => ⟨hloc, hlt⟩, k, hk⟩
            · rename_i l2 hs
              have hs2 : ∃ k, l2 = Lexer_advance k l := by
                split at hs
                · exact (Lexer_string_spec hs).2
                · cases hs; exact ⟨0, rfl⟩
              split at h
              · cases h
              · rename_i tok l3 hc
                cases h
                have hc2 : ∃ k, l1 = Lexer_advance k l2 ∧ t.location = Lexer_location l := by
                  split at hc
                  · obtain ⟨ha, hb⟩ := Lexer_char_spec hc
                    obtain ⟨k, hk⟩ := hb
                    exact ⟨k, hk, (ha _ rfl).1⟩
                  · cases hc
                obtain ⟨k, hk, hloc⟩ := hc2
                exact ⟨fun _ => ⟨hloc, hlt⟩, Lexer_advance_trans hs2 ⟨k, hk⟩⟩
              · rename_i l3 hc
                have hc2 : ∃ k, l3 = Lexer_advance k l2 := by
                  split at hc
                  · exact (Lexer_char_spec hc).2
                  · cases hc; exact ⟨0, rfl⟩
                have h23 := Lexer_advance_trans hs2 hc2
                split at h
                · obtain ⟨h1, _, h3⟩ := Lexer_number_spec h
                  exact ⟨fun _ => ⟨h1, hlt⟩, Lexer_advance_trans h23 h3⟩
                · obtain ⟨h1, _, h3⟩ := Lexer_operator_spec h
                  exact ⟨fun _ => ⟨h1, hlt⟩, Lexer_advance_trans h23 h3⟩

theorem Lexer_next_token_spec {l l1 : Lexer} {t : Token} (h : Lexer_next_token l = .ok (t, l1)) :
    ∃ lp, Lexer_skip_trivia l = .ok lp ∧ Lexer_dispatch lp = .ok (t, l1) ∧
      (∃ k, lp = Lexer_advance k l) ∧ (∃ k, l1 = Lexer_advance k lp) ∧
      (t.type ≠ TOKEN_NULL → t.location = Lexer_location lp ∧ lp.cur < lp.source_len) := by
  unfold Lexer_next_token at h
  split at h
  · cases h
  · rename_i lp hs
    obtain ⟨h1, h2⟩ := Lexer_dispatch_spec h
    exact ⟨lp, hs, h, Lexer_skip_trivia_advance hs, h2, h1⟩

/-! ## Closed forms of the loops on a well-formed buffer -/

theorem Lexer_getElem?_cur {l : Lexer} (hwf : Lexer_wf l) (h : l.cur < l.source_len) :
    ∃ c, l.source[l.cur]? = some c ∧ l.source.drop l.cur = c :: l.source.drop (l.cur + 1) := by
  have hlt : l.cur < l.source.length := hwf ▸ h
  exact ⟨l.source[l.cur], List.getElem?_eq_getElem hlt, List.drop_eq_getElem_cons hlt⟩

theorem Lexer_drop_cur_nil {l : Lexer} (hwf : Lexer_wf l) (h : ¬ l.cur < l.source_len) :
    l.source.drop l.cur = [] := by
  apply List.drop_eq_nil_of_le
  rw [← hwf]; omega

theorem Lexer_chop_while_wf (p : Nat → Bool) :
    ∀ (fuel : Nat) (l : Lexer), Lexer_wf l → l.source_len - l.cur < fuel →
      Lexer_chop_while p fuel l
        = .ok (Lexer_advance ((l.source.drop l.cur).takeWhile p).length l) := by
  intro fuel
  induction fuel with
  | zero => intro l _ hf; omega
  | succ n ih =>
    intro l hwf hf
    rw [Lexer_chop_while]
    by_cases hlt : l.cur < l.source_len
    · obtain ⟨c, hc, hdrop⟩ := Lexer_getElem?_cur hwf hlt
      rw [hdrop]
      simp only [Lexer_is_not_empty, hlt, decide_True, if_true, Lexer_read_of_getElem? hc]
      by_cases hp : p c = true
      · have ih1 := ih (Lexer_step l) (Lexer_wf_step hwf)
          (by simp only [Lexer_step_source_len, Lexer_step_cur]; omega)
        simp only [Lexer_step_source, Lexer_step_cur] at ih1
        simp only [hp, if_true, Lexer_chop_char_of_read hlt hc, ih1, List.takeWhile_cons_of_pos,
          List.length_cons, Lexer_advance_succ]
      · simp [hp]
    · simp [Lexer_is_not_empty, hlt, Lexer_drop_cur_nil hwf hlt]

theorem Lexer_trim_wf {l : Lexer} (hwf : Lexer_wf l) :
    Lexer_trim l = .ok (Lexer_advance ((l.source.drop l.cur).takeWhile isspace).length l) :=
  Lexer_chop_while_wf _ _ _ hwf (by unfold Lexer_fuel; omega)

/-- What lies at the cursor after `k` bytes were consumed. -/
theorem Lexer_advance_drop (k : Nat) (l : Lexer) :
    (Lexer_advance k l).source.drop (Lexer_advance k l).cur = (l.source.drop l.cur).drop k := by
  simp [List.drop_drop, Nat.add_comm]

theorem takeWhile_length_le {α : Type} (p : α → Bool) (xs : List α) :
    (xs.takeWhile p).length ≤ xs.length := by
  induction xs with
  | nil => simp
  | cons x xs ih =>
    by_cases h : p x = true
    · simp [List.takeWhile_cons_of_pos h]; exact ih
    · simp [List.takeWhile_cons_of_neg h]

theorem drop_takeWhile_length {α : Type} (p : α → Bool) (xs : List α) :
    xs.drop (xs.takeWhile p).length = xs.dropWhile p := by
  induction xs with
  | nil => simp
  | cons x xs ih =>
    by_cases h : p x = true
    · simp [List.takeWhile_cons_of_pos h, List.dropWhile_cons_of_pos h, ih]
    · simp [List.takeWhile_cons_of_neg h, List.dropWhile_cons_of_neg h]

/-- The trim loop stops on a byte that is not white space, or at the end. -/
theorem Lexer_trim_wf_rest {l : Lexer} (hwf : Lexer_wf l) :
    ∃ l1, Lexer_trim l = .ok l1 ∧ Lexer_wf l1 ∧
      l1.source.drop l1.cur = (l.source.drop l.cur).dropWhile isspace ∧
      (∃ k, l1 = Lexer_advance k l) := by
  refine ⟨_, Lexer_trim_wf hwf, Lexer_wf_advance _ hwf, ?_, _, rfl⟩
  rw [Lexer_advance_drop, drop_takeWhile_length]

theorem Lexer_cur_lt_of_drop_cons {l : Lexer} (hwf : Lexer_wf l) {c : Nat} {cs : List Nat}
    (h : l.source.drop l.cur = c :: cs) :
    l.cur < l.source_len ∧ l.source[l.cur]? = some c ∧ l.source.drop (l.cur + 1) = cs := by
  have hlt : l.cur < l.source.length := by
    by_contra hge
    rw [List.drop_eq_nil_of_le (Nat.le_of_not_lt hge)] at h
    cases h
  rw [List.drop_eq_getElem_cons hlt] at h
  injection h with h1 h2
  exact ⟨hwf ▸ hlt, by rw [List.getElem?_eq_getElem hlt, h1], h2⟩

theorem Lexer_cur_ge_of_drop_nil {l : Lexer} (hwf : Lexer_wf l)
    (h : l.source.drop l.cur = []) : ¬ l.cur < l.source_len := by
  intro hlt
  obtain ⟨c, _, hd⟩ := Lexer_getElem?_cur hwf hlt
  rw [hd] at h
  cases h

theorem closing_offset_cons (q c : Nat) (cs : List Nat) :
    closing_offset q (c :: cs) =
      if c = q then some 0
      else if c = 92 then
        match cs with
        | [] => none
        | _ :: cs1 => (closing_offset q cs1).map (· + 2)
      else (closing_offset q cs).map (· + 1) := by
  exact closing_offset.eq_def q (c :: cs)

/-- The string loop stops on the closing quote when there is one. -/
theorem Lexer_string_loop_closing :
    ∀ (fuel : Nat) (l : Lexer) (d : Nat), Lexer_wf l → l.source_len - l.cur < fuel →
      closing_offset 34 (l.source.drop l.cur) = some d →
      Lexer_string_loop fuel l = .ok (Lexer_advance d l) := by
  intro fuel
  induction fuel with
  | zero => intro l d _ hf; omega
  | succ n ih =>
    intro l d hwf hf hclose
    rw [Lexer_string_loop]
    by_cases hlt : l.cur < l.source_len
    · obtain ⟨c, hc, hdrop⟩ := Lexer_getElem?_cur hwf hlt
      rw [hdrop, closing_offset_cons] at hclose
      simp only [Lexer_is_not_empty, hlt, decide_True, if_true, Lexer_read_of_getElem? hc]
      by_cases h34 : c = 34
      · simp only [h34, if_true, Option.some.injEq] at hclose
        simp [h34, ← hclose]
      · simp only [h34, if_false] at hclose ⊢
        have hwf1 := Lexer_wf_step hwf
        by_cases h92 : c = 92
        · simp only [h92, if_true] at hclose ⊢
          rw [Lexer_chop_char_of_read hlt hc]
          cases hrest : l.source.drop (l.cur + 1) with
          | nil => rw [hrest] at hclose; simp at hclose
          | cons c2 cs2 =>
            rw [hrest] at hclose
            simp only [Option.map_eq_some'] at hclose
            obtain ⟨d1, hd1, hd⟩ := hclose
            have hrest1 : (Lexer_step l).source.drop (Lexer_step l).cur = c2 :: cs2 := by
              simpa using hrest
            obtain ⟨hlt1, hc1, hdrop1⟩ := Lexer_cur_lt_of_drop_cons hwf1 hrest1
            simp only [Lexer_chop_char_of_read hlt1 hc1]
            have ih1 := ih (Lexer_step (Lexer_step l)) d1 (Lexer_wf_step hwf1)
              (by simp only [Lexer_step_source_len, Lexer_step_cur]; omega)
              (by simp only [Lexer_step_source, Lexer_step_cur] at hdrop1 ⊢; rw [hdrop1]; exact hd1)
            rw [ih1, ← hd]
            rfl
        · simp only [h92, if_false, Option.map_eq_some'] at hclose ⊢
          obtain ⟨d1, hd1, hd⟩ := hclose
          simp only [Lexer_chop_char_of_read hlt hc]
          have ih1 := ih (Lexer_step l) d1 hwf1
            (by simp only [Lexer_step_source_len, Lexer_step_cur]; omega)
            (by simpa using hd1)
          rw [ih1, ← hd]
          rfl
    · rw [Lexer_drop_cur_nil hwf hlt] at hclose
      simp [closing_offset] at hclose

/-- Without a closing quote the string loop runs to the end of input. -/
theorem Lexer_string_loop_open :
    ∀ (fuel : Nat) (l : Lexer), Lexer_wf l → l.source_len - l.cur < fuel →
      closing_offset 34 (l.source.drop l.cur) = none →
      ∃ l1, Lexer_string_loop fuel l = .ok l1 ∧ ¬ l1.cur < l1.source_len ∧
        ∃ k, l1 = Lexer_advance k l := by
  intro fuel
  induction fuel with
  | zero => intro l _ hf; omega
  | succ n ih =>
    intro l hwf hf hclose
    rw [Lexer_string_loop]
    by_cases hlt : l.cur < l.source_len
    · obtain ⟨c, hc, hdrop⟩ := Lexer_getElem?_cur hwf hlt
      rw [hdrop, closing_offset_cons] at hclose
      simp only [Lexer_is_not_empty, hlt, decide_True, if_true, Lexer_read_of_getElem? hc]
      by_cases h34 : c = 34
      · simp [h34] at hclose
      · simp only [h34, if_false] at hclose ⊢
        have hwf1 := Lexer_wf_step hwf
        by_cases h92 : c = 92
        · simp only [h92, if_true] at hclose ⊢
          rw [Lexer_chop_char_of_read hlt hc]
          cases hrest : l.source.drop (l.cur + 1) with
          | nil =>
            have hrest1 : (Lexer_step l).source.drop (Lexer_step l).cur = [] := by
              simpa using hrest
            have hge := Lexer_cur_ge_of_drop_nil hwf1 hrest1
            simp only [Lexer_chop_char_of_empty hge]
            cases n with
            | zero => simp only [Lexer_step_source_len, Lexer_step_cur] at hge; omega
            | succ m =>
              rw [Lexer_string_loop]
              simp only [Lexer_is_not_empty, hge, decide_False]
              exact ⟨_, rfl, hge, 1, rfl⟩
          | cons c2 cs2 =>
            rw [hrest] at hclose
            simp only [Option.map_eq_none'] at hclose
            have hrest1 : (Lexer_step l).source.drop (Lexer_step l).cur = c2 :: cs2 := by
              simpa using hrest
            obtain ⟨hlt1, hc1, hdrop1⟩ := Lexer_cur_lt_of_drop_cons hwf1 hrest1
            simp only [Lexer_chop_char_of_read hlt1 hc1]
            obtain ⟨l1, h1, h2, k, hk⟩ := ih (Lexer_step (Lexer_step l)) (Lexer_wf_step hwf1)
              (by simp only [Lexer_step_source_len, Lexer_step_cur]; omega)
              (by simp only [Lexer_step_source, Lexer_step_cur] at hdrop1 ⊢; rw [hdrop1]; exact hclose)
            exact ⟨l1, h1, h2, k + 2, by rw [hk]; rfl⟩
        · simp only [h92, if_false, Option.map_eq_none'] at hclose ⊢
          simp only [Lexer_chop_char_of_read hlt hc]
          obtain ⟨l1, h1, h2, k, hk⟩ := ih (Lexer_step l) hwf1
            (by simp only [Lexer_step_source_len, Lexer_step_cur]; omega)
            (by simpa using hclose)
          exact ⟨l1, h1, h2, k + 1, by rw [hk]; rfl⟩
    · simp only [Lexer_is_not_empty, hlt, decide_False]
      exact ⟨l, rfl, hlt, 0, rfl⟩

/-- The char loop stops on the closing quote when there is one. -/
theorem Lexer_char_loop_closing :
    ∀ (fuel : Nat) (l : Lexer) (d : Nat), Lexer_wf l → l.source_len - l.cur < fuel →
      closing_offset 39 (l.source.drop l.cur) = some d →
      Lexer_char_loop fuel l = .ok (Lexer_advance d l) := by
  intro fuel
  induction fuel with
  | zero => intro l d _ hf; omega
  | succ n ih =>
    intro l d hwf hf hclose
    rw [Lexer_char_loop]
    by_cases hlt : l.cur < l.source_len
    · obtain ⟨c, hc, hdrop⟩ := Lexer_getElem?_cur hwf hlt
      rw [hdrop, closing_offset_cons] at hclose
      simp only [Lexer_is_not_empty, hlt, decide_True, if_true, Lexer_read_of_getElem? hc]
      by_cases h39 : c = 39
      · simp only [h39, if_true, Option.some.injEq] at hclose
        simp [h39, ← hclose]
      · simp only [h39, if_false] at hclose ⊢
        have hwf1 := Lexer_wf_step hwf
        by_cases h92 : c = 92
        · simp only [h92, if_true] at hclose ⊢
          rw [Lexer_chop_char_of_read hlt hc]
          cases hrest : l.source.drop (l.cur + 1) with
          | nil => rw [hrest] at hclose; simp at hclose
          | cons c2 cs2 =>
            rw [hrest] at hclose
            simp only [Option.map_eq_some'] at hclose
            obtain ⟨d1, hd1, hd⟩ := hclose
            have hrest1 : (Lexer_step l).source.drop (Lexer_step l).cur = c2 :: cs2 := by
              simpa using hrest
            obtain ⟨hlt1, hc1, hdrop1⟩ := Lexer_cur_lt_of_drop_cons hwf1 hrest1
            simp only [Lexer_chop_char_of_read hlt1 hc1]
            have ih1 := ih (Lexer_step (Lexer_step l)) d1 (Lexer_wf_step hwf1)
              (by simp only [Lexer_step_source_len, Lexer_step_cur]; omega)
              (by simp only [Lexer_step_source, Lexer_step_cur] at hdrop1 ⊢; rw [hdrop1]; exact hd1)
            rw [ih1, ← hd]
            rfl
        · simp only [h92, if_false, Option.map_eq_some'] at hclose ⊢
          obtain ⟨d1, hd1, hd⟩ := hclose
          simp only [Lexer_chop_char_of_read hlt hc]
          have ih1 := ih (Lexer_step l) d1 hwf1
            (by simp only [Lexer_step_source_len, Lexer_step_cur]; omega)
            (by simpa using hd1)
          rw [ih1, ← hd]
          rfl
    · rw [Lexer_drop_cur_nil hwf hlt] at hclose
      simp [closing_offset] at hclose

/-- Without a closing quote the char loop runs to the end of input. -/
theorem Lexer_char_loop_open :
    ∀ (fuel : Nat) (l : Lexer), Lexer_wf l → l.source_len - l.cur < fuel →
      closing_offset 39 (l.source.drop l.cur) = none →
      ∃ l1, Lexer_char_loop fuel l = .ok l1 ∧ ¬ l1.cur < l1.source_len ∧
        ∃ k, l1 = Lexer_advance k l := by
  intro fuel
  induction fuel with
  | zero => intro l _ hf; omega
  | succ n ih =>
    intro l hwf hf hclose
    rw [Lexer_char_loop]
    by_cases hlt : l.cur < l.source_len
    · obtain ⟨c, hc, hdrop⟩ := Lexer_getElem?_cur hwf hlt
      rw [hdrop, closing_offset_cons] at hclose
      simp only [Lexer_is_not_empty, hlt, decide_True, if_true, Lexer_read_of_getElem? hc]
      by_cases h39 : c = 39
      · simp [h39] at hclose
      · simp only [h39, if_false] at hclose ⊢
        have hwf1 := Lexer_wf_step hwf
        by_cases h92 : c = 92
        · simp only [h92, if_true] at hclose ⊢
          rw [Lexer_chop_char_of_read hlt hc]
          cases hrest : l.source.drop (l.cur + 1) with
          | nil =>
            have hrest1 : (Lexer_step l).source.drop (Lexer_step l).cur = [] := by
              simpa using hrest
            have hge := Lexer_cur_ge_of_drop_nil hwf1 hrest1
            simp only [Lexer_chop_char_of_empty hge]
            cases n with
            | zero => simp only [Lexer_step_source_len, Lexer_step_cur] at hge; omega
            | succ m =>
              rw [Lexer_char_loop]
              simp only [Lexer_is_not_empty, hge, decide_False]
              exact ⟨_, rfl, hge, 1, rfl⟩
          | cons c2 cs2 =>
            rw [hrest] at hclose
            simp only [Option.map_eq_none'] at hclose
            have hrest1 : (Lexer_step l).source.drop (Lexer_step l).cur = c2 :: cs2 := by
              simpa using hrest
            obtain ⟨hlt1, hc1, hdrop1⟩ := Lexer_cur_lt_of_drop_cons hwf1 hrest1
            simp only [Lexer_chop_char_of_read hlt1 hc1]
            obtain ⟨l1, h1, h2, k, hk⟩ := ih (Lexer_step (Lexer_step l)) (Lexer_wf_step hwf1)
              (by simp only [Lexer_step_source_len, Lexer_step_cur]; omega)
              (by simp only [Lexer_step_source, Lexer_step_cur] at hdrop1 ⊢; rw [hdrop1]; exact hclose)
            exact ⟨l1, h1, h2, k + 2, by rw [hk]; rfl⟩
        · simp only [h92, if_false, Option.map_eq_none'] at hclose ⊢
          simp only [Lexer_chop_char_of_read hlt hc]
          obtain ⟨l1, h1, h2, k, hk⟩ := ih (Lexer_step l) hwf1
            (by simp only [Lexer_step_source_len, Lexer_step_cur]; omega)
            (by simpa using hclose)
          exact ⟨l1, h1, h2, k + 1, by rw [hk]; rfl⟩
    · simp only [Lexer_is_not_empty, hlt, decide_False]
      exact ⟨l, rfl, hlt, 0, rfl⟩

/-! ## The trivia skip -/

theorem Lexer_rest_length {l : Lexer} (hwf : Lexer_wf l) :
    (l.source.drop l.cur).length = l.source_len - l.cur := by
  rw [List.length_drop, hwf]

theorem dropWhile_head {α : Type} (p : α → Bool) (xs : List α) :
    xs.dropWhile p = [] ∨ ∃ c cs, xs.dropWhile p = c :: cs ∧ p c = false := by
  induction xs with
  | nil => left; rfl
  | cons x xs ih =>
    by_cases h : p x = true
    · rw [List.dropWhile_cons_of_pos h]; exact ih
    · right
      exact ⟨x, xs, List.dropWhile_cons_of_neg h, by simpa using h⟩

theorem dropWhile_length_le {α : Type} (p : α → Bool) (xs : List α) :
    (xs.dropWhile p).length ≤ xs.length := by
  induction xs with
  | nil => simp
  | cons x xs ih =>
    by_cases h : p x = true
    · rw [List.dropWhile_cons_of_pos h]; simp; omega
    · rw [List.dropWhile_cons_of_neg h]

/-- On a well-formed buffer `Lexer_drop` leaves the cursor after the next
line-feed, or at the end of input. -/
theorem Lexer_drop_wf {l : Lexer} (hwf : Lexer_wf l) :
    ∃ l1, Lexer_drop l = .ok l1 ∧ Lexer_wf l1 ∧
      l1.source.drop l1.cur = ((l.source.drop l.cur).dropWhile (fun c => c != 10)).tail ∧
      ∃ k, l1 = Lexer_advance k l := by
  unfold Lexer_drop
  rw [Lexer_chop_while_wf _ _ _ hwf (by unfold Lexer_fuel; omega)]
  simp only
  generalize hk : ((l.source.drop l.cur).takeWhile (fun c => c != 10)).length = k
  have hrest : (Lexer_advance k l).source.drop (Lexer_advance k l).cur
      = (l.source.drop l.cur).dropWhile (fun c => c != 10) := by
    rw [Lexer_advance_drop, ← hk, drop_takeWhile_length]
  have hwf1 : Lexer_wf (Lexer_advance k l) := Lexer_wf_advance k hwf
  by_cases hlt : (Lexer_advance k l).cur < (Lexer_advance k l).source_len
  · simp only [Lexer_is_not_empty, hlt, decide_True, if_true]
    rw [Lexer_chop_char_wf hwf1 hlt]
    refine ⟨_, rfl, Lexer_wf_step hwf1, ?_, k + 1, (Lexer_advance_succ_right k l).symm⟩
    obtain ⟨c, _, hd⟩ := Lexer_getElem?_cur hwf1 hlt
    rw [← hrest, hd]
    simp
  · simp only [Lexer_is_not_empty, hlt, decide_False]
    refine ⟨_, rfl, hwf1, ?_, k, rfl⟩
    rw [← hrest, Lexer_drop_cur_nil hwf1 hlt]
    rfl

theorem trivia_scan_dropWhile (xs : List Nat) (h : trivia_scan false xs = true) :
    trivia_scan false (xs.dropWhile isspace) = true := by
  induction xs with
  | nil => exact h
  | cons x xs ih =>
    by_cases hx : isspace x = true
    · rw [List.dropWhile_cons_of_pos hx]
      apply ih
      rw [trivia_scan.eq_def] at h
      simpa [hx] using h
    · rw [List.dropWhile_cons_of_neg hx]; exact h

theorem trivia_scan_comment (xs : List Nat) :
    trivia_scan true xs = trivia_scan false (xs.dropWhile (fun c => c != 10)).tail := by
  induction xs with
  | nil => rfl
  | cons x xs ih =>
    rw [trivia_scan.eq_def]
    by_cases hx : x = 10
    · subst hx; simp
    · have : (x != 10) = true := by simpa using hx
      simp only [this]
      rw [List.dropWhile_cons_of_pos (by simpa using hx)]
      exact ih

/-- A significant byte that opens trivia-only bytes can only open a comment. -/
theorem trivia_scan_comment_start {c : Nat} {cs : List Nat} (hc : isspace c = false)
    (h : trivia_scan false (c :: cs) = true) :
    c = 47 ∧ ∃ cs1, cs = 47 :: cs1 ∧ trivia_scan true cs1 = true := by
  rw [trivia_scan.eq_def] at h
  simp only [hc, Bool.false_eq_true, if_false] at h
  split at h
  · exact ⟨rfl, _, rfl, h⟩
  · cases h

/-- On bytes that are white space and comments only, the comment loop runs to
the end of input. -/
theorem Lexer_comments_trivia :
    ∀ (fuel : Nat) (l : Lexer), Lexer_wf l → l.source_len - l.cur < fuel →
      trivia_scan false (l.source.drop l.cur) = true →
      (l.source.drop l.cur = [] ∨ ∃ c cs, l.source.drop l.cur = c :: cs ∧ isspace c = false) →
      ∃ l1, Lexer_comments fuel l = .ok l1 ∧ ¬ l1.cur < l1.source_len ∧
        ∃ k, l1 = Lexer_advance k l := by
  intro fuel
  induction fuel with
  | zero => intro l _ hf; omega
  | succ n ih =>
    intro l hwf hf htriv hhead
    rw [Lexer_comments]
    rcases hhead with hnil | ⟨c, cs, hcons, hsp⟩
    · have hge := Lexer_cur_ge_of_drop_nil hwf hnil
      simp only [Lexer_is_not_empty, hge, decide_False]
      exact ⟨l, rfl, hge, 0, rfl⟩
    · obtain ⟨hlt, hc, hd1⟩ := Lexer_cur_lt_of_drop_cons hwf hcons
      rw [hcons] at htriv
      obtain ⟨h47, cs1, hcs, hcomment⟩ := trivia_scan_comment_start hsp htriv
      subst h47; subst hcs
      have hc2 : l.source[l.cur + 1]? = some 47 := by
        have := congrArg List.head? hd1
        simpa [List.head?_drop] using this
      simp only [Lexer_is_not_empty, hlt, decide_True, if_true, Lexer_read_of_getElem? hc,
        Lexer_read_of_getElem? hc2]
      obtain ⟨l2, hdrop, hwf2, hrest2, k2, hk2⟩ := Lexer_drop_wf hwf
      obtain ⟨l3, htrim, hwf3, hrest3, k3, hk3⟩ := Lexer_trim_wf_rest hwf2
      rw [hdrop]
      simp only [htrim]
      rw [hcons] at hrest2
      have hdw : List.dropWhile (fun c => c != 10) (47 :: 47 :: cs1)
          = List.dropWhile (fun c => c != 10) cs1 := by
        simp [List.dropWhile]
      rw [hdw] at hrest2
      have htriv2 : trivia_scan false (l2.source.drop l2.cur) = true := by
        rw [hrest2, ← trivia_scan_comment]; exact hcomment
      have htriv3 : trivia_scan false (l3.source.drop l3.cur) = true := by
        rw [hrest3]; exact trivia_scan_dropWhile _ htriv2
      have hlen : l3.source_len - l3.cur < n := by
        rw [← Lexer_rest_length hwf3, hrest3]
        have h1 := dropWhile_length_le isspace (l2.source.drop l2.cur)
        have h2 := dropWhile_length_le (fun c => c != 10) cs1
        have h3 : (l2.source.drop l2.cur).length ≤ cs1.length := by
          rw [hrest2, List.length_tail]; omega
        have h4 := Lexer_rest_length hwf
        rw [hcons] at h4
        simp only [List.length_cons] at h4
        omega
      obtain ⟨l4, h4, hge4, k4, hk4⟩ := ih l3 hwf3 hlen htriv3 (by
        rw [hrest3]; exact dropWhile_head isspace _)
      exact ⟨l4, h4, hge4, Lexer_advance_trans (Lexer_advance_trans ⟨k2, hk2⟩ ⟨k3, hk3⟩) ⟨k4, hk4⟩⟩

/-- On bytes that are white space and comments only, the trivia skip runs to
the end of input. -/
theorem Lexer_skip_trivia_only {l : Lexer} (hwf : Lexer_wf l)
    (h : trivia_scan false (l.source.drop l.cur) = true) :
    ∃ l1, Lexer_skip_trivia l = .ok l1 ∧ ¬ l1.cur < l1.source_len ∧
      ∃ k, l1 = Lexer_advance k l := by
  obtain ⟨l2, htrim, hwf2, hrest2, k2, hk2⟩ := Lexer_trim_wf_rest hwf
  unfold Lexer_skip_trivia
  rw [htrim]
  simp only
  obtain ⟨l3, h3, hge3, k3, hk3⟩ := Lexer_comments_trivia (Lexer_fuel l2) l2 hwf2
    (by unfold Lexer_fuel; omega) (by rw [hrest2]; exact trivia_scan_dropWhile _ h)
    (by rw [hrest2]; exact dropWhile_head isspace _)
  exact ⟨l3, h3, hge3, Lexer_advance_trans ⟨k2, hk2⟩ ⟨k3, hk3⟩⟩

/-- A byte that is neither white space nor `/` is significant: the trivia
skip stops in front of it. -/
theorem Lexer_skip_trivia_stop {l : Lexer} {c : Nat} (hlt : l.cur < l.source_len)
    (hc : l.source[l.cur]? = some c) (hsp : isspace c = false) (h47 : c ≠ 47) :
    Lexer_skip_trivia l = .ok l := by
  have htrim : Lexer_trim l = .ok l := by
    unfold Lexer_trim Lexer_fuel
    rw [Lexer_chop_while]
    simp [Lexer_is_not_empty, hlt, Lexer_read_of_getElem? hc, hsp]
  unfold Lexer_skip_trivia
  rw [htrim]
  simp only [Lexer_fuel]
  rw [Lexer_comments]
  simp [Lexer_is_not_empty, hlt, Lexer_read_of_getElem? hc, h47]

/-- At the end of input the trivia skip does nothing. -/
theorem Lexer_skip_trivia_end {l : Lexer} (hge : ¬ l.cur < l.source_len) :
    Lexer_skip_trivia l = .ok l := by
  have htrim : Lexer_trim l = .ok l := by
    unfold Lexer_trim Lexer_fuel
    rw [Lexer_chop_while]
    simp [Lexer_is_not_empty, hge]
  unfold Lexer_skip_trivia
  rw [htrim]
  simp only [Lexer_fuel]
  rw [Lexer_comments]
  simp [Lexer_is_not_empty, hge]

/-! ## Classification of the first significant byte -/

theorem literal_tokens_null {c : Nat} (h : c ∉ punctuation_table.map Prod.fst) :
    literal_tokens c = TOKEN_NULL := by
  unfold literal_tokens
  split <;> first | rfl | (simp [punctuation_table] at h)

theorem literal_tokens_of_mem {b : Nat} {k : Token_Type} (h : (b, k) ∈ punctuation_table) :
    literal_tokens b = k ∧ k ≠ TOKEN_NULL ∧ isalpha b = false ∧ b ≠ 95 ∧ b ≠ 10 := by
  simp only [punctuation_table, List.mem_cons, Prod.mk.injEq, List.mem_singleton,
    List.not_mem_nil, or_false] at h
  rcases h with h | h | h | h | h | h | h | h | h | h | h | h | h | h <;>
    (obtain ⟨rfl, rfl⟩ := h; decide)

theorem punctuation_table_lt {b : Nat} {k : Token_Type} (h : (b, k) ∈ punctuation_table) :
    b < 128 := by
  simp only [punctuation_table, List.mem_cons, Prod.mk.injEq, List.mem_singleton,
    List.not_mem_nil, or_false] at h
  rcases h with h | h | h | h | h | h | h | h | h | h | h | h | h | h <;>
    (obtain ⟨rfl, rfl⟩ := h; decide)

theorem isalpha_of_ge {c : Nat} (h : 128 ≤ c) : (isalpha c || c == 95) = false := by
  have h1 : ¬ c ≤ 90 := by omega
  have h2 : ¬ c ≤ 122 := by omega
  have h3 : c ≠ 95 := by omega
  simp [isalpha, h1, h2, h3]

theorem operator_cases_none {c : Nat} (h : c ∉ operator_leads) : operator_cases c = none := by
  unfold operator_cases
  split <;> first | rfl | (simp [operator_leads] at h)

/-- The cursor of a call does not move backwards through the trivia skip. -/
theorem Lexer_first_not_empty {l lp : Lexer} {c : Nat} (h : Lexer_first l lp c) :
    Lexer_is_not_empty l = true := by
  obtain ⟨hs, hlt, _⟩ := h
  obtain ⟨k, hk⟩ := Lexer_skip_trivia_advance hs
  subst hk
  simp only [Lexer_advance_cur, Lexer_advance_source_len] at hlt
  simp only [Lexer_is_not_empty, decide_eq_true_eq]
  omega

theorem main_loop_error {l : Lexer} {e : Fault} (hne : Lexer_is_not_empty l = true)
    (h : Lexer_next_token l = .error e) (fuel : Nat) (tokens : DARRAY Token) :
    main_loop (fuel + 1) l tokens = .error e := by
  rw [main_loop]
  simp [hne, h]

/-- The classifier on a byte from 128 on: the table is read at a negative
index. -/
theorem Lexer_dispatch_high {lp : Lexer} {c : Nat} (hlt : lp.cur < lp.source_len)
    (hc : lp.source[lp.cur]? = some c) (h128 : 128 ≤ c) :
    Lexer_dispatch lp = .error (.table_index ((c : Int) - 256)) := by
  unfold Lexer_dispatch
  have hne : Lexer_is_empty lp = false := by
    simp [Lexer_is_empty, Lexer_is_not_empty, hlt]
  simp only [hne, Bool.false_eq_true, if_false, Lexer_read_of_getElem? hc, isalpha_of_ge h128,
    literal_tokens_at_of_ge h128]

/-- The classifier on an ASCII byte of no class: the error path. -/
theorem Lexer_dispatch_unknown {lp : Lexer} {c : Nat} (hlt : lp.cur < lp.source_len)
    (hc : lp.source[lp.cur]? = some c) (h128 : c < 128)
    (halpha : isalpha c = false) (hunder : c ≠ 95) (hdigit : isdigit c = false)
    (hstring : c ≠ 34) (hchar : c ≠ 39)
    (hpunct : c ∉ punctuation_table.map Prod.fst) (hop : c ∉ operator_leads) :
    Lexer_dispatch lp = .error (.loc_panic (Lexer_location lp) c) := by
  unfold Lexer_dispatch
  have hne : Lexer_is_empty lp = false := by
    simp [Lexer_is_empty, Lexer_is_not_empty, hlt]
  simp only [hne, Bool.false_eq_true, if_false, Lexer_read_of_getElem? hc, halpha,
    literal_tokens_at_of_lt h128,
    literal_tokens_null hpunct, hstring, hchar, hdigit, ne_eq, not_true_eq_false,
    Bool.false_or, beq_iff_eq, hunder]
  unfold Lexer_operator
  simp [operator_cases_none hop]

/-- The classifier on a punctuation byte. -/
theorem Lexer_dispatch_literal {lp : Lexer} {b : Nat} {k : Token_Type}
    (hlt : lp.cur < lp.source_len) (hc : lp.source[lp.cur]? = some b)
    (hk : (b, k) ∈ punctuation_table) :
    Lexer_dispatch lp
      = .ok ({ location := Lexer_location lp, type := k, value := value_char b },
             { lp with cur := lp.cur + 1 }) := by
  obtain ⟨h1, h2, h3, h4, h5⟩ := literal_tokens_of_mem hk
  unfold Lexer_dispatch
  have hne : Lexer_is_empty lp = false := by
    simp [Lexer_is_empty, Lexer_is_not_empty, hlt]
  have hstep : Lexer_step lp = { lp with cur := lp.cur + 1 } := by
    simp [Lexer_step, hc, h5]
  have hat := literal_tokens_at_of_lt (punctuation_table_lt hk)
  rw [h1] at hat
  simp only [hne, Bool.false_eq_true, if_false, Lexer_read_of_getElem? hc, h3, hat,
    Bool.false_or, beq_iff_eq, h4, ne_eq, h2, not_false_eq_true, if_true]
  unfold Lexer_literal
  rw [Lexer_chop_char_of_read hlt hc, hstep]
  have hsub : size_sub (lp.cur + 1) 1 = lp.cur := by simp [size_sub]
  simp only [hsub, hat]
  have hread : Lexer_read { lp with cur := lp.cur + 1 } lp.cur = .ok b :=
    Lexer_read_of_getElem? hc
  rw [hread]

/-- The error path on ASCII bytes. When the first significant byte of a call
is below 128 and is no letter, underscore, digit, quote, punctuation byte or
operator lead, `Lexer_next_token` leaves through `loc_panic` with the
location of that byte and the byte itself; no token is returned and the
driver loop stops with the same fault, so no later token is produced. -/
theorem Lexer_next_token_unknown (l lp : Lexer) (c : Nat) (hfirst : Lexer_first l lp c)
    (h128 : c < 128)
    (halpha : isalpha c = false) (hunder : c ≠ 95) (hdigit : isdigit c = false)
    (hstring : c ≠ 34) (hchar : c ≠ 39)
    (hpunct : c ∉ punctuation_table.map Prod.fst) (hop : c ∉ operator_leads) :
    Lexer_next_token l = .error (.loc_panic (Lexer_location lp) c) ∧
      (Lexer_location lp).line = lp.row ∧
      (Lexer_location lp).row = size_sub lp.cur lp.bol ∧
      ∀ (fuel : Nat) (tokens : DARRAY Token),
        main_loop (fuel + 1) l tokens = .error (.loc_panic (Lexer_location lp) c) := by
  have hnext : Lexer_next_token l = .error (.loc_panic (Lexer_location lp) c) := by
    unfold Lexer_next_token
    rw [hfirst.1]
    exact Lexer_dispatch_unknown hfirst.2.1 hfirst.2.2 h128 halpha hunder hdigit hstring hchar
      hpunct hop
  exact ⟨hnext, rfl, rfl, main_loop_error (Lexer_first_not_empty hfirst) hnext⟩

/-- The first significant byte from 128 on. The call reads the table
`literal_tokens` at the negative index `c - 256` and does not reach the error
path; the driver loop stops with the same fault. -/
theorem Lexer_next_token_high (l lp : Lexer) (c : Nat) (hfirst : Lexer_first l lp c)
    (h128 : 128 ≤ c) :
    Lexer_next_token l = .error (.table_index ((c : Int) - 256)) ∧
      ∀ (fuel : Nat) (tokens : DARRAY Token),
        main_loop (fuel + 1) l tokens = .error (.table_index ((c : Int) - 256)) := by
  have hnext : Lexer_next_token l = .error (.table_index ((c : Int) - 256)) := by
    unfold Lexer_next_token
    rw [hfirst.1]
    exact Lexer_dispatch_high hfirst.2.1 hfirst.2.2 h128
  exact ⟨hnext, main_loop_error (Lexer_first_not_empty hfirst) hnext⟩

set_option maxRecDepth 20000 in
/-- C3, on the failing input. The byte 233 is white space in no sense and is
in none of the six classes, so the claim sends it to the error path.  Held in
a signed `char` it is -23: the call reads the table `literal_tokens` at index
-23, outside its entries, before the error path is reached, and so does the
run of the driver on the file.  On the ASCII byte 36, the dollar sign, the
call leaves through `loc_panic` with the location and the byte. -/
theorem C3_byte_from_128_indexes_outside_the_table :
    isspace 233 = false ∧ (byte_classes 233).count true = 0 ∧ char_value 233 = -23 ∧
      Lexer_next_token (Lexer_init "f.cx" [120, 32, 233])
        = .ok (Token.mk (Location.mk (some "f.cx") 0 0) TOKEN_NAME
                 (value_sv (StringView.mk (some 0) 1)),
               { Lexer_init "f.cx" [120, 32, 233] with cur := 1 }) ∧
      Lexer_next_token { Lexer_init "f.cx" [120, 32, 233] with cur := 1 }
        = .error (.table_index (-23)) ∧
      main_lex "f.cx" [120, 32, 233] = .error (.table_index (-23)) ∧
      Lexer_next_token (Lexer_init "f.cx" [233]) = .error (.table_index (-23)) ∧
      Lexer_next_token (Lexer_init "f.cx" [36])
        = .error (.loc_panic (Location.mk (some "f.cx") 0 0) 36) :=
  ⟨by decide, by decide, by decide, rfl, rfl, rfl, rfl, rfl⟩

/-- C10. When the first significant byte of a call is one of the fourteen
punctuation bytes, `Lexer_next_token` consumes exactly that byte and returns
the kind the table lists for it, with the byte as payload and the location of
the byte; `literal_tokens` maps every other byte value to no kind. -/
theorem C10_punctuation (l lp : Lexer) (b : Nat) (k : Token_Type)
    (hfirst : Lexer_first l lp b) (hk : (b, k) ∈ punctuation_table) :
    Lexer_next_token l
        = .ok ({ location := Lexer_location lp, type := k, value := value_char b },
               { lp with cur := lp.cur + 1 }) ∧
      literal_tokens b = k ∧
      ∀ c, c < 256 → c ∉ punctuation_table.map Prod.fst → literal_tokens c = TOKEN_NULL := by
  refine ⟨?_, (literal_tokens_of_mem hk).1, fun c _ hc => literal_tokens_null hc⟩
  unfold Lexer_next_token
  rw [hfirst.1]
  exact Lexer_dispatch_literal hfirst.2.1 hfirst.2.2 hk

theorem C10_punctuation_witness :
    Lexer_first (Lexer_init "f.cx" (bytes " ;x")) { Lexer_init "f.cx" (bytes " ;x") with cur := 1 } 59 ∧
      (59, TOKEN_SEMICOLON) ∈ punctuation_table ∧
      Lexer_next_token (Lexer_init "f.cx" (bytes " ;x"))
        = .ok ({ location := { file_path := some "f.cx", line := 0, row := 1 },
                 type := TOKEN_SEMICOLON, value := value_char 59 },
               { Lexer_init "f.cx" (bytes " ;x") with cur := 2 }) :=
  have hfirst : Lexer_first (Lexer_init "f.cx" (bytes " ;x"))
      { Lexer_init "f.cx" (bytes " ;x") with cur := 1 } 59 :=
    ⟨rfl, by decide, rfl⟩
  ⟨hfirst, by decide, (C10_punctuation _ _ 59 TOKEN_SEMICOLON hfirst (by decide)).1⟩

/-! ## String and char literals -/

/-- The offset found by `closing_offset` holds the quote. -/
theorem closing_offset_spec (q : Nat) :
    ∀ (n : Nat) (xs : List Nat) (d : Nat), xs.length ≤ n → closing_offset q xs = some d →
      xs[d]? = some q := by
  intro n
  induction n with
  | zero =>
    intro xs d hlen h
    have : xs = [] := List.length_eq_zero.mp (Nat.le_zero.mp hlen)
    subst this
    simp [closing_offset] at h
  | succ n ih =>
    intro xs d hlen h
    cases xs with
    | nil => simp [closing_offset] at h
    | cons c cs =>
      rw [closing_offset_cons] at h
      simp only [List.length_cons] at hlen
      by_cases hq : c = q
      · simp only [hq, if_true, Option.some.injEq] at h
        subst h; simp [hq]
      · simp only [hq, if_false] at h
        by_cases h92 : c = 92
        · simp only [h92, if_true] at h
          cases cs with
          | nil => simp at h
          | cons c2 cs2 =>
            simp only [Option.map_eq_some'] at h
            obtain ⟨d1, hd1, rfl⟩ := h
            simp only [List.length_cons] at hlen
            have := ih cs2 d1 (by omega) hd1
            simpa using this
        · simp only [h92, if_false, Option.map_eq_some'] at h
          obtain ⟨d1, hd1, rfl⟩ := h
          have := ih cs d1 (by omega) hd1
          simpa using this

theorem closing_offset_lt {q : Nat} {xs : List Nat} {d : Nat}
    (h : closing_offset q xs = some d) : d < xs.length := by
  have h1 := closing_offset_spec q xs.length xs d (Nat.le_refl _) h
  by_contra hge
  rw [List.getElem?_eq_none (Nat.le_of_not_lt hge)] at h1
  cases h1

/-- The string branch when the literal is closed. -/
theorem Lexer_string_closed {lp : Lexer} (loc : Location) {d : Nat} (hwf : Lexer_wf lp)
    (hlt : lp.cur < lp.source_len)
    (hclose : closing_offset 34 (lp.source.drop (lp.cur + 1)) = some d) :
    Lexer_string lp loc
      = .ok (some { location := loc, type := TOKEN_STRING,
                    value := value_sv { data := some (lp.cur + 1), size := d } },
             Lexer_advance (d + 2) lp) := by
  unfold Lexer_string
  have hwf1 := Lexer_wf_step hwf
  rw [Lexer_chop_char_wf hwf hlt]
  simp only
  rw [Lexer_string_loop_closing (Lexer_fuel (Lexer_step lp)) (Lexer_step lp) d hwf1 (by unfold Lexer_fuel; omega)
    (by simpa using hclose)]
  simp only
  have hd := closing_offset_lt hclose
  rw [List.length_drop, ← hwf] at hd
  have hwf2 : Lexer_wf (Lexer_advance d (Lexer_step lp)) := Lexer_wf_advance d hwf1
  have hlt2 : (Lexer_advance d (Lexer_step lp)).cur < (Lexer_advance d (Lexer_step lp)).source_len := by
    simp only [Lexer_advance_cur, Lexer_step_cur, Lexer_advance_source_len, Lexer_step_source_len]
    omega
  simp only [Lexer_is_not_empty, hlt2, decide_True, if_true]
  rw [Lexer_chop_char_wf hwf2 hlt2]
  simp only [Lexer_step_cur, Lexer_advance_cur]
  have hsz : size_sub (size_sub (lp.cur + 1 + d + 1) (lp.cur + 1)) 1 = d := by
    have ha : lp.cur + 1 ≤ lp.cur + 1 + d + 1 := by omega
    have hb : 1 ≤ lp.cur + 1 + d + 1 - (lp.cur + 1) := by omega
    rw [size_sub_of_le ha, size_sub_of_le hb]; omega
  rw [hsz]
  have hadv : Lexer_step (Lexer_advance d (Lexer_step lp)) = Lexer_advance (d + 2) lp := by
    rw [← Lexer_advance_succ_right, ← Lexer_advance_succ]
  rw [hadv]

/-- The string branch when the input ends inside the literal: no token. -/
theorem Lexer_string_open {lp : Lexer} (loc : Location) (hwf : Lexer_wf lp)
    (hlt : lp.cur < lp.source_len)
    (hopen : closing_offset 34 (lp.source.drop (lp.cur + 1)) = none) :
    ∃ l1, Lexer_string lp loc = .ok (none, l1) ∧ ¬ l1.cur < l1.source_len := by
  unfold Lexer_string
  have hwf1 := Lexer_wf_step hwf
  rw [Lexer_chop_char_wf hwf hlt]
  simp only
  obtain ⟨l1, h1, hge, _⟩ := Lexer_string_loop_open (Lexer_fuel (Lexer_step lp)) (Lexer_step lp) hwf1
    (by unfold Lexer_fuel; omega) (by simpa using hopen)
  rw [h1]
  simp only [Lexer_is_not_empty, hge, decide_False]
  exact ⟨l1, rfl, hge⟩

/-- The char branch when the literal is closed. -/
theorem Lexer_char_closed {lp : Lexer} (loc : Location) {d : Nat} (hwf : Lexer_wf lp)
    (hlt : lp.cur < lp.source_len)
    (hclose : closing_offset 39 (lp.source.drop (lp.cur + 1)) = some d) :
    Lexer_char lp loc
      = .ok (some { location := loc, type := TOKEN_CHAR,
                    value := value_sv { data := some (lp.cur + 1), size := d } },
             Lexer_advance (d + 2) lp) := by
  unfold Lexer_char
  have hwf1 := Lexer_wf_step hwf
  rw [Lexer_chop_char_wf hwf hlt]
  simp only
  rw [Lexer_char_loop_closing (Lexer_fuel (Lexer_step lp)) (Lexer_step lp) d hwf1 (by unfold Lexer_fuel; omega)
    (by simpa using hclose)]
  simp only
  have hd := closing_offset_lt hclose
  rw [List.length_drop, ← hwf] at hd
  have hwf2 : Lexer_wf (Lexer_advance d (Lexer_step lp)) := Lexer_wf_advance d hwf1
  have hlt2 : (Lexer_advance d (Lexer_step lp)).cur < (Lexer_advance d (Lexer_step lp)).source_len := by
    simp only [Lexer_advance_cur, Lexer_step_cur, Lexer_advance_source_len, Lexer_step_source_len]
    omega
  simp only [Lexer_is_not_empty, hlt2, decide_True, if_true]
  rw [Lexer_chop_char_wf hwf2 hlt2]
  simp only [Lexer_step_cur, Lexer_advance_cur]
  have hsz : size_sub (size_sub (lp.cur + 1 + d + 1) (lp.cur + 1)) 1 = d := by
    have ha : lp.cur + 1 ≤ lp.cur + 1 + d + 1 := by omega
    have hb : 1 ≤ lp.cur + 1 + d + 1 - (lp.cur + 1) := by omega
    rw [size_sub_of_le ha, size_sub_of_le hb]; omega
  rw [hsz]
  have hadv : Lexer_step (Lexer_advance d (Lexer_step lp)) = Lexer_advance (d + 2) lp := by
    rw [← Lexer_advance_succ_right, ← Lexer_advance_succ]
  rw [hadv]

/-- The char branch when the input ends inside the literal: no token. -/
theorem Lexer_char_open {lp : Lexer} (loc : Location) (hwf : Lexer_wf lp)
    (hlt : lp.cur < lp.source_len)
    (hopen : closing_offset 39 (lp.source.drop (lp.cur + 1)) = none) :
    ∃ l1, Lexer_char lp loc = .ok (none, l1) ∧ ¬ l1.cur < l1.source_len := by
  unfold Lexer_char
  have hwf1 := Lexer_wf_step hwf
  rw [Lexer_chop_char_wf hwf hlt]
  simp only
  obtain ⟨l1, h1, hge, _⟩ := Lexer_char_loop_open (Lexer_fuel (Lexer_step lp)) (Lexer_step lp) hwf1
    (by unfold Lexer_fuel; omega) (by simpa using hopen)
  rw [h1]
  simp only [Lexer_is_not_empty, hge, decide_False]
  exact ⟨l1, rfl, hge⟩

/-- The classifier on an opening double quote. -/
theorem Lexer_dispatch_string {lp : Lexer} (hlt : lp.cur < lp.source_len)
    (hc : lp.source[lp.cur]? = some 34) :
    Lexer_dispatch lp =
      match Lexer_string lp (Lexer_location lp) with
      | .error e => .error e
      | .ok (some token, l1) => .ok (token, l1)
      | .ok (none, _) => .error (.loc_panic (Lexer_location lp) 34) := by
  unfold Lexer_dispatch
  have hne : Lexer_is_empty lp = false := by
    simp [Lexer_is_empty, Lexer_is_not_empty, hlt]
  simp only [hne, Bool.false_eq_true, if_false, Lexer_read_of_getElem? hc]
  have h1 : (isalpha 34 || 34 == 95) = false := by decide
  have h2 : literal_tokens_at 34 = .ok TOKEN_NULL := rfl
  have h3 : isdigit 34 = false := by decide
  simp only [h1, h2, h3, Bool.false_eq_true, if_false, if_true, ne_eq, not_true_eq_false]
  cases hs : Lexer_string lp (Lexer_location lp) with
  | error e => rfl
  | ok r =>
    obtain ⟨ot, l1⟩ := r
    cases ot with
    | some t => rfl
    | none =>
      simp only [show ¬ (34 = 39) by decide, if_false]
      unfold Lexer_operator
      simp [operator_cases]

/-- The classifier on an opening single quote. -/
theorem Lexer_dispatch_char {lp : Lexer} (hlt : lp.cur < lp.source_len)
    (hc : lp.source[lp.cur]? = some 39) :
    Lexer_dispatch lp =
      match Lexer_char lp (Lexer_location lp) with
      | .error e => .error e
      | .ok (some token, l1) => .ok (token, l1)
      | .ok (none, _) => .error (.loc_panic (Lexer_location lp) 39) := by
  unfold Lexer_dispatch
  have hne : Lexer_is_empty lp = false := by
    simp [Lexer_is_empty, Lexer_is_not_empty, hlt]
  simp only [hne, Bool.false_eq_true, if_false, Lexer_read_of_getElem? hc]
  have h1 : (isalpha 39 || 39 == 95) = false := by decide
  have h2 : literal_tokens_at 39 = .ok TOKEN_NULL := rfl
  have h3 : isdigit 39 = false := by decide
  simp only [h1, h2, h3, Bool.false_eq_true, if_false, if_true, ne_eq, not_true_eq_false,
    show ¬ (39 = 34) by decide]
  cases hs : Lexer_char lp (Lexer_location lp) with
  | error e => rfl
  | ok r =>
    obtain ⟨ot, l1⟩ := r
    cases ot with
    | some t => rfl
    | none =>
      simp only []
      unfold Lexer_operator
      simp [operator_cases]

theorem Lexer_first_wf {l lp : Lexer} {c : Nat} (hwf : Lexer_wf l) (h : Lexer_first l lp c) :
    Lexer_wf lp ∧ lp.source = l.source ∧ lp.source_len = l.source_len ∧
      lp.file_path = l.file_path := by
  obtain ⟨k, hk⟩ := Lexer_skip_trivia_advance h.1
  subst hk
  exact ⟨Lexer_wf_advance k hwf, by simp, by simp, by simp⟩

/-- C2 (as amended). When the first significant byte of a call opens a string
or char literal and the input ends before the closing unescaped quote,
`Lexer_next_token` returns no token: it leaves through `loc_panic` with the
location of the opening quote and the quote as the reported byte, and the
driver loop stops with that fault. -/
theorem C2_unterminated_literal_is_fatal (l lp : Lexer) (q : Nat) (hwf : Lexer_wf l)
    (hq : q = 34 ∨ q = 39) (hfirst : Lexer_first l lp q)
    (hopen : closing_offset q (lp.source.drop (lp.cur + 1)) = none) :
    Lexer_next_token l = .error (.loc_panic (Lexer_location lp) q) ∧
      ∀ (fuel : Nat) (tokens : DARRAY Token),
        main_loop (fuel + 1) l tokens = .error (.loc_panic (Lexer_location lp) q) := by
  have hwfp := (Lexer_first_wf hwf hfirst).1
  have hnext : Lexer_next_token l = .error (.loc_panic (Lexer_location lp) q) := by
    unfold Lexer_next_token
    rw [hfirst.1]
    simp only
    rcases hq with rfl | rfl
    · rw [Lexer_dispatch_string hfirst.2.1 hfirst.2.2]
      obtain ⟨l1, h1, _⟩ := Lexer_string_open (Lexer_location lp) hwfp hfirst.2.1 hopen
      rw [h1]
    · rw [Lexer_dispatch_char hfirst.2.1 hfirst.2.2]
      obtain ⟨l1, h1, _⟩ := Lexer_char_open (Lexer_location lp) hwfp hfirst.2.1 hopen
      rw [h1]
  exact ⟨hnext, main_loop_error (Lexer_first_not_empty hfirst) hnext⟩

theorem C2_unterminated_literal_is_fatal_witness :
    Lexer_wf { Lexer_init "f.cx" (bytes "x \"abc") with cur := 1 } ∧
      Lexer_first { Lexer_init "f.cx" (bytes "x \"abc") with cur := 1 }
        { Lexer_init "f.cx" (bytes "x \"abc") with cur := 2 } 34 ∧
      closing_offset 34 ((bytes "x \"abc").drop 3) = none ∧
      Lexer_next_token { Lexer_init "f.cx" (bytes "x \"abc") with cur := 1 }
        = .error (.loc_panic { file_path := some "f.cx", line := 0, row := 2 } 34) :=
  have hfirst : Lexer_first { Lexer_init "f.cx" (bytes "x \"abc") with cur := 1 }
      { Lexer_init "f.cx" (bytes "x \"abc") with cur := 2 } 34 := ⟨rfl, by decide, rfl⟩
  have hwf : Lexer_wf { Lexer_init "f.cx" (bytes "x \"abc") with cur := 1 } := rfl
  ⟨hwf, hfirst, rfl,
   (C2_unterminated_literal_is_fatal _ _ 34 hwf (Or.inl rfl) hfirst rfl).1⟩

/-- C2, the claim as stated fails: on the input of an opening double quote
followed by `abc` the call does not return, it leaves through `loc_panic` at
the opening quote, and the session is aborted instead of ending normally. -/
theorem C2_counterexample :
    Lexer_next_token (Lexer_init "f.cx" (bytes "\"abc"))
        = .error (.loc_panic { file_path := some "f.cx", line := 0, row := 0 } 34) ∧
      main_lex "f.cx" (bytes "\"abc")
        = .error (.loc_panic { file_path := some "f.cx", line := 0, row := 0 } 34) :=
  ⟨rfl, rfl⟩

/-- C8. When the first significant byte of a call is a double quote at offset
`i` and the closing unescaped double quote is at offset `j`, `Lexer_next_token` returns a STRING
token whose slice is the interior `i+1 .. j-1` (length `j - i - 1`), located at
the opening quote, and leaves the cursor at `j + 1`. -/
theorem C8_string_literal (l lp : Lexer) (j : Nat) (hwf : Lexer_wf l)
    (hfirst : Lexer_first l lp 34) (hj : lp.cur < j)
    (hclose : closing_offset 34 (lp.source.drop (lp.cur + 1)) = some (j - (lp.cur + 1))) :
    ∃ l1, Lexer_next_token l
        = .ok ({ location := Lexer_location lp, type := TOKEN_STRING,
                 value := value_sv { data := some (lp.cur + 1), size := j - lp.cur - 1 } }, l1) ∧
      l1.cur = j + 1 ∧ l1 = Lexer_advance (j + 1 - lp.cur) lp ∧
      lp.source[j]? = some 34 ∧ j < lp.source_len := by
  have hwfp := (Lexer_first_wf hwf hfirst).1
  have hspec := closing_offset_spec 34 _ _ _ (Nat.le_refl _) hclose
  have hlt := closing_offset_lt hclose
  rw [List.length_drop, ← hwfp] at hlt
  refine ⟨Lexer_advance (j + 1 - lp.cur) lp, ?_, ?_, rfl, ?_, ?_⟩
  · unfold Lexer_next_token
    rw [hfirst.1]
    simp only
    rw [Lexer_dispatch_string hfirst.2.1 hfirst.2.2,
      Lexer_string_closed (Lexer_location lp) hwfp hfirst.2.1 hclose]
    simp only
    have h1 : j - (lp.cur + 1) + 2 = j + 1 - lp.cur := by omega
    have h2 : j - (lp.cur + 1) = j - lp.cur - 1 := by omega
    rw [h1, h2]
  · simp only [Lexer_advance_cur]; omega
  · rw [List.getElem?_drop] at hspec
    have h1 : lp.cur + 1 + (j - (lp.cur + 1)) = j := by omega
    rw [h1] at hspec
    exact hspec
  · omega

theorem C8_string_literal_witness :
    Lexer_wf (Lexer_init "f.cx" (bytes " \"a\\\"b\" x")) ∧
      Lexer_first (Lexer_init "f.cx" (bytes " \"a\\\"b\" x"))
        { Lexer_init "f.cx" (bytes " \"a\\\"b\" x") with cur := 1 } 34 ∧
      closing_offset 34 ((bytes " \"a\\\"b\" x").drop 2) = some 4 ∧
      ∃ l1, Lexer_next_token (Lexer_init "f.cx" (bytes " \"a\\\"b\" x"))
          = .ok ({ location := { file_path := some "f.cx", line := 0, row := 1 },
                   type := TOKEN_STRING, value := value_sv { data := some 2, size := 4 } }, l1) ∧
        l1.cur = 7 :=
  have hfirst : Lexer_first (Lexer_init "f.cx" (bytes " \"a\\\"b\" x"))
      { Lexer_init "f.cx" (bytes " \"a\\\"b\" x") with cur := 1 } 34 := ⟨rfl, by decide, rfl⟩
  have hwf : Lexer_wf (Lexer_init "f.cx" (bytes " \"a\\\"b\" x")) := rfl
  ⟨hwf, hfirst, rfl,
   (C8_string_literal _ _ 6 hwf hfirst (by decide) rfl).imp (fun _ h => ⟨h.1, h.2.1⟩)⟩

/-! ## Identifiers -/

/-- The classifier on a letter or underscore. -/
theorem Lexer_dispatch_name {lp : Lexer} {c : Nat} (hwf : Lexer_wf lp)
    (hlt : lp.cur < lp.source_len) (hc : lp.source[lp.cur]? = some c)
    (halpha : isalpha c = true ∨ c = 95) :
    Lexer_dispatch lp
      = .ok ({ location := Lexer_location lp, type := TOKEN_NAME,
               value := value_sv
                 { data := some lp.cur,
                   size := ((lp.source.drop lp.cur).takeWhile
                     (fun c => isalnum c || c == 95)).length } },
             Lexer_advance ((lp.source.drop lp.cur).takeWhile
               (fun c => isalnum c || c == 95)).length lp) := by
  unfold Lexer_dispatch
  have hne : Lexer_is_empty lp = false := by
    simp [Lexer_is_empty, Lexer_is_not_empty, hlt]
  have hcond : (isalpha c || c == 95) = true := by
    rcases halpha with h | h
    · simp [h]
    · simp [h]
  simp only [hne, Bool.false_eq_true, if_false, Lexer_read_of_getElem? hc, hcond, if_true]
  unfold Lexer_name
  rw [Lexer_chop_while_wf _ _ _ hwf (by unfold Lexer_fuel; omega)]
  simp only [Lexer_advance_cur]
  have hsz : ∀ n, size_sub (lp.cur + n) lp.cur = n := by
    intro n
    have ha : lp.cur ≤ lp.cur + n := by omega
    rw [size_sub_of_le ha]; omega
  rw [hsz]

/-! ## The token array of the driver -/

set_option maxRecDepth 20000 in
theorem DARRAY_PUSH_init (t : Token) :
    DARRAY_PUSH (DARRAY_INIT 1000) t
      = .ok { data := (List.replicate 1000 none).set 0 (some t), len := 1, _allocated := 1000 } := by
  unfold DARRAY_PUSH DARRAY_INIT
  simp only [List.length_replicate]
  rfl

theorem main_loop_done {l : Lexer} (hend : ¬ l.cur < l.source_len) (fuel : Nat)
    (tokens : DARRAY Token) : main_loop (fuel + 1) l tokens = .ok (l, tokens) := by
  rw [main_loop]
  simp [Lexer_is_not_empty, hend]

theorem DARRAY_elems_one (t : Token) :
    DARRAY.elems { data := (List.replicate 1000 none).set 0 (some t), len := 1, _allocated := 1000 }
      = [some t] := by
  show List.take 1 ((List.replicate (999 + 1) none).set 0 (some t)) = [some t]
  rw [List.replicate_succ]
  rfl

/-- A session whose first call consumes the whole input: one element is pushed. -/
theorem main_lex_single {fp : String} {src : List Nat} {t : Token} {l1 : Lexer}
    (hne : src ≠ [])
    (hnext : Lexer_next_token (Lexer_init fp src) = .ok (t, l1))
    (hend : ¬ l1.cur < l1.source_len) :
    main_lex fp src
      = .ok { data := (List.replicate 1000 none).set 0 (some t), len := 1, _allocated := 1000 } := by
  unfold main_lex
  have hpos : 0 < src.length := List.length_pos.mpr hne
  obtain ⟨m, hm⟩ : ∃ m, src.length = m + 1 := ⟨src.length - 1, by omega⟩
  rw [hm, main_loop]
  have h0 : Lexer_is_not_empty (Lexer_init fp src) = true := by
    simp [Lexer_is_not_empty, Lexer_init, hpos]
  simp only [h0, if_true, hnext, DARRAY_PUSH_init]
  rw [main_loop_done hend]

/-- C5. When the first significant byte of a call is a letter or underscore at
offset `i`, `Lexer_next_token` returns a NAME token located there whose slice
starts at `i` and has the length of the maximal run of letters, digits and
underscores that starts at `i`; the cursor ends at the end of the run, inside
the buffer.  An input made of such bytes only, starting with a letter or
underscore, gives exactly one token, a NAME over the entire input. -/
theorem C5_identifier :
    (∀ (l lp : Lexer) (c : Nat), Lexer_wf l → Lexer_first l lp c →
      (isalpha c = true ∨ c = 95) →
      ∃ l1, Lexer_next_token l
          = .ok ({ location := Lexer_location lp, type := TOKEN_NAME,
                   value := value_sv
                     { data := some lp.cur,
                       size := ((l.source.drop lp.cur).takeWhile
                         (fun c => isalnum c || c == 95)).length } }, l1) ∧
        l1.cur = lp.cur + ((l.source.drop lp.cur).takeWhile
          (fun c => isalnum c || c == 95)).length ∧
        l1.cur ≤ l.source_len ∧ lp.cur < l1.cur) ∧
    (∀ (fp : String) (src : List Nat) (c : Nat), src.head? = some c →
      (isalpha c = true ∨ c = 95) → (∀ b ∈ src, (isalnum b || b == 95) = true) →
      main_tokens fp src
        = .ok [some { location := { file_path := some fp, line := 0, row := 0 },
                      type := TOKEN_NAME,
                      value := value_sv { data := some 0, size := src.length } }]) := by
  constructor
  · intro l lp c hwf hfirst halpha
    obtain ⟨hwfp, hsrc, hlen, _⟩ := Lexer_first_wf hwf hfirst
    rw [← hsrc, ← hlen]
    refine ⟨Lexer_advance ((lp.source.drop lp.cur).takeWhile
      (fun c => isalnum c || c == 95)).length lp, ?_, ?_, ?_, ?_⟩
    · unfold Lexer_next_token
      rw [hfirst.1]
      simp only
      rw [Lexer_dispatch_name hwfp hfirst.2.1 hfirst.2.2 halpha]
    · simp [Lexer_advance_cur]
    · simp only [Lexer_advance_cur]
      have h1 := takeWhile_length_le (fun c => isalnum c || c == 95) (lp.source.drop lp.cur)
      rw [List.length_drop] at h1
      have h2 := hfirst.2.1
      rw [hwfp] at h2 ⊢
      omega
    · simp only [Lexer_advance_cur]
      obtain ⟨c1, hc1, hd1⟩ := Lexer_getElem?_cur hwfp hfirst.2.1
      rw [hfirst.2.2] at hc1
      cases hc1
      rw [hd1]
      have hp : (isalnum c || c == 95) = true := by
        rcases halpha with h | h
        · simp [isalnum, h]
        · simp [h]
      rw [List.takeWhile_cons]
      simp only [hp, if_true, List.length_cons]
      omega
  · intro fp src c hhead halpha hall
    have hne : src ≠ [] := by
      intro h; subst h; cases hhead
    obtain ⟨cs, rfl⟩ : ∃ cs, src = c :: cs := by
      cases src with
      | nil => cases hhead
      | cons x xs => simp at hhead; exact ⟨xs, by rw [hhead]⟩
    have hwf : Lexer_wf (Lexer_init fp (c :: cs)) := rfl
    have hlt : (Lexer_init fp (c :: cs)).cur < (Lexer_init fp (c :: cs)).source_len := by
      simp [Lexer_init]
    have hc : (Lexer_init fp (c :: cs)).source[(Lexer_init fp (c :: cs)).cur]? = some c := by
      simp [Lexer_init]
    have hsp : isspace c = false := by
      rcases halpha with h | h
      · simp only [isalpha, Bool.or_eq_true, Bool.and_eq_true, decide_eq_true_eq] at h
        simp only [isspace, Bool.or_eq_false_iff, beq_eq_false_iff_ne, ne_eq,
          Bool.and_eq_false_iff, decide_eq_false_iff_not]
        omega
      · subst h; decide
    have h47 : c ≠ 47 := by
      rcases halpha with h | h
      · simp only [isalpha, Bool.or_eq_true, Bool.and_eq_true, decide_eq_true_eq] at h
        omega
      · omega
    have htake : ((c :: cs).takeWhile (fun c => isalnum c || c == 95)) = c :: cs := by
      rw [List.takeWhile_eq_self_iff]
      exact hall
    have hnext : Lexer_next_token (Lexer_init fp (c :: cs))
        = .ok ({ location := { file_path := some fp, line := 0, row := 0 }, type := TOKEN_NAME,
                 value := value_sv { data := some 0, size := (c :: cs).length } },
               Lexer_advance (c :: cs).length (Lexer_init fp (c :: cs))) := by
      unfold Lexer_next_token
      rw [Lexer_skip_trivia_stop hlt hc hsp h47]
      simp only
      rw [Lexer_dispatch_name hwf hlt hc halpha]
      have hd : (Lexer_init fp (c :: cs)).source.drop (Lexer_init fp (c :: cs)).cur = c :: cs := by
        simp [Lexer_init]
      rw [hd, htake]
      rfl
    unfold main_tokens
    rw [main_lex_single hne hnext (by simp [Lexer_init])]
    simp only [DARRAY_elems_one]

set_option maxRecDepth 20000 in
theorem C5_identifier_witness :
    Lexer_wf (Lexer_init "f.cx" (bytes " ab_1+c")) ∧
      Lexer_first (Lexer_init "f.cx" (bytes " ab_1+c"))
        { Lexer_init "f.cx" (bytes " ab_1+c") with cur := 1 } 97 ∧
      (∃ l1, Lexer_next_token (Lexer_init "f.cx" (bytes " ab_1+c"))
          = .ok ({ location := { file_path := some "f.cx", line := 0, row := 1 },
                   type := TOKEN_NAME, value := value_sv { data := some 1, size := 4 } }, l1) ∧
        l1.cur = 5) ∧
      main_tokens "f.cx" (bytes "foo123_bar")
        = .ok [some { location := { file_path := some "f.cx", line := 0, row := 0 },
                      type := TOKEN_NAME, value := value_sv { data := some 0, size := 10 } }] :=
  have hwf : Lexer_wf (Lexer_init "f.cx" (bytes " ab_1+c")) := rfl
  have hfirst : Lexer_first (Lexer_init "f.cx" (bytes " ab_1+c"))
      { Lexer_init "f.cx" (bytes " ab_1+c") with cur := 1 } 97 := ⟨rfl, by decide, rfl⟩
  ⟨hwf, hfirst,
   (C5_identifier.1 _ _ 97 hwf hfirst (Or.inl rfl)).imp (fun _ h => ⟨h.1, h.2.1⟩),
   C5_identifier.2 "f.cx" (bytes "foo123_bar") 102 rfl (Or.inl rfl) (by decide)⟩

/-! ## Trivia-only inputs -/

/-- C4 (as amended). For an input composed solely of white space and `//`
line comments the array built by the driver loop holds no token other than the
sentinel: it is empty when the input is empty, and otherwise it holds exactly
one element, the sentinel returned by the call that skipped the trivia. -/
theorem C4_trivia_only_stream (fp : String) (src : List Nat) (h : trivia_only src = true) :
    ∃ tokens, main_lex fp src = .ok tokens ∧
      tokens.len = (if src = [] then 0 else 1) ∧
      tokens.elems = (if src = [] then [] else [some Token_zero]) ∧
      ∀ t, some t ∈ tokens.elems → t.type = TOKEN_NULL := by
  by_cases hsrc : src = []
  · subst hsrc
    refine ⟨DARRAY_INIT 1000, rfl, rfl, rfl, ?_⟩
    intro t ht
    rw [show DARRAY.elems (DARRAY_INIT 1000 : DARRAY Token) = [] from rfl] at ht
    exact absurd ht (List.not_mem_nil _)
  · have hwf : Lexer_wf (Lexer_init fp src) := rfl
    obtain ⟨l1, hskip, hend, _⟩ := Lexer_skip_trivia_only hwf (by simpa [Lexer_init] using h)
    have hnext : Lexer_next_token (Lexer_init fp src) = .ok (Token_zero, l1) := by
      unfold Lexer_next_token
      rw [hskip]
      simp only
      unfold Lexer_dispatch
      simp [Lexer_is_empty, Lexer_is_not_empty, hend]
    refine ⟨_, main_lex_single hsrc hnext hend, ?_, ?_, ?_⟩
    · simp [hsrc]
    · simp only [hsrc, if_false, DARRAY_elems_one]
    · intro t ht
      rw [DARRAY_elems_one] at ht
      simp only [List.mem_singleton, Option.some.injEq] at ht
      subst ht
      rfl

set_option maxRecDepth 20000 in
theorem C4_trivia_only_stream_witness :
    trivia_only (bytes " // c\n\t") = true ∧
      ∃ tokens, main_lex "f.cx" (bytes " // c\n\t") = .ok tokens ∧ tokens.len = 1 ∧
        tokens.elems = [some Token_zero] :=
  ⟨rfl, (C4_trivia_only_stream "f.cx" (bytes " // c\n\t") rfl).imp
    (fun _ h => ⟨h.1, h.2.1, h.2.2.1⟩)⟩

set_option maxRecDepth 20000 in
/-- C4, the claim as stated fails: on the input of one space the array has
length 1 when the loop ends, the sentinel having been pushed. -/
theorem C4_counterexample :
    trivia_only (bytes " ") = true ∧
      ∃ tokens, main_lex "f.cx" (bytes " ") = .ok tokens ∧ tokens.len = 1 ∧
        tokens.elems = [some Token_zero] :=
  ⟨rfl, _, rfl, rfl, by rfl⟩

/-! ## Locations -/

theorem Lexer_reachable_advance {fp : String} {src : List Nat} {l : Lexer}
    (h : Lexer_reachable fp src l) : ∃ k, l = Lexer_advance k (Lexer_init fp src) := by
  induction h with
  | init => exact ⟨0, rfl⟩
  | next _ hnext ih =>
    obtain ⟨lp, _, _, h1, h2, _⟩ := Lexer_next_token_spec hnext
    exact Lexer_advance_trans ih (Lexer_advance_trans h1 h2)

/-- C7. In a session started from the initial state, every token other than
the sentinel that `Lexer_next_token` returns is located at its first byte,
the byte at offset `p` where the trivia skip stopped: `line` is the number of
line-feeds strictly before `p`, and `row` is `p` minus the offset just after
the last line-feed before `p` (minus `0` when there is none); the subtraction
does not wrap and `Location_print` shows both plus one. -/
theorem C7_token_location (fp : String) (src : List Nat) (l l1 : Lexer) (t : Token)
    (hreach : Lexer_reachable fp src l) (hnext : Lexer_next_token l = .ok (t, l1))
    (hne : t.type ≠ TOKEN_NULL) :
    ∃ lp, Lexer_skip_trivia l = .ok lp ∧ lp.cur < src.length ∧ lp.source = src ∧
      t.location = { file_path := some fp, line := line_at src lp.cur,
                     row := lp.cur - bol_at src lp.cur } ∧
      line_at src lp.cur = (src.take lp.cur).count 10 ∧
      bol_at src lp.cur ≤ lp.cur ∧
      (bol_at src lp.cur = 0 ∨ src[bol_at src lp.cur - 1]? = some 10) ∧
      (∀ i, bol_at src lp.cur ≤ i → i < lp.cur → src[i]? ≠ some 10) ∧
      Location_print t.location
        = fp ++ ":" ++ toString (line_at src lp.cur + 1) ++ ":"
            ++ toString (lp.cur - bol_at src lp.cur + 1) := by
  obtain ⟨k, hk⟩ := Lexer_reachable_advance hreach
  obtain ⟨lp, hskip, _, ⟨k1, hk1⟩, _, hloc⟩ := Lexer_next_token_spec hnext
  obtain ⟨hloc1, hlt⟩ := hloc hne
  have hlp : lp = Lexer_advance (k + k1) (Lexer_init fp src) := by
    rw [hk1, hk, Lexer_advance_add]
  have htr : Lexer_tracked lp := hlp ▸ Lexer_tracked_advance _ (Lexer_tracked_init fp src)
  have hsrc : lp.source = src := by rw [hlp]; simp [Lexer_init]
  have hfp : lp.file_path = fp := by rw [hlp]; simp [Lexer_init]
  have hlen : lp.source_len = src.length := by rw [hlp]; simp [Lexer_init]
  obtain ⟨hrow, hbol⟩ := htr
  rw [hsrc] at hrow hbol
  have hble := bol_at_le src lp.cur
  have hloc2 : t.location = Location.mk (some fp) (line_at src lp.cur)
      (lp.cur - bol_at src lp.cur) := by
    rw [hloc1, Lexer_location, hfp, hrow, hbol, size_sub_of_le hble]
  refine ⟨lp, hskip, hlen ▸ hlt, hsrc, hloc2, rfl, hble, bol_at_after_newline src lp.cur,
    fun i h1 h2 => bol_at_no_newline src lp.cur i h1 h2, ?_⟩
  rw [hloc2]
  rfl

theorem C7_token_location_witness :
    Lexer_reachable "f.cx" (bytes "a\nb\n     c")
        { Lexer_init "f.cx" (bytes "a\nb\n     c") with cur := 3, bol := 2, row := 1 } ∧
      ∃ t l1 lp,
        Lexer_next_token
            { Lexer_init "f.cx" (bytes "a\nb\n     c") with cur := 3, bol := 2, row := 1 }
          = .ok (t, l1) ∧ t.type ≠ TOKEN_NULL ∧
        Lexer_skip_trivia
            { Lexer_init "f.cx" (bytes "a\nb\n     c") with cur := 3, bol := 2, row := 1 }
          = .ok lp ∧
        t.location = { file_path := some "f.cx", line := line_at (bytes "a\nb\n     c") lp.cur,
                       row := lp.cur - bol_at (bytes "a\nb\n     c") lp.cur } ∧
        t.location = { file_path := some "f.cx", line := 2, row := 5 } ∧
        Location_print t.location = "f.cx:3:6" :=
  have h1 : Lexer_next_token (Lexer_init "f.cx" (bytes "a\nb\n     c"))
      = .ok ({ location := { file_path := some "f.cx", line := 0, row := 0 }, type := TOKEN_NAME,
               value := value_sv { data := some 0, size := 1 } },
             { Lexer_init "f.cx" (bytes "a\nb\n     c") with cur := 1 }) := rfl
  have h2 : Lexer_next_token { Lexer_init "f.cx" (bytes "a\nb\n     c") with cur := 1 }
      = .ok ({ location := { file_path := some "f.cx", line := 1, row := 0 }, type := TOKEN_NAME,
               value := value_sv { data := some 2, size := 1 } },
             { Lexer_init "f.cx" (bytes "a\nb\n     c") with cur := 3, bol := 2, row := 1 }) := rfl
  have h3 : Lexer_next_token
        { Lexer_init "f.cx" (bytes "a\nb\n     c") with cur := 3, bol := 2, row := 1 }
      = .ok ({ location := { file_path := some "f.cx", line := 2, row := 5 }, type := TOKEN_NAME,
               value := value_sv { data := some 9, size := 1 } },
             { Lexer_init "f.cx" (bytes "a\nb\n     c") with cur := 10, bol := 4, row := 2 }) := rfl
  have hreach := Lexer_reachable.next (Lexer_reachable.next Lexer_reachable.init h1) h2
  have hne : TOKEN_NAME ≠ TOKEN_NULL := by decide
  ⟨hreach, _, _,
    (C7_token_location "f.cx" (bytes "a\nb\n     c") _ _ _ hreach h3 hne).choose,
    h3, hne,
    (C7_token_location "f.cx" (bytes "a\nb\n     c") _ _ _ hreach h3 hne).choose_spec.1,
    (C7_token_location "f.cx" (bytes "a\nb\n     c") _ _ _ hreach h3 hne).choose_spec.2.2.2.1,
    rfl, by decide⟩

/-! ## Compound operators -/

/-- The operator block consumes the lead byte and nothing else: the state it
returns is the state after one `Lexer_chop_char`, whatever type was selected. -/
theorem Lexer_operator_one_byte {l l1 : Lexer} {loc : Location} {first : Nat} {t : Token}
    (h : Lexer_operator l loc first = .ok (t, l1)) :
    Lexer_chop_char l = .ok l1 ∧ l1.cur ≤ l.cur + 1 ∧
      t.value = value_sv { data := some l.cur, size := 0 } := by
  unfold Lexer_operator at h
  simp only at h
  split at h
  · cases h
  · split at h
    · cases h
    · rename_i l2 hc
      split at h
      · cases h
      · cases h
        refine ⟨hc, ?_, rfl⟩
        rcases Lexer_chop_char_ok hc with ⟨_, h1⟩ | ⟨_, h1⟩
        · rw [h1, Lexer_step_cur]
        · rw [h1]; omega

set_option maxRecDepth 20000 in
/-- C1, on the failing input. The operator branch consumes the lead byte only:
`x++` gives NAME, PLUS_PLUS and then PLUS for the second `+`, and `a->b` gives
NAME, ARROW, GREATER_THAN, NAME; after the PLUS_PLUS of `x++` the cursor is at
offset 2, on the second `+`. -/
theorem C1_compound_operator_second_byte_not_consumed :
    main_tokens "f.cx" (bytes "x++")
        = .ok [some { location := { file_path := some "f.cx", line := 0, row := 0 },
                      type := TOKEN_NAME, value := value_sv { data := some 0, size := 1 } },
               some { location := { file_path := some "f.cx", line := 0, row := 1 },
                      type := TOKEN_PLUS_PLUS, value := value_sv { data := some 1, size := 0 } },
               some { location := { file_path := some "f.cx", line := 0, row := 2 },
                      type := TOKEN_PLUS, value := value_sv { data := some 2, size := 0 } }] ∧
      main_tokens "f.cx" (bytes "a->b")
        = .ok [some { location := { file_path := some "f.cx", line := 0, row := 0 },
                      type := TOKEN_NAME, value := value_sv { data := some 0, size := 1 } },
               some { location := { file_path := some "f.cx", line := 0, row := 1 },
                      type := TOKEN_ARROW, value := value_sv { data := some 1, size := 0 } },
               some { location := { file_path := some "f.cx", line := 0, row := 2 },
                      type := TOKEN_GREATER_THAN, value := value_char 62 },
               some { location := { file_path := some "f.cx", line := 0, row := 3 },
                      type := TOKEN_NAME, value := value_sv { data := some 3, size := 1 } }] ∧
      Lexer_next_token { Lexer_init "f.cx" (bytes "x++") with cur := 1 }
        = .ok ({ location := { file_path := some "f.cx", line := 0, row := 1 },
                 type := TOKEN_PLUS_PLUS, value := value_sv { data := some 1, size := 0 } },
               { Lexer_init "f.cx" (bytes "x++") with cur := 2 }) :=
  ⟨rfl, rfl, rfl⟩

/-! ## Numbers -/

set_option maxRecDepth 20000 in
/-- C6, on the failing input. A digit run that ends the buffer: `atoi` scans
from the first digit and reads `source[2]` of the two-byte buffer `42`, so the
call does not return a NUMBER token; with a byte after the run it does. -/
theorem C6_number_at_end_of_buffer :
    Lexer_next_token (Lexer_init "f.cx" (bytes "42")) = .error (.out_of_bounds 2) ∧
      main_lex "f.cx" (bytes "42") = .error (.out_of_bounds 2) ∧
      Lexer_next_token (Lexer_init "f.cx" (bytes "42\n"))
        = .ok ({ location := { file_path := some "f.cx", line := 0, row := 0 },
                 type := TOKEN_NUMBER, value := value_int 42 },
               { Lexer_init "f.cx" (bytes "42\n") with cur := 2 }) :=
  ⟨rfl, rfl, rfl⟩

/-! ## Numbers: the general picture -/

theorem atoi_digits_run (run rest : List Nat) (acc : Nat)
    (hrun : ∀ c ∈ run, isdigit c = true) :
    atoi_digits (run ++ rest) acc
      = atoi_digits rest (run.foldl (fun acc c => acc * 10 + (c - 48)) acc) := by
  induction run generalizing acc with
  | nil => rfl
  | cons c cs ih =>
    have hc : isdigit c = true := hrun c (List.mem_cons_self _ _)
    simp only [List.cons_append, atoi_digits, hc, if_true, List.foldl_cons]
    exact ih _ (fun d hd => hrun d (List.mem_cons_of_mem _ hd))

theorem atoi_digits_takeWhile (xs : List Nat) :
    atoi_digits xs 0
      = if xs.dropWhile isdigit = [] then none
        else some (decimal_value (xs.takeWhile isdigit)) := by
  have hsplit := List.takeWhile_append_dropWhile isdigit xs
  have hrun : ∀ c ∈ xs.takeWhile isdigit, isdigit c = true :=
    fun c hc => List.mem_takeWhile_imp hc
  conv_lhs => rw [← hsplit]
  rw [atoi_digits_run _ _ 0 hrun]
  rcases dropWhile_head isdigit xs with hnil | ⟨b, bs, hcons, hb⟩
  · simp [hnil, atoi_digits]
  · simp [hcons, atoi_digits, hb, decimal_value]

theorem atoi_of_digit {c : Nat} (cs : List Nat) (hd : isdigit c = true) :
    atoi (c :: cs) = (atoi_digits (c :: cs) 0).map (atoi_int false) := by
  simp only [isdigit, Bool.and_eq_true, decide_eq_true_eq] at hd
  have hsp : isspace c = false := by
    simp only [isspace, Bool.or_eq_false_iff, beq_eq_false_iff_ne, ne_eq,
      Bool.and_eq_false_iff, decide_eq_false_iff_not]
    omega
  have h45 : ¬ c = 45 := by omega
  have h43 : ¬ c = 43 := by omega
  rw [atoi]
  simp only [hsp, Bool.false_eq_true, if_false, h45, h43]

theorem atoi_int_small {n : Nat} (h : n < 2 ^ 31) : atoi_int false n = (n : Int) := by
  unfold atoi_int
  have h1 : min n (2 ^ 63 - 1) = n := by
    apply Nat.min_eq_left
    have : (2 : Nat) ^ 31 ≤ 2 ^ 63 - 1 := by norm_num
    omega
  simp only [Bool.false_eq_true, if_false, h1]
  have h2 : (n : Int) < 2 ^ 31 := by exact_mod_cast h
  have h3 : (0 : Int) ≤ n := Int.ofNat_nonneg n
  norm_num at h2 ⊢
  omega

/-- The classifier on a digit: the number branch is taken. -/
theorem Lexer_dispatch_digit {lp : Lexer} {c : Nat} (hlt : lp.cur < lp.source_len)
    (hc : lp.source[lp.cur]? = some c) (hd : isdigit c = true) :
    Lexer_dispatch lp = Lexer_number lp (Lexer_location lp) := by
  unfold Lexer_dispatch
  have hne : Lexer_is_empty lp = false := by
    simp [Lexer_is_empty, Lexer_is_not_empty, hlt]
  have hd' := hd
  simp only [isdigit, Bool.and_eq_true, decide_eq_true_eq] at hd'
  have halpha : (isalpha c || c == 95) = false := by
    simp only [isalpha, Bool.or_eq_false_iff, Bool.and_eq_false_iff, decide_eq_false_iff_not,
      beq_eq_false_iff_ne, ne_eq]
    omega
  have hlit : ¬ (literal_tokens c ≠ TOKEN_NULL) := by
    have : c ∉ punctuation_table.map Prod.fst := by
      simp only [punctuation_table, List.map_cons, List.map_nil, List.mem_cons,
        List.mem_singleton, List.not_mem_nil, or_false]
      omega
    simp [literal_tokens_null this]
  have h34 : ¬ c = 34 := by omega
  have h39 : ¬ c = 39 := by omega
  have hat : literal_tokens_at c = .ok (literal_tokens c) :=
    literal_tokens_at_of_lt (by omega)
  simp only [hne, Bool.false_eq_true, if_false, Lexer_read_of_getElem? hc, halpha, hat]
  rw [if_neg hlit]
  simp only [h34, h39, if_false, hd, if_true]

/-- The number branch in general: when a byte of the buffer follows the digit
run the token is a NUMBER with the value of the run; when the run ends the
buffer the conversion reads past it. -/
theorem Lexer_next_token_number (l lp : Lexer) (c : Nat) (hwf : Lexer_wf l)
    (hfirst : Lexer_first l lp c) (hd : isdigit c = true) :
    (lp.cur + ((l.source.drop lp.cur).takeWhile isdigit).length < l.source_len →
      Lexer_next_token l
        = .ok ({ location := Lexer_location lp, type := TOKEN_NUMBER,
                 value := value_int
                   (atoi_int false (decimal_value ((l.source.drop lp.cur).takeWhile isdigit))) },
               Lexer_advance ((l.source.drop lp.cur).takeWhile isdigit).length lp)) ∧
    (lp.cur + ((l.source.drop lp.cur).takeWhile isdigit).length = l.source_len →
      Lexer_next_token l = .error (.out_of_bounds l.source_len)) ∧
    (decimal_value ((l.source.drop lp.cur).takeWhile isdigit) < 2 ^ 31 →
      atoi_int false (decimal_value ((l.source.drop lp.cur).takeWhile isdigit))
        = (decimal_value ((l.source.drop lp.cur).takeWhile isdigit) : Int)) := by
  obtain ⟨hwfp, hsrc, hlen, _⟩ := Lexer_first_wf hwf hfirst
  rw [← hsrc, ← hlen]
  have hnext : Lexer_next_token l = Lexer_number lp (Lexer_location lp) := by
    unfold Lexer_next_token
    rw [hfirst.1]
    exact Lexer_dispatch_digit hfirst.2.1 hfirst.2.2 hd
  obtain ⟨c1, hc1, hdrop⟩ := Lexer_getElem?_cur hwfp hfirst.2.1
  rw [hfirst.2.2] at hc1
  cases hc1
  have hnum : Lexer_number lp (Lexer_location lp)
      = match atoi (lp.source.drop lp.cur) with
        | none => .error (.out_of_bounds lp.source.length)
        | some i => .ok ({ location := Lexer_location lp, type := TOKEN_NUMBER,
                           value := value_int i },
                         Lexer_advance ((lp.source.drop lp.cur).takeWhile isdigit).length lp) := by
    unfold Lexer_number
    rw [Lexer_chop_while_wf _ _ _ hwfp (by unfold Lexer_fuel; omega)]
    simp only [Lexer_advance_source]
    try rfl
  have hatoi : atoi (lp.source.drop lp.cur)
      = (if (lp.source.drop lp.cur).dropWhile isdigit = [] then none
         else some (decimal_value ((lp.source.drop lp.cur).takeWhile isdigit))).map
          (atoi_int false) := by
    rw [← atoi_digits_takeWhile]
    conv_lhs => rw [hdrop]
    rw [atoi_of_digit _ hd, ← hdrop]
  have hlens : ((lp.source.drop lp.cur).takeWhile isdigit).length
      + ((lp.source.drop lp.cur).dropWhile isdigit).length = lp.source_len - lp.cur := by
    rw [← List.length_append, List.takeWhile_append_dropWhile, List.length_drop, hwfp]
  refine ⟨?_, ?_, atoi_int_small⟩
  · intro hin
    have hne : (lp.source.drop lp.cur).dropWhile isdigit ≠ [] := by
      intro h
      rw [h] at hlens
      simp only [List.length_nil] at hlens
      omega
    rw [hnext, hnum, hatoi]
    simp only [hne, if_false, Option.map_some']
  · intro hend
    have hnil : (lp.source.drop lp.cur).dropWhile isdigit = [] := by
      apply List.length_eq_zero.mp
      have := hfirst.2.1
      omega
    rw [hnext, hnum, hatoi]
    simp only [hnil, if_true, Option.map_none']
    rw [hwfp]

/-! ## Exchanging the two quote bytes -/

theorem swap_quotes_eq_iff {c d : Nat} (hd : d ≠ 34) (hd1 : d ≠ 39) :
    swap_quotes c = d ↔ c = d := by
  unfold swap_quotes
  split
  · omega
  · split <;> omega

theorem swap_quotes_34 {c : Nat} : swap_quotes c = 34 ↔ c = 39 := by
  unfold swap_quotes
  split
  · omega
  · split <;> omega

theorem swap_quotes_39 {c : Nat} : swap_quotes c = 39 ↔ c = 34 := by
  unfold swap_quotes
  split
  · omega
  · split <;> omega

theorem swap_quotes_involutive (c : Nat) : swap_quotes (swap_quotes c) = c := by
  unfold swap_quotes
  split
  · simp; omega
  · split
    · simp; omega
    · rename_i h1 h2; simp [h1, h2]

theorem swap_quotes_of_ne {c : Nat} (h1 : c ≠ 34) (h2 : c ≠ 39) : swap_quotes c = c := by
  simp [swap_quotes, h1, h2]

theorem isspace_swap (c : Nat) : isspace (swap_quotes c) = isspace c := by
  by_cases h1 : c = 34
  · subst h1; decide
  · by_cases h2 : c = 39
    · subst h2; decide
    · rw [swap_quotes_of_ne h1 h2]

theorem isalpha_swap (c : Nat) : isalpha (swap_quotes c) = isalpha c := by
  by_cases h1 : c = 34
  · subst h1; decide
  · by_cases h2 : c = 39
    · subst h2; decide
    · rw [swap_quotes_of_ne h1 h2]

theorem isdigit_swap (c : Nat) : isdigit (swap_quotes c) = isdigit c := by
  by_cases h1 : c = 34
  · subst h1; decide
  · by_cases h2 : c = 39
    · subst h2; decide
    · rw [swap_quotes_of_ne h1 h2]

theorem isalnum_swap (c : Nat) : isalnum (swap_quotes c) = isalnum c := by
  simp [isalnum, isalpha_swap, isdigit_swap]

theorem literal_tokens_swap (c : Nat) : literal_tokens (swap_quotes c) = literal_tokens c := by
  by_cases h1 : c = 34
  · subst h1; decide
  · by_cases h2 : c = 39
    · subst h2; decide
    · rw [swap_quotes_of_ne h1 h2]

theorem literal_tokens_at_swap (c : Nat) :
    literal_tokens_at (swap_quotes c) = literal_tokens_at c := by
  by_cases h1 : c = 34
  · subst h1; rfl
  · by_cases h2 : c = 39
    · subst h2; rfl
    · rw [swap_quotes_of_ne h1 h2]

theorem literal_tokens_at_error {c : Nat} {e : Fault} (h : literal_tokens_at c = .error e) :
    Fault_swap e = e := by
  unfold literal_tokens_at at h
  split at h
  · cases h
  · cases h
    rfl

theorem operator_cases_swap (c : Nat) : operator_cases (swap_quotes c) = operator_cases c := by
  by_cases h1 : c = 34
  · subst h1; decide
  · by_cases h2 : c = 39
    · subst h2; decide
    · rw [swap_quotes_of_ne h1 h2]

theorem not_newline_swap (c : Nat) : (swap_quotes c != 10) = (c != 10) := by
  by_cases h1 : c = 34
  · subst h1; decide
  · by_cases h2 : c = 39
    · subst h2; decide
    · rw [swap_quotes_of_ne h1 h2]

theorem Lexer_swap_swap (l : Lexer) : Lexer_swap (Lexer_swap l) = l := by
  unfold Lexer_swap
  simp only [List.map_map]
  have : swap_quotes ∘ swap_quotes = id := by
    funext c; exact swap_quotes_involutive c
  rw [this, List.map_id]

theorem Lexer_read_swap (l : Lexer) (i : Nat) :
    Lexer_read (Lexer_swap l) i = Except_swap swap_quotes (Lexer_read l i) := by
  unfold Lexer_read Lexer_swap
  simp only [List.getElem?_map]
  cases l.source[i]? <;> rfl

theorem Lexer_swap_cur (l : Lexer) : (Lexer_swap l).cur = l.cur := rfl

theorem Lexer_swap_source_len (l : Lexer) : (Lexer_swap l).source_len = l.source_len := rfl

theorem Lexer_location_swap (l : Lexer) : Lexer_location (Lexer_swap l) = Lexer_location l := rfl

theorem Lexer_is_not_empty_swap (l : Lexer) :
    Lexer_is_not_empty (Lexer_swap l) = Lexer_is_not_empty l := rfl

theorem Lexer_fuel_swap (l : Lexer) : Lexer_fuel (Lexer_swap l) = Lexer_fuel l := rfl

theorem Lexer_chop_char_swap (l : Lexer) :
    Lexer_chop_char (Lexer_swap l) = Except_swap Lexer_swap (Lexer_chop_char l) := by
  unfold Lexer_chop_char
  rw [Lexer_is_not_empty_swap, Lexer_swap_cur, Lexer_read_swap]
  by_cases hne : Lexer_is_not_empty l = true
  · simp only [hne, if_true]
    cases hr : Lexer_read l l.cur with
    | error e => rfl
    | ok c =>
      simp only [Except_swap]
      have h10 : swap_quotes c = 10 ↔ c = 10 := swap_quotes_eq_iff (by decide) (by decide)
      by_cases hc : c = 10
      · simp only [h10.mpr hc, hc, if_true]; rfl
      · have hc1 : ¬ swap_quotes c = 10 := fun h => hc (h10.mp h)
        simp only [hc1, hc, if_false]; rfl
  · simp only [hne, Bool.false_eq_true, if_false]; rfl

theorem Lexer_chop_while_swap (p : Nat → Bool) (hp : ∀ c, p (swap_quotes c) = p c) :
    ∀ (fuel : Nat) (l : Lexer),
      Lexer_chop_while p fuel (Lexer_swap l)
        = Except_swap Lexer_swap (Lexer_chop_while p fuel l) := by
  intro fuel
  induction fuel with
  | zero => intro l; rfl
  | succ n ih =>
    intro l
    simp only [Lexer_chop_while, Lexer_is_not_empty_swap, Lexer_swap_cur, Lexer_read_swap,
      Lexer_chop_char_swap]
    by_cases hne : Lexer_is_not_empty l = true
    · simp only [hne, if_true]
      cases hr : Lexer_read l l.cur with
      | error e => rfl
      | ok c =>
        simp only [Except_swap, hp]
        by_cases hpc : p c = true
        · simp only [hpc, if_true]
          cases hch : Lexer_chop_char l with
          | error e => rfl
          | ok l1 => simp only [Except_swap]; exact ih l1
        · simp only [hpc, Bool.false_eq_true, if_false]
    · simp only [hne, Bool.false_eq_true, if_false]; rfl

theorem Lexer_trim_swap (l : Lexer) :
    Lexer_trim (Lexer_swap l) = Except_swap Lexer_swap (Lexer_trim l) :=
  Lexer_chop_while_swap _ isspace_swap _ _

theorem Lexer_drop_swap (l : Lexer) :
    Lexer_drop (Lexer_swap l) = Except_swap Lexer_swap (Lexer_drop l) := by
  unfold Lexer_drop
  rw [Lexer_fuel_swap, Lexer_chop_while_swap _ not_newline_swap]
  cases hw : Lexer_chop_while (fun c => c != 10) (Lexer_fuel l) l with
  | error e => rfl
  | ok l1 =>
    simp only [Except_swap, Lexer_is_not_empty_swap, Lexer_chop_char_swap]
    by_cases hne : Lexer_is_not_empty l1 = true
    · simp only [hne, if_true]
    · simp only [hne, Bool.false_eq_true, if_false]

theorem Lexer_comments_swap :
    ∀ (fuel : Nat) (l : Lexer),
      Lexer_comments fuel (Lexer_swap l) = Except_swap Lexer_swap (Lexer_comments fuel l) := by
  intro fuel
  induction fuel with
  | zero => intro l; rfl
  | succ n ih =>
    intro l
    simp only [Lexer_comments, Lexer_is_not_empty_swap, Lexer_swap_cur, Lexer_read_swap,
      Lexer_drop_swap]
    by_cases hne : Lexer_is_not_empty l = true
    · simp only [hne, if_true]
      cases hr : Lexer_read l l.cur with
      | error e => rfl
      | ok s0 =>
        simp only [Except_swap]
        have h47 : swap_quotes s0 = 47 ↔ s0 = 47 := swap_quotes_eq_iff (by decide) (by decide)
        by_cases hs0 : s0 = 47
        · simp only [h47.mpr hs0, hs0, if_true]
          cases hr1 : Lexer_read l (l.cur + 1) with
          | error e => rfl
          | ok s1 =>
            simp only [Except_swap]
            have h47' : swap_quotes s1 = 47 ↔ s1 = 47 :=
              swap_quotes_eq_iff (by decide) (by decide)
            by_cases hs1 : s1 = 47
            · simp only [h47'.mpr hs1, hs1, if_true]
              cases hd : Lexer_drop l with
              | error e => rfl
              | ok l1 =>
                simp only [Except_swap, Lexer_trim_swap]
                cases ht : Lexer_trim l1 with
                | error e => rfl
                | ok l2 => simp only [Except_swap]; exact ih l2
            · have hs1' : ¬ swap_quotes s1 = 47 := fun h => hs1 (h47'.mp h)
              simp only [hs1', hs1, if_false]; rfl
        · have hs0' : ¬ swap_quotes s0 = 47 := fun h => hs0 (h47.mp h)
          simp only [hs0', hs0, if_false]
    · simp only [hne, Bool.false_eq_true, if_false]; rfl

theorem Lexer_skip_trivia_swap (l : Lexer) :
    Lexer_skip_trivia (Lexer_swap l) = Except_swap Lexer_swap (Lexer_skip_trivia l) := by
  unfold Lexer_skip_trivia
  rw [Lexer_trim_swap]
  cases ht : Lexer_trim l with
  | error e => rfl
  | ok l1 => exact Lexer_comments_swap _ l1

theorem name_byte_swap (c : Nat) :
    (isalnum (swap_quotes c) || swap_quotes c == 95) = (isalnum c || c == 95) := by
  by_cases h1 : c = 34
  · subst h1; decide
  · by_cases h2 : c = 39
    · subst h2; decide
    · rw [swap_quotes_of_ne h1 h2]

theorem Lexer_name_swap (l : Lexer) (loc : Location) :
    Lexer_name (Lexer_swap l) loc = Except_swap Branch_swap (Lexer_name l loc) := by
  unfold Lexer_name
  rw [Lexer_fuel_swap, Lexer_chop_while_swap _ name_byte_swap]
  cases hw : Lexer_chop_while (fun c => isalnum c || c == 95) (Lexer_fuel l) l with
  | error e => rfl
  | ok l1 => rfl

theorem literal_tokens_type_swap (c : Nat) :
    Token_Type_swap (literal_tokens c) = literal_tokens c := by
  unfold literal_tokens
  split <;> rfl

theorem Lexer_literal_swap (l : Lexer) (loc : Location) (first : Nat) :
    Lexer_literal (Lexer_swap l) loc (swap_quotes first)
      = Except_swap Branch_swap (Lexer_literal l loc first) := by
  unfold Lexer_literal
  rw [Lexer_chop_char_swap]
  cases hc : Lexer_chop_char l with
  | error e => rfl
  | ok l1 =>
    simp only [Except_swap, Lexer_swap_cur, Lexer_read_swap, literal_tokens_at_swap]
    cases hat : literal_tokens_at first with
    | error e =>
      simp only [literal_tokens_at_error hat]
    | ok type =>
      obtain ⟨_, rfl⟩ := literal_tokens_at_ok hat
      cases hr : Lexer_read l1 (size_sub l1.cur 1) with
      | error e => rfl
      | ok c =>
        simp only [Except_swap, Branch_swap, Token_swap, literal_tokens_swap,
          literal_tokens_type_swap]

theorem Lexer_string_loop_swap :
    ∀ (fuel : Nat) (l : Lexer),
      Lexer_string_loop fuel (Lexer_swap l) = Except_swap Lexer_swap (Lexer_char_loop fuel l) := by
  intro fuel
  induction fuel with
  | zero => intro l; rfl
  | succ n ih =>
    intro l
    simp only [Lexer_string_loop, Lexer_char_loop, Lexer_is_not_empty_swap, Lexer_swap_cur,
      Lexer_read_swap, Lexer_chop_char_swap]
    by_cases hne : Lexer_is_not_empty l = true
    · simp only [hne, if_true]
      cases hr : Lexer_read l l.cur with
      | error e => rfl
      | ok c =>
        simp only [Except_swap, swap_quotes_34]
        by_cases hq : c = 39
        · simp only [hq, if_true]
        · simp only [hq, if_false]
          have h92 : swap_quotes c = 92 ↔ c = 92 := swap_quotes_eq_iff (by decide) (by decide)
          simp only [h92]
          by_cases hb : c = 92
          · simp only [hb, if_true]
            cases h1 : Lexer_chop_char l with
            | error e => rfl
            | ok l1 =>
              simp only [Except_swap, Lexer_chop_char_swap]
              cases h2 : Lexer_chop_char l1 with
              | error e => rfl
              | ok l2 => exact ih l2
          · simp only [hb, if_false]
            cases h1 : Lexer_chop_char l with
            | error e => rfl
            | ok l1 => exact ih l1
    · simp only [hne, Bool.false_eq_true, if_false]; rfl

theorem Lexer_char_loop_swap :
    ∀ (fuel : Nat) (l : Lexer),
      Lexer_char_loop fuel (Lexer_swap l) = Except_swap Lexer_swap (Lexer_string_loop fuel l) := by
  intro fuel
  induction fuel with
  | zero => intro l; rfl
  | succ n ih =>
    intro l
    simp only [Lexer_string_loop, Lexer_char_loop, Lexer_is_not_empty_swap, Lexer_swap_cur,
      Lexer_read_swap, Lexer_chop_char_swap]
    by_cases hne : Lexer_is_not_empty l = true
    · simp only [hne, if_true]
      cases hr : Lexer_read l l.cur with
      | error e => rfl
      | ok c =>
        simp only [Except_swap, swap_quotes_39]
        by_cases hq : c = 34
        · simp only [hq, if_true]
        · simp only [hq, if_false]
          have h92 : swap_quotes c = 92 ↔ c = 92 := swap_quotes_eq_iff (by decide) (by decide)
          simp only [h92]
          by_cases hb : c = 92
          · simp only [hb, if_true]
            cases h1 : Lexer_chop_char l with
            | error e => rfl
            | ok l1 =>
              simp only [Except_swap, Lexer_chop_char_swap]
              cases h2 : Lexer_chop_char l1 with
              | error e => rfl
              | ok l2 => exact ih l2
          · simp only [hb, if_false]
            cases h1 : Lexer_chop_char l with
            | error e => rfl
            | ok l1 => exact ih l1
    · simp only [hne, Bool.false_eq_true, if_false]; rfl

theorem Lexer_string_swap (l : Lexer) (loc : Location) :
    Lexer_string (Lexer_swap l) loc = Except_swap Option_branch_swap (Lexer_char l loc) := by
  unfold Lexer_string Lexer_char
  rw [Lexer_chop_char_swap]
  cases h1 : Lexer_chop_char l with
  | error e => rfl
  | ok l1 =>
    simp only [Except_swap, Lexer_fuel_swap, Lexer_string_loop_swap, Lexer_swap_cur]
    cases h2 : Lexer_char_loop (Lexer_fuel l1) l1 with
    | error e => rfl
    | ok l2 =>
      simp only [Except_swap, Lexer_is_not_empty_swap, Lexer_chop_char_swap]
      by_cases hne : Lexer_is_not_empty l2 = true
      · simp only [hne, if_true]
        cases h3 : Lexer_chop_char l2 with
        | error e => rfl
        | ok l3 => rfl
      · simp only [hne, Bool.false_eq_true, if_false]; rfl

theorem Lexer_char_swap (l : Lexer) (loc : Location) :
    Lexer_char (Lexer_swap l) loc = Except_swap Option_branch_swap (Lexer_string l loc) := by
  unfold Lexer_string Lexer_char
  rw [Lexer_chop_char_swap]
  cases h1 : Lexer_chop_char l with
  | error e => rfl
  | ok l1 =>
    simp only [Except_swap, Lexer_fuel_swap, Lexer_char_loop_swap, Lexer_swap_cur]
    cases h2 : Lexer_string_loop (Lexer_fuel l1) l1 with
    | error e => rfl
    | ok l2 =>
      simp only [Except_swap, Lexer_is_not_empty_swap, Lexer_chop_char_swap]
      by_cases hne : Lexer_is_not_empty l2 = true
      · simp only [hne, if_true]
        cases h3 : Lexer_chop_char l2 with
        | error e => rfl
        | ok l3 => rfl
      · simp only [hne, Bool.false_eq_true, if_false]; rfl

theorem atoi_digits_swap (xs : List Nat) (acc : Nat) :
    atoi_digits (xs.map swap_quotes) acc = atoi_digits xs acc := by
  induction xs generalizing acc with
  | nil => rfl
  | cons c cs ih =>
    simp only [List.map_cons, atoi_digits, isdigit_swap]
    by_cases hd : isdigit c = true
    · have hc : swap_quotes c = c := by
        apply swap_quotes_of_ne
        · intro h; subst h; exact absurd hd (by decide)
        · intro h; subst h; exact absurd hd (by decide)
      simp only [hd, if_true, hc, ih]
    · simp only [hd, Bool.false_eq_true, if_false]

theorem atoi_swap (xs : List Nat) : atoi (xs.map swap_quotes) = atoi xs := by
  induction xs with
  | nil => rfl
  | cons c cs ih =>
    have h45 : swap_quotes c = 45 ↔ c = 45 := swap_quotes_eq_iff (by decide) (by decide)
    have h43 : swap_quotes c = 43 ↔ c = 43 := swap_quotes_eq_iff (by decide) (by decide)
    have hcons := atoi_digits_swap (c :: cs) 0
    simp only [List.map_cons] at hcons
    simp only [List.map_cons, atoi, isspace_swap, h45, h43, ih, atoi_digits_swap, hcons]

theorem Lexer_number_swap (l : Lexer) (loc : Location) :
    Lexer_number (Lexer_swap l) loc = Except_swap Branch_swap (Lexer_number l loc) := by
  unfold Lexer_number
  rw [Lexer_fuel_swap, Lexer_chop_while_swap _ isdigit_swap]
  cases hw : Lexer_chop_while isdigit (Lexer_fuel l) l with
  | error e => rfl
  | ok l1 =>
    simp only [Except_swap, Lexer_swap_cur]
    have hsrc : (Lexer_swap l1).source.drop l.cur = (l1.source.drop l.cur).map swap_quotes := by
      simp [Lexer_swap, List.map_drop]
    have hlen : (Lexer_swap l1).source.length = l1.source.length := by
      simp [Lexer_swap]
    rw [hsrc, atoi_swap, hlen]
    cases ha : atoi (l1.source.drop l.cur) with
    | none => rfl
    | some i => rfl

theorem Lexer_next_is_swap (l : Lexer) (c : Nat) (h1 : c ≠ 34) (h2 : c ≠ 39) :
    Lexer_next_is (Lexer_swap l) c = Except_swap id (Lexer_next_is l c) := by
  unfold Lexer_next_is
  rw [Lexer_is_not_empty_swap, Lexer_swap_cur, Lexer_read_swap]
  by_cases hne : Lexer_is_not_empty l = true
  · simp only [hne, if_true]
    cases hr : Lexer_read l l.cur with
    | error e => rfl
    | ok d =>
      simp only [Except_swap, id]
      have hiff := swap_quotes_eq_iff (c := d) h1 h2
      by_cases hd : d = c
      · subst hd; simp [swap_quotes_of_ne h1 h2]
      · have hd1 : ¬ swap_quotes d = c := fun h => hd (hiff.mp h)
        simp [hd, hd1]
  · simp only [hne, Bool.false_eq_true, if_false]; rfl

theorem Lexer_select_swap (l : Lexer) (type : Token_Type) (alts : List (Nat × Token_Type))
    (halts : ∀ a ∈ alts, a.1 ≠ 34 ∧ a.1 ≠ 39) :
    Lexer_select (Lexer_swap l) type alts = Except_swap id (Lexer_select l type alts) := by
  induction alts with
  | nil => rfl
  | cons a alts ih =>
    obtain ⟨c, t⟩ := a
    have hc := halts (c, t) (List.mem_cons_self _ _)
    simp only [Lexer_select, Lexer_next_is_swap l c hc.1 hc.2]
    cases hn : Lexer_next_is l c with
    | error e => rfl
    | ok b =>
      cases b with
      | true => rfl
      | false => exact ih (fun a ha => halts a (List.mem_cons_of_mem _ ha))

theorem Lexer_select_type (l : Lexer) (type : Token_Type) (alts : List (Nat × Token_Type))
    (h0 : Token_Type_swap type = type) (halts : ∀ a ∈ alts, Token_Type_swap a.2 = a.2)
    {t : Token_Type} (h : Lexer_select l type alts = .ok t) : Token_Type_swap t = t := by
  induction alts with
  | nil => simp [Lexer_select] at h; exact h ▸ h0
  | cons a alts ih =>
    obtain ⟨c, ty⟩ := a
    rw [Lexer_select] at h
    split at h
    · cases h
    · cases h
      exact halts (c, t) (List.mem_cons_self _ _)
    · exact ih (fun a ha => halts a (List.mem_cons_of_mem _ ha)) h

theorem operator_cases_alts {first : Nat} {type : Token_Type} {alts : List (Nat × Token_Type)}
    (h : operator_cases first = some (type, alts)) :
    Token_Type_swap type = type ∧
      ∀ a ∈ alts, (a.1 ≠ 34 ∧ a.1 ≠ 39) ∧ Token_Type_swap a.2 = a.2 := by
  unfold operator_cases at h
  split at h <;> cases h <;> simp [Token_Type_swap]

theorem Lexer_operator_swap (l : Lexer) (loc : Location) (first : Nat) :
    Lexer_operator (Lexer_swap l) loc (swap_quotes first)
      = Except_swap Branch_swap (Lexer_operator l loc first) := by
  unfold Lexer_operator
  simp only [operator_cases_swap, Lexer_swap_cur]
  cases hcase : operator_cases first with
  | none => rfl
  | some r =>
    obtain ⟨type, alts⟩ := r
    obtain ⟨h0, halts⟩ := operator_cases_alts hcase
    simp only [Lexer_chop_char_swap]
    cases hc : Lexer_chop_char l with
    | error e => rfl
    | ok l1 =>
      simp only [Except_swap, Lexer_select_swap l1 type alts (fun a ha => (halts a ha).1)]
      cases hs : Lexer_select l1 type alts with
      | error e => rfl
      | ok t =>
        have ht := Lexer_select_type l1 type alts h0 (fun a ha => (halts a ha).2) hs
        simp only [Except_swap, id, Branch_swap, Token_swap, ht]

theorem Lexer_is_empty_swap (l : Lexer) : Lexer_is_empty (Lexer_swap l) = Lexer_is_empty l := rfl

theorem Lexer_dispatch_swap (l : Lexer) :
    Lexer_dispatch (Lexer_swap l) = Except_swap Branch_swap (Lexer_dispatch l) := by
  unfold Lexer_dispatch
  rw [Lexer_is_empty_swap]
  by_cases hemp : Lexer_is_empty l = true
  · simp only [hemp, if_true]; rfl
  · simp only [hemp, Bool.false_eq_true, if_false, Lexer_location_swap, Lexer_swap_cur,
      Lexer_read_swap]
    cases hr : Lexer_read l l.cur with
    | error e => rfl
    | ok first =>
      simp only [Except_swap]
      have h95 : (swap_quotes first == 95) = (first == 95) := by
        by_cases h1 : first = 34
        · subst h1; decide
        · by_cases h2 : first = 39
          · subst h2; decide
          · rw [swap_quotes_of_ne h1 h2]
      simp only [isalpha_swap, h95, literal_tokens_at_swap, isdigit_swap]
      by_cases hname : (isalpha first || first == 95) = true
      · simp only [hname, if_true]
        exact Lexer_name_swap l _
      · simp only [hname, Bool.false_eq_true, if_false]
        cases hat : literal_tokens_at first with
        | error e =>
          simp only [literal_tokens_at_error hat]
        | ok type =>
        obtain ⟨_, rfl⟩ := literal_tokens_at_ok hat
        dsimp only
        by_cases hlit : literal_tokens first ≠ TOKEN_NULL
        · rw [if_pos hlit, if_pos hlit]
          exact Lexer_literal_swap l _ first
        · rw [if_neg hlit, if_neg hlit]
          by_cases h34 : first = 34
          · subst h34
            have hs : swap_quotes 34 = 39 := by decide
            simp only [hs, show ¬ (39 = 34) by decide, if_false, if_true,
              show isdigit 34 = false by decide, Bool.false_eq_true, Lexer_char_swap]
            cases hstr : Lexer_string l (Lexer_location l) with
            | error e => rfl
            | ok r =>
              obtain ⟨ot, l1⟩ := r
              cases ot with
              | some t => rfl
              | none =>
                simp only [Except_swap, Option_branch_swap, Option.map_none',
                  show ¬ (34 = 39) by decide, if_false]
                exact Lexer_operator_swap l1 _ 34
          · by_cases h39 : first = 39
            · subst h39
              have hs : swap_quotes 39 = 34 := by decide
              simp only [hs, show ¬ (39 = 34) by decide, if_false, if_true,
                show isdigit 39 = false by decide, Bool.false_eq_true, Lexer_string_swap]
              cases hch : Lexer_char l (Lexer_location l) with
              | error e => rfl
              | ok r =>
                obtain ⟨ot, l1⟩ := r
                cases ot with
                | some t => rfl
                | none =>
                  simp only [Except_swap, Option_branch_swap, Option.map_none',
                    show ¬ (34 = 39) by decide, if_false]
                  exact Lexer_operator_swap l1 _ 39
            · have hs : swap_quotes first = first := swap_quotes_of_ne h34 h39
              simp only [hs, h34, h39, if_false]
              by_cases hd : isdigit first = true
              · simp only [hd, if_true]
                exact Lexer_number_swap l _
              · simp only [hd, Bool.false_eq_true, if_false]
                have := Lexer_operator_swap l (Lexer_location l) first
                rw [hs] at this
                exact this

/-- The run on the buffer with the two quote bytes exchanged is the run on the
buffer with the kinds STRING and CHAR, and the quote bytes, exchanged in its
result. -/
theorem Lexer_next_token_swap (l : Lexer) :
    Lexer_next_token (Lexer_swap l) = Except_swap Branch_swap (Lexer_next_token l) := by
  unfold Lexer_next_token
  rw [Lexer_skip_trivia_swap]
  cases hs : Lexer_skip_trivia l with
  | error e => rfl
  | ok l1 => exact Lexer_dispatch_swap l1

/-- C9. Exchanging the double and single quote bytes of the buffer turns a call of
`Lexer_next_token` that returns STRING with a slice, a location and a final
state into a call that returns CHAR with the same slice, the same location and
the same final cursor, line and beginning of line, and conversely; the two
also agree when the literal is unterminated: both leave through `loc_panic` at
the same location, each reporting its own quote. -/
theorem C9_char_is_string_with_quotes_exchanged (l : Lexer) :
    (∀ (loc : Location) (sv : StringView) (l1 : Lexer),
      Lexer_next_token l
          = .ok ({ location := loc, type := TOKEN_STRING, value := value_sv sv }, l1) →
        Lexer_next_token (Lexer_swap l)
            = .ok ({ location := loc, type := TOKEN_CHAR, value := value_sv sv }, Lexer_swap l1) ∧
          (Lexer_swap l1).cur = l1.cur ∧ (Lexer_swap l1).bol = l1.bol ∧
          (Lexer_swap l1).row = l1.row) ∧
    (∀ (loc : Location) (sv : StringView) (l1 : Lexer),
      Lexer_next_token l
          = .ok ({ location := loc, type := TOKEN_CHAR, value := value_sv sv }, l1) →
        Lexer_next_token (Lexer_swap l)
            = .ok ({ location := loc, type := TOKEN_STRING, value := value_sv sv }, Lexer_swap l1) ∧
          (Lexer_swap l1).cur = l1.cur ∧ (Lexer_swap l1).bol = l1.bol ∧
          (Lexer_swap l1).row = l1.row) ∧
    (∀ (loc : Location),
      Lexer_next_token l = .error (.loc_panic loc 34) →
        Lexer_next_token (Lexer_swap l) = .error (.loc_panic loc 39)) ∧
    (∀ (loc : Location),
      Lexer_next_token l = .error (.loc_panic loc 39) →
        Lexer_next_token (Lexer_swap l) = .error (.loc_panic loc 34)) ∧
    Lexer_swap (Lexer_swap l) = l := by
  refine ⟨?_, ?_, ?_, ?_, Lexer_swap_swap l⟩
  · intro loc sv l1 h
    rw [Lexer_next_token_swap, h]
    exact ⟨rfl, rfl, rfl, rfl⟩
  · intro loc sv l1 h
    rw [Lexer_next_token_swap, h]
    exact ⟨rfl, rfl, rfl, rfl⟩
  · intro loc h
    rw [Lexer_next_token_swap, h]
    rfl
  · intro loc h
    rw [Lexer_next_token_swap, h]
    rfl

theorem C9_char_is_string_with_quotes_exchanged_witness :
    Lexer_next_token (Lexer_init "f.cx" (bytes " \"a'\\\"\" "))
        = .ok ({ location := { file_path := some "f.cx", line := 0, row := 1 },
                 type := TOKEN_STRING, value := value_sv { data := some 2, size := 4 } },
               { Lexer_init "f.cx" (bytes " \"a'\\\"\" ") with cur := 7 }) ∧
      Lexer_swap (Lexer_init "f.cx" (bytes " \"a'\\\"\" "))
        = Lexer_init "f.cx" (bytes " 'a\"\\'' ") ∧
      Lexer_next_token (Lexer_init "f.cx" (bytes " 'a\"\\'' "))
        = .ok ({ location := { file_path := some "f.cx", line := 0, row := 1 },
                 type := TOKEN_CHAR, value := value_sv { data := some 2, size := 4 } },
               { Lexer_init "f.cx" (bytes " 'a\"\\'' ") with cur := 7 }) :=
  ⟨rfl, rfl,
   ((C9_char_is_string_with_quotes_exchanged (Lexer_init "f.cx" (bytes " \"a'\\\"\" "))).1
      _ _ _ rfl).1⟩

/-! ## The growable array -/

theorem darray_realloc_length {T : Type} (data : List (Option T)) (n : Nat) :
    (darray_realloc data n).length = n := by
  unfold darray_realloc
  simp only [List.length_take, List.length_append, List.length_replicate]
  omega

theorem darray_realloc_take {T : Type} (data : List (Option T)) (n k : Nat)
    (hk : k ≤ data.length) (hn : data.length ≤ n) :
    (darray_realloc data n).take k = data.take k := by
  unfold darray_realloc
  have h1 : (data ++ List.replicate (n - data.length) none).length = n := by
    simp only [List.length_append, List.length_replicate]; omega
  rw [List.take_of_length_le (Nat.le_of_eq h1), List.take_append_of_le_length hk]

theorem take_succ_set {α : Type} (xs : List α) (i : Nat) (a : α) (h : i < xs.length) :
    (xs.set i a).take (i + 1) = xs.take i ++ [a] := by
  induction xs generalizing i with
  | nil => simp at h
  | cons x xs ih =>
    cases i with
    | zero => simp
    | succ i =>
      simp only [List.length_cons] at h
      simp only [List.set_cons_succ, List.take_succ_cons, List.cons_append]
      rw [ih i (by omega)]

/-- One push on an array with at least one cell: the value is appended after
the elements in use, which are unchanged; the capacity doubles when the array
is full and only then. -/
theorem DARRAY_PUSH_spec {T : Type} (da : DARRAY T) (t : T) (hinv : DARRAY_inv da)
    (hcap : 1 ≤ da._allocated) :
    ∃ da1, DARRAY_PUSH da t = .ok da1 ∧ da1.len = da.len + 1 ∧
      da1.elems = da.elems ++ [some t] ∧ DARRAY_inv da1 ∧
      da1._allocated = (if da.len = da._allocated then da._allocated * 2 else da._allocated) ∧
      da1.data[da.len]? = some (some t) ∧ da.len < da1._allocated := by
  obtain ⟨hlen, hle⟩ := hinv
  unfold DARRAY_PUSH
  by_cases hfull : da.len = da._allocated
  · simp only [hfull, if_true, darray_realloc_length]
    have hlt : da._allocated < da._allocated * 2 := by omega
    simp only [hlt, if_true]
    refine ⟨_, rfl, rfl, ?_, ?_, rfl, ?_, hlt⟩
    · simp only [DARRAY.elems, hfull]
      rw [take_succ_set _ _ _ (by rw [darray_realloc_length]; exact hlt),
        darray_realloc_take _ _ _ (by omega) (by omega)]
    · constructor
      · simp [darray_realloc_length]
      · simp only; omega
    · simp only [hfull]
      rw [List.getElem?_set_self (by rw [darray_realloc_length]; exact hlt)]
  · simp only [hfull, if_false]
    have hlt : da.len < da.data.length := by omega
    simp only [hlt, if_true]
    refine ⟨_, rfl, rfl, ?_, ?_, rfl, ?_, hlen ▸ hlt⟩
    · simp only [DARRAY.elems]
      rw [take_succ_set _ _ _ hlt]
    · constructor
      · simp [hlen]
      · simp only; omega
    · simp only
      rw [List.getElem?_set_self hlt]

theorem DARRAY_inv_init {T : Type} (n : Nat) : DARRAY_inv (DARRAY_INIT n : DARRAY T) := by
  simp [DARRAY_inv, DARRAY_INIT]

theorem DARRAY_elems_init {T : Type} (n : Nat) : (DARRAY_INIT n : DARRAY T).elems = [] := by
  simp [DARRAY.elems, DARRAY_INIT]

/-- A sequence of pushes on an array with at least one cell, whose capacity is
`n * 2 ^ j` for the least `j` that holds the elements in use. -/
theorem DARRAY_push_all_spec {T : Type} (n : Nat) (vs : List T) :
    ∀ (da : DARRAY T), DARRAY_inv da → 1 ≤ da._allocated →
      (∃ j, da._allocated = n * 2 ^ j ∧ ∀ i, i < j → n * 2 ^ i < da.len) →
      ∃ da1, DARRAY_push_all da vs = .ok da1 ∧ da1.len = da.len + vs.length ∧
        da1.elems = da.elems ++ vs.map some ∧ DARRAY_inv da1 ∧
        ∃ j, da1._allocated = n * 2 ^ j ∧ ∀ i, i < j → n * 2 ^ i < da1.len := by
  induction vs with
  | nil =>
    intro da hinv _ hj
    exact ⟨da, rfl, by simp, by simp, hinv, hj⟩
  | cons v vs ih =>
    intro da hinv hcap hj
    obtain ⟨da1, hpush, hlen1, helems1, hinv1, hcap1, _, _⟩ := DARRAY_PUSH_spec da v hinv hcap
    have hcap1' : 1 ≤ da1._allocated := by
      rw [hcap1]; split <;> omega
    have hj1 : ∃ j, da1._allocated = n * 2 ^ j ∧ ∀ i, i < j → n * 2 ^ i < da1.len := by
      obtain ⟨j, hj0, hjmin⟩ := hj
      by_cases hfull : da.len = da._allocated
      · refine ⟨j + 1, ?_, ?_⟩
        · rw [hcap1, if_pos hfull, hj0, pow_succ]; ring
        · intro i hi
          rw [hlen1, hfull, hj0]
          have hpow : 2 ^ i ≤ 2 ^ j := Nat.pow_le_pow_right (by omega) (by omega)
          have := Nat.mul_le_mul_left n hpow
          omega
      · refine ⟨j, ?_, ?_⟩
        · rw [hcap1, if_neg hfull, hj0]
        · intro i hi
          have := hjmin i hi
          omega
    obtain ⟨da2, hall, hlen2, helems2, hinv2, hj2⟩ := ih da1 hinv1 hcap1' hj1
    refine ⟨da2, ?_, ?_, ?_, hinv2, hj2⟩
    · simp only [DARRAY_push_all, hpush, hall]
    · rw [hlen2, hlen1]; simp only [List.length_cons]; omega
    · rw [helems2, helems1]; simp

/-- C13. For every initial capacity `n >= 1` and every sequence of values
pushed onto the array made by `DARRAY_INIT(n)`, every push returns; afterwards
`len` is the number of values, the elements in use are the values in push
order, `len <= _allocated`, and `_allocated` is `n * 2 ^ j` for the least `j`
with `n * 2 ^ j >= len`.  A single push appends and leaves the earlier
elements unchanged; it doubles the capacity when the array is full and
otherwise leaves it. -/
theorem C13_darray_push_sequence {T : Type} :
    (∀ (n : Nat) (vs : List T), 1 ≤ n →
      ∃ da, DARRAY_push_all (DARRAY_INIT n) vs = .ok da ∧ da.len = vs.length ∧
        da.elems = vs.map some ∧ da.len ≤ da._allocated ∧
        ∃ j, da._allocated = n * 2 ^ j ∧ vs.length ≤ n * 2 ^ j ∧
          ∀ i, i < j → n * 2 ^ i < vs.length) ∧
    (∀ (da : DARRAY T) (t : T), DARRAY_inv da → 1 ≤ da._allocated →
      ∃ da1, DARRAY_PUSH da t = .ok da1 ∧ da1.elems = da.elems ++ [some t] ∧
        da1._allocated
          = (if da.len = da._allocated then da._allocated * 2 else da._allocated)) := by
  constructor
  · intro n vs hn
    obtain ⟨da, hall, hlen, helems, hinv, j, hj, hjmin⟩ :=
      DARRAY_push_all_spec n vs (DARRAY_INIT n) (DARRAY_inv_init n) hn
        ⟨0, by simp [DARRAY_INIT], fun i hi => absurd hi (Nat.not_lt_zero i)⟩
    have hlen' : da.len = vs.length := by
      rw [hlen]; simp [DARRAY_INIT]
    refine ⟨da, hall, hlen', ?_, hinv.2, j, hj, ?_, ?_⟩
    · rw [helems, DARRAY_elems_init]; rfl
    · rw [← hlen', ← hj]; exact hinv.2
    · intro i hi; rw [← hlen']; exact hjmin i hi
  · intro da t hinv hcap
    obtain ⟨da1, h1, _, h3, _, h5, _, _⟩ := DARRAY_PUSH_spec da t hinv hcap
    exact ⟨da1, h1, h3, h5⟩

theorem C13_darray_push_sequence_witness :
    (1 : Nat) ≤ 2 ∧
      ∃ da, DARRAY_push_all (DARRAY_INIT 2) [10, 20, 30, 40, 50] = .ok da ∧ da.len = 5 ∧
        da.elems = [some 10, some 20, some 30, some 40, some 50] ∧ da.len ≤ da._allocated ∧
        ∃ j, da._allocated = 2 * 2 ^ j ∧ 5 ≤ 2 * 2 ^ j ∧ ∀ i, i < j → 2 * 2 ^ i < 5 :=
  ⟨by decide, (C13_darray_push_sequence (T := Nat)).1 2 [10, 20, 30, 40, 50] (by decide)⟩

/-- C20, as amended. A push on an array that satisfies the invariant and has
at least one cell returns; afterwards `len <= _allocated` still holds, the
array still has at least one cell, and the element was written at the index
of the old `len`, which is below `_allocated`.  Every array made by
`DARRAY_INIT(n)` with `n >= 1`, as the array of the driver is with
`n = 1000`, satisfies both conditions. -/
theorem C20_push_keeps_invariant {T : Type} (da : DARRAY T) (t : T)
    (hinv : DARRAY_inv da) (hcap : 1 ≤ da._allocated) :
    (∃ da1, DARRAY_PUSH da t = .ok da1 ∧ da1.len = da.len + 1 ∧
      da1.len ≤ da1._allocated ∧ DARRAY_inv da1 ∧ 1 ≤ da1._allocated ∧
      da.len < da1._allocated ∧ da1.data[da.len]? = some (some t)) ∧
    (∀ n, 1 ≤ n → DARRAY_inv (DARRAY_INIT n : DARRAY T) ∧
      1 ≤ (DARRAY_INIT n : DARRAY T)._allocated) := by
  refine ⟨?_, fun n hn => ⟨DARRAY_inv_init n, hn⟩⟩
  obtain ⟨da1, h1, h2, _, h4, _, h6, h7⟩ := DARRAY_PUSH_spec da t hinv hcap
  have h8 : 1 ≤ da1._allocated := by omega
  exact ⟨da1, h1, h2, h4.2, h4, h8, h7, h6⟩

theorem C20_push_keeps_invariant_witness :
    DARRAY_inv (DARRAY.mk [some 5] 1 1) ∧ 1 ≤ (DARRAY.mk [some 5] 1 1)._allocated ∧
      ∃ da1, DARRAY_PUSH (DARRAY.mk [some 5] 1 1) 7 = .ok da1 ∧ da1.len = 1 + 1 ∧
        da1.len ≤ da1._allocated ∧ DARRAY_inv da1 ∧ 1 ≤ da1._allocated ∧
        1 < da1._allocated ∧ da1.data[1]? = some (some 7) :=
  ⟨⟨rfl, Nat.le_refl 1⟩, Nat.le_refl 1,
   (C20_push_keeps_invariant (DARRAY.mk [some 5] 1 1) 7 ⟨rfl, Nat.le_refl 1⟩
      (Nat.le_refl 1)).1⟩

/-- C20, the claim as stated fails for the capacity 0. The array made by
`DARRAY_INIT(0)` satisfies `len <= _allocated`; the push finds it full and
doubles the capacity to `0 * 2 = 0`, so the element is written at index 0,
which is no cell of the array, and `len <= _allocated` would not hold after
it. -/
theorem C20_counterexample :
    DARRAY_inv (DARRAY_INIT 0 : DARRAY Nat) ∧
      (DARRAY_INIT 0 : DARRAY Nat).len ≤ (DARRAY_INIT 0 : DARRAY Nat)._allocated ∧
      (DARRAY_INIT 0 : DARRAY Nat)._allocated * 2 = 0 ∧
      DARRAY_PUSH (DARRAY_INIT 0 : DARRAY Nat) 7 = .error (.out_of_bounds 0) :=
  ⟨DARRAY_inv_init 0, Nat.le_refl 0, rfl, rfl⟩

/-! ## Advancing the cursor by one byte -/

/-- C14. On a buffer of exactly `source_len` bytes `Lexer_chop_char` leaves the
state unchanged when `cur = source_len`; when `cur < source_len` it sets `cur`
to `cur + 1` and, exactly when the consumed byte is a line-feed, sets `bol` to
the new `cur` and adds one to `row`, leaving them otherwise.  It never changes
`file_path`, `source` or `source_len`, and `Lexer_is_empty` holds exactly when
`cur >= source_len`. -/
theorem C14_chop_char (l : Lexer) (hwf : Lexer_wf l) :
    (l.cur = l.source_len → Lexer_chop_char l = .ok l) ∧
    (l.cur < l.source_len →
      ∃ c, l.source[l.cur]? = some c ∧
        Lexer_chop_char l
          = .ok { l with cur := l.cur + 1,
                         bol := if c = 10 then l.cur + 1 else l.bol,
                         row := if c = 10 then l.row + 1 else l.row }) ∧
    (∀ l1, Lexer_chop_char l = .ok l1 →
      l1.file_path = l.file_path ∧ l1.source = l.source ∧ l1.source_len = l.source_len) ∧
    (Lexer_is_empty l = true ↔ l.source_len ≤ l.cur) := by
  refine ⟨?_, ?_, ?_, Lexer_is_empty_iff⟩
  · intro h
    exact Lexer_chop_char_of_empty (by omega)
  · intro h
    obtain ⟨c, hc, _⟩ := Lexer_getElem?_cur hwf h
    refine ⟨c, hc, ?_⟩
    rw [Lexer_chop_char_of_read h hc]
    unfold Lexer_step
    by_cases h10 : c = 10
    · simp [hc, h10]
    · simp [hc, h10]
  · intro l1 h
    rcases Lexer_chop_char_ok h with ⟨_, h1⟩ | ⟨_, h1⟩
    · rw [h1]; simp
    · rw [h1]; simp

theorem C14_chop_char_witness :
    Lexer_wf (Lexer_init "f.cx" (bytes "\nx")) ∧
      (∃ c, (Lexer_init "f.cx" (bytes "\nx")).source[(Lexer_init "f.cx" (bytes "\nx")).cur]?
          = some c ∧
        Lexer_chop_char (Lexer_init "f.cx" (bytes "\nx"))
          = .ok { Lexer_init "f.cx" (bytes "\nx") with
                  cur := (Lexer_init "f.cx" (bytes "\nx")).cur + 1,
                  bol := if c = 10 then (Lexer_init "f.cx" (bytes "\nx")).cur + 1
                         else (Lexer_init "f.cx" (bytes "\nx")).bol,
                  row := if c = 10 then (Lexer_init "f.cx" (bytes "\nx")).row + 1
                         else (Lexer_init "f.cx" (bytes "\nx")).row }) ∧
      Lexer_chop_char { Lexer_init "f.cx" (bytes "\nx") with cur := 2, bol := 1, row := 1 }
        = .ok { Lexer_init "f.cx" (bytes "\nx") with cur := 2, bol := 1, row := 1 } :=
  have hwf : Lexer_wf (Lexer_init "f.cx" (bytes "\nx")) := rfl
  have hwf2 : Lexer_wf { Lexer_init "f.cx" (bytes "\nx") with cur := 2, bol := 1, row := 1 } := rfl
  ⟨hwf, (C14_chop_char _ hwf).2.1 (by decide), (C14_chop_char _ hwf2).1 rfl⟩

/-! ## The order of the class tests -/

theorem byte_classes_high {c : Nat} (h : 128 ≤ c) :
    byte_classes c = [false, false, false, false, false, false] := by
  have h1 : c ∉ punctuation_table.map Prod.fst := by
    simp only [punctuation_table, List.map_cons, List.map_nil, List.mem_cons,
      List.mem_singleton, List.not_mem_nil, or_false]
    omega
  have h2 : c ∉ operator_leads := by
    simp only [operator_leads, List.mem_cons, List.mem_singleton, List.not_mem_nil, or_false]
    omega
  have h3 : isalpha c = false := by
    simp only [isalpha, Bool.or_eq_false_iff, Bool.and_eq_false_iff, decide_eq_false_iff_not]
    omega
  have h4 : isdigit c = false := by
    simp only [isdigit, Bool.and_eq_false_iff, decide_eq_false_iff_not]
    omega
  have h5 : (c == 95) = false := by simp; omega
  have h6 : (c == 34) = false := by simp; omega
  have h7 : (c == 39) = false := by simp; omega
  simp [byte_classes, literal_tokens_null h1, operator_cases_none h2, h3, h4, h5, h6, h7]

theorem byte_classes_low : ∀ c, c < 128 → (byte_classes c).count true ≤ 1 := by
  decide

/-- The six classes of a byte are pairwise disjoint: a byte is in one at most. -/
theorem byte_classes_disjoint (c : Nat) : (byte_classes c).count true ≤ 1 := by
  by_cases h : c < 128
  · exact byte_classes_low c h
  · rw [byte_classes_high (by omega)]
    decide

/-- The classification in the order of the specification is the
classification of the code. -/
theorem Lexer_dispatch_spec_order_eq (l : Lexer) :
    Lexer_dispatch_spec_order l = Lexer_dispatch l := by
  unfold Lexer_dispatch_spec_order Lexer_dispatch
  by_cases hemp : Lexer_is_empty l = true
  · simp only [hemp, if_true]
  · simp only [hemp, Bool.false_eq_true, if_false]
    cases hr : Lexer_read l l.cur with
    | error e => rfl
    | ok first =>
      simp only
      have hdis := byte_classes_disjoint first
      by_cases hname : (isalpha first || first == 95) = true
      · simp only [hname, if_true]
      · simp only [hname, Bool.false_eq_true, if_false]
        by_cases h128 : first < 128
        case neg =>
          have hd : isdigit first = false := by
            simp only [isdigit, Bool.and_eq_false_iff, decide_eq_false_iff_not]
            omega
          have h34 : ¬ first = 34 := by omega
          have h39 : ¬ first = 39 := by omega
          simp only [literal_tokens_at_of_ge (Nat.le_of_not_lt h128), hd, h34, h39,
            Bool.false_eq_true, if_false]
        simp only [literal_tokens_at_of_lt h128]
        by_cases hdig : isdigit first = true
        · have hlit : ¬ (literal_tokens first ≠ TOKEN_NULL) := by
            intro hl
            have hl' : (literal_tokens first != TOKEN_NULL) = true := by simpa using hl
            simp [byte_classes, hdig, hl', List.count_cons] at hdis
            omega
          have h34 : ¬ first = 34 := by
            intro h; subst h; exact absurd hdig (by decide)
          have h39 : ¬ first = 39 := by
            intro h; subst h; exact absurd hdig (by decide)
          rw [if_neg hlit]
          simp only [hdig, if_true, h34, h39, if_false]
        · simp only [hdig, Bool.false_eq_true, if_false]
          by_cases hlit : literal_tokens first ≠ TOKEN_NULL
          · have h34 : ¬ first = 34 := by
              intro h; subst h; exact absurd hlit (by decide)
            have h39 : ¬ first = 39 := by
              intro h; subst h; exact absurd hlit (by decide)
            rw [if_pos hlit]
            simp only [h34, h39, if_false]
            rw [if_pos hlit]
          · rw [if_neg hlit]
            cases hs : (if first = 34 then Lexer_string l (Lexer_location l)
                else Except.ok (none, l)) with
            | error e => rfl
            | ok r =>
              obtain ⟨ot, l1⟩ := r
              cases ot with
              | some t => rfl
              | none =>
                simp only
                cases hc : (if first = 39 then Lexer_char l1 (Lexer_location l)
                    else Except.ok (none, l1)) with
                | error e => rfl
                | ok r2 =>
                  obtain ⟨ot2, l2⟩ := r2
                  cases ot2 with
                  | some t => rfl
                  | none =>
                    simp only
                    rw [if_neg hlit]

/-- C17. The code tests the classes in the order identifier, punctuation,
string, char, digit, operator lead, and the specification lists them in the
order identifier, digit, string, char, punctuation, operator lead.  The six
classes are pairwise disjoint, and for every state the call returns the same
result (token, final state or abort) as the call that tests the classes in
the order of the specification. -/
theorem C17_dispatch_order (l : Lexer) :
    Lexer_next_token_spec_order l = Lexer_next_token l ∧
      Lexer_dispatch_spec_order l = Lexer_dispatch l ∧
      ∀ c, (byte_classes c).count true ≤ 1 := by
  refine ⟨?_, Lexer_dispatch_spec_order_eq l, byte_classes_disjoint⟩
  unfold Lexer_next_token_spec_order Lexer_next_token
  cases hs : Lexer_skip_trivia l with
  | error e => rfl
  | ok l1 => exact Lexer_dispatch_spec_order_eq l1

/-! ## The operator table -/

theorem Lexer_getElem?_none {l : Lexer} (hwf : Lexer_wf l) (h : ¬ l.cur < l.source_len) :
    l.source[l.cur]? = none := by
  apply List.getElem?_eq_none
  rw [← hwf]; omega

theorem Lexer_next_is_wf {l : Lexer} (hwf : Lexer_wf l) (c : Nat) :
    Lexer_next_is l c = .ok (decide (l.source[l.cur]? = some c)) := by
  unfold Lexer_next_is
  by_cases hlt : l.cur < l.source_len
  · obtain ⟨d, hd, _⟩ := Lexer_getElem?_cur hwf hlt
    simp only [Lexer_is_not_empty, hlt, decide_True, if_true, Lexer_read_of_getElem? hd, hd,
      Option.some.injEq]
    by_cases hdc : d = c
    · simp [hdc]
    · simp [hdc]
  · simp [Lexer_is_not_empty, hlt, Lexer_getElem?_none hwf hlt]

theorem Lexer_select_wf {l : Lexer} (hwf : Lexer_wf l) (type : Token_Type)
    (alts : List (Nat × Token_Type)) :
    Lexer_select l type alts = .ok (select_kind l.source[l.cur]? type alts) := by
  induction alts with
  | nil => rfl
  | cons a alts ih =>
    obtain ⟨c, t⟩ := a
    rw [Lexer_select, Lexer_next_is_wf hwf, select_kind]
    by_cases h : l.source[l.cur]? = some c
    · simp [h]
    · simp [h, ih]

theorem operator_kind_of_cases {lead : Nat} {type : Token_Type} {alts : List (Nat × Token_Type)}
    (h : operator_cases lead = some (type, alts)) (next : Option Nat) :
    operator_kind lead next = some (select_kind next type alts) := by
  unfold operator_cases at h
  split at h <;> cases h <;> simp [operator_kind, select_kind]

theorem operator_cases_of_mem {lead : Nat} (h : lead ∈ operator_leads) :
    (∃ type alts, operator_cases lead = some (type, alts)) ∧
      (isalpha lead || lead == 95) = false ∧ literal_tokens lead = TOKEN_NULL ∧
      lead ≠ 34 ∧ lead ≠ 39 ∧ isdigit lead = false ∧ lead ≠ 10 := by
  simp only [operator_leads, List.mem_cons, List.mem_singleton, List.not_mem_nil, or_false] at h
  rcases h with h | h | h | h | h | h | h | h <;> subst h <;>
    exact ⟨⟨_, _, rfl⟩, by decide, by decide, by decide, by decide, by decide, by decide⟩

theorem operator_leads_lt {lead : Nat} (h : lead ∈ operator_leads) : lead < 128 := by
  simp only [operator_leads, List.mem_cons, List.mem_singleton, List.not_mem_nil, or_false] at h
  omega

/-- The classifier on an operator lead: one byte is consumed and the kind is
that of the table. -/
theorem Lexer_dispatch_operator {lp : Lexer} {lead : Nat} (hwf : Lexer_wf lp)
    (hlt : lp.cur < lp.source_len) (hc : lp.source[lp.cur]? = some lead)
    (hlead : lead ∈ operator_leads) :
    ∃ kind, operator_kind lead lp.source[lp.cur + 1]? = some kind ∧
      Lexer_dispatch lp
        = .ok ({ location := Lexer_location lp, type := kind,
                 value := value_sv { data := some lp.cur, size := 0 } },
               { lp with cur := lp.cur + 1 }) := by
  obtain ⟨⟨type, alts, hcase⟩, h1, h2, h3, h4, h5, h6⟩ := operator_cases_of_mem hlead
  refine ⟨select_kind lp.source[lp.cur + 1]? type alts, operator_kind_of_cases hcase _, ?_⟩
  unfold Lexer_dispatch
  have hne : Lexer_is_empty lp = false := by
    simp [Lexer_is_empty, Lexer_is_not_empty, hlt]
  have hlit : ¬ (literal_tokens lead ≠ TOKEN_NULL) := by simp [h2]
  simp only [hne, Bool.false_eq_true, if_false, Lexer_read_of_getElem? hc, h1,
    literal_tokens_at_of_lt (operator_leads_lt hlead)]
  rw [if_neg hlit]
  simp only [h3, h4, if_false, h5, Bool.false_eq_true]
  unfold Lexer_operator
  have hstep : Lexer_step lp = { lp with cur := lp.cur + 1 } := by
    simp [Lexer_step, hc, h6]
  simp only [hcase, Lexer_chop_char_of_read hlt hc, hstep]
  have hwf1 : Lexer_wf { lp with cur := lp.cur + 1 } := hwf
  rw [Lexer_select_wf hwf1]

/-- The operator kinds in general. When the first significant byte of a call
is an operator lead, `Lexer_next_token` returns the kind that the table gives
for the lead and the byte that follows it (or the end of input), the first
alternative that matches deciding.  The token is located at the lead, and the
call leaves the cursor one byte after it, so at most two bytes after it.  The
same holds of the classification entered with the cursor on the lead. -/
theorem Lexer_operator_kinds :
    (∀ (l lp : Lexer) (lead : Nat), Lexer_wf l → Lexer_first l lp lead →
      lead ∈ operator_leads →
      ∃ kind l1, operator_kind lead lp.source[lp.cur + 1]? = some kind ∧
        Lexer_next_token l
          = .ok ({ location := Lexer_location lp, type := kind,
                   value := value_sv { data := some lp.cur, size := 0 } }, l1) ∧
        l1.cur = lp.cur + 1 ∧ l1.cur ≤ lp.cur + 2) ∧
    (∀ (lp : Lexer) (lead : Nat), Lexer_wf lp → lp.cur < lp.source_len →
      lp.source[lp.cur]? = some lead → lead ∈ operator_leads →
      ∃ kind l1, operator_kind lead lp.source[lp.cur + 1]? = some kind ∧
        Lexer_dispatch lp
          = .ok ({ location := Lexer_location lp, type := kind,
                   value := value_sv { data := some lp.cur, size := 0 } }, l1) ∧
        l1.cur = lp.cur + 1 ∧ l1.cur ≤ lp.cur + 2) ∧
    operator_kind 45 (some 43) = some TOKEN_MINUS_MINUS ∧
    operator_kind 45 (some 45) = some TOKEN_MINUS ∧
    operator_kind 45 (some 62) = some TOKEN_ARROW ∧
    operator_kind 47 none = some TOKEN_SLASH := by
  refine ⟨?_, ?_, by decide, by decide, by decide, by decide⟩
  · intro l lp lead hwf hfirst hlead
    have hwfp := (Lexer_first_wf hwf hfirst).1
    obtain ⟨kind, hk, hd⟩ := Lexer_dispatch_operator hwfp hfirst.2.1 hfirst.2.2 hlead
    refine ⟨kind, { lp with cur := lp.cur + 1 }, hk, ?_, rfl, Nat.le_succ _⟩
    unfold Lexer_next_token
    rw [hfirst.1]
    exact hd
  · intro lp lead hwf hlt hc hlead
    obtain ⟨kind, hk, hd⟩ := Lexer_dispatch_operator hwf hlt hc hlead
    exact ⟨kind, { lp with cur := lp.cur + 1 }, hk, hd, rfl, Nat.le_succ _⟩

set_option maxRecDepth 20000 in
/-- C11, on the failing input. In the three-byte buffer of `a`, a space and a
slash, the slash is an operator lead followed by the end of input; the table
gives SLASH for it and the classification entered on the slash returns SLASH
and consumes one byte.  The call does not: before the classification the
comment test of the trivia skip reads the byte after the slash, at offset 3,
outside the buffer, and the run of the driver on the file stops there.  With
a byte after the slash the call returns SLASH. -/
theorem C11_slash_at_end_of_input :
    47 ∈ operator_leads ∧ (bytes "a /")[3]? = none ∧
      operator_kind 47 (bytes "a /")[3]? = some TOKEN_SLASH ∧
      Lexer_dispatch { Lexer_init "f.cx" (bytes "a /") with cur := 2 }
        = .ok (Token.mk (Location.mk (some "f.cx") 0 2) TOKEN_SLASH
                 (value_sv (StringView.mk (some 2) 0)),
               { Lexer_init "f.cx" (bytes "a /") with cur := 3 }) ∧
      Lexer_next_token { Lexer_init "f.cx" (bytes "a /") with cur := 1 }
        = .error (.out_of_bounds 3) ∧
      main_lex "f.cx" (bytes "a /") = .error (.out_of_bounds 3) ∧
      Lexer_next_token { Lexer_init "f.cx" (bytes "a / ") with cur := 1 }
        = .ok (Token.mk (Location.mk (some "f.cx") 0 2) TOKEN_SLASH
                 (value_sv (StringView.mk (some 2) 0)),
               { Lexer_init "f.cx" (bytes "a / ") with cur := 3 }) :=
  ⟨by decide, rfl, rfl, rfl, rfl, rfl, rfl⟩

/-! ## The trivia skip in closed form -/

theorem drop_add_right {α : Type} (xs : List α) (a b : Nat) :
    xs.drop (a + b) = (xs.drop a).drop b := by
  simp [List.drop_drop, Nat.add_comm]

theorem trivia_length_nil (m : Bool) : trivia_length m [] = 0 := by
  cases m <;> rfl

theorem trivia_length_true_cons (c : Nat) (cs : List Nat) :
    trivia_length true (c :: cs) = 1 + trivia_length (c != 10) cs := rfl

theorem trivia_length_space {c : Nat} (cs : List Nat) (h : isspace c = true) :
    trivia_length false (c :: cs) = 1 + trivia_length false cs := by
  rw [trivia_length.eq_def]
  simp [h]

theorem trivia_length_comment (cs1 : List Nat) :
    trivia_length false (47 :: 47 :: cs1) = 2 + trivia_length true cs1 := by
  rw [trivia_length.eq_def]
  simp [show isspace 47 = false by decide]

theorem trivia_length_stop {c : Nat} {cs : List Nat} (h : isspace c = false)
    (hc : ¬ (c = 47 ∧ ∃ cs1, cs = 47 :: cs1)) : trivia_length false (c :: cs) = 0 := by
  rw [trivia_length.eq_def]
  simp only [h, Bool.false_eq_true, if_false]
  split
  · exact absurd ⟨rfl, _, rfl⟩ hc
  · rfl

theorem trivia_length_trim (xs : List Nat) :
    trivia_length false xs
      = (xs.takeWhile isspace).length
          + trivia_length false (xs.drop (xs.takeWhile isspace).length) := by
  induction xs with
  | nil => simp [trivia_length_nil]
  | cons c cs ih =>
    by_cases h : isspace c = true
    · rw [trivia_length_space cs h, List.takeWhile_cons_of_pos h]
      simp only [List.length_cons, List.drop_succ_cons]
      omega
    · rw [List.takeWhile_cons_of_neg h]
      simp

theorem trivia_length_in_comment (cs : List Nat) :
    trivia_length true cs
      = (cs.takeWhile (fun c => c != 10)).length
          + (if cs.dropWhile (fun c => c != 10) = [] then 0
             else 1 + trivia_length false (cs.dropWhile (fun c => c != 10)).tail) := by
  induction cs with
  | nil => simp [trivia_length_nil]
  | cons c cs ih =>
    rw [trivia_length_true_cons]
    by_cases h : c = 10
    · subst h
      simp
    · have hne : (c != 10) = true := by simpa using h
      rw [hne, ih]
      simp only [List.takeWhile_cons, List.dropWhile_cons, hne, if_true, List.length_cons]
      omega

theorem drop_drop_length (xs : List Nat) :
    xs.drop (drop_length xs) = (xs.dropWhile (fun c => c != 10)).tail := by
  unfold drop_length
  rw [← List.drop_drop, drop_takeWhile_length]
  by_cases h : xs.dropWhile (fun c => c != 10) = []
  · simp [h]
  · simp only [h, if_false]
    cases hd : xs.dropWhile (fun c => c != 10) with
    | nil => exact absurd hd h
    | cons x tl => simp

theorem trivia_length_drop (cs1 : List Nat) :
    trivia_length false (47 :: 47 :: cs1)
      = drop_length (47 :: 47 :: cs1)
          + trivia_length false ((47 :: 47 :: cs1).drop (drop_length (47 :: 47 :: cs1))) := by
  rw [drop_drop_length, trivia_length_comment, trivia_length_in_comment]
  have h47 : ((47 : Nat) != 10) = true := by decide
  unfold drop_length
  simp only [List.takeWhile_cons, List.dropWhile_cons, h47, if_true, List.length_cons]
  by_cases h : cs1.dropWhile (fun c => c != 10) = []
  · simp [h, trivia_length_nil]
    omega
  · simp only [h, if_false]
    omega

theorem drop_length_pos (cs1 : List Nat) : 2 ≤ drop_length (47 :: 47 :: cs1) := by
  have h47 : ((47 : Nat) != 10) = true := by decide
  unfold drop_length
  simp only [List.takeWhile_cons, h47, if_true, List.length_cons]
  omega

theorem drop_length_le (xs : List Nat) : drop_length xs ≤ xs.length := by
  unfold drop_length
  have h1 := List.takeWhile_append_dropWhile (fun c => c != 10) xs
  have h2 : (xs.takeWhile (fun c => c != 10)).length
      + (xs.dropWhile (fun c => c != 10)).length = xs.length := by
    rw [← List.length_append, h1]
  by_cases h : xs.dropWhile (fun c => c != 10) = []
  · simp only [h, if_true]; omega
  · simp only [h, if_false]
    have : 0 < (xs.dropWhile (fun c => c != 10)).length := List.length_pos.mpr h
    omega

/-- The closed form of `Lexer_drop` on a well-formed buffer. -/
theorem Lexer_drop_wf_count {l : Lexer} (hwf : Lexer_wf l) :
    Lexer_drop l = .ok (Lexer_advance (drop_length (l.source.drop l.cur)) l) := by
  unfold Lexer_drop
  rw [Lexer_chop_while_wf _ _ _ hwf (by unfold Lexer_fuel; omega)]
  simp only
  generalize hk : ((l.source.drop l.cur).takeWhile (fun c => c != 10)).length = k
  have hrest : (Lexer_advance k l).source.drop (Lexer_advance k l).cur
      = (l.source.drop l.cur).dropWhile (fun c => c != 10) := by
    rw [Lexer_advance_drop, ← hk, drop_takeWhile_length]
  have hwf1 : Lexer_wf (Lexer_advance k l) := Lexer_wf_advance k hwf
  unfold drop_length
  rw [hk]
  by_cases hlt : (Lexer_advance k l).cur < (Lexer_advance k l).source_len
  · simp only [Lexer_is_not_empty, hlt, decide_True, if_true]
    rw [Lexer_chop_char_wf hwf1 hlt]
    obtain ⟨c, _, hd⟩ := Lexer_getElem?_cur hwf1 hlt
    have hne : (l.source.drop l.cur).dropWhile (fun c => c != 10) ≠ [] := by
      rw [← hrest, hd]; simp
    simp only [hne, if_false]
    rw [Lexer_advance_succ_right]
  · simp only [Lexer_is_not_empty, hlt, decide_False]
    have hnil : (l.source.drop l.cur).dropWhile (fun c => c != 10) = [] := by
      rw [← hrest]; exact Lexer_drop_cur_nil hwf1 hlt
    simp [hnil]

/-- The closed form of the comment loop on a well-formed buffer, entered on a
byte that is not white space: the maximal trivia is consumed, and the loop
reads past the buffer exactly when what is left is a slash that ends it. -/
theorem Lexer_comments_wf :
    ∀ (fuel : Nat) (l : Lexer), Lexer_wf l → l.source_len - l.cur < fuel →
      (l.source.drop l.cur = [] ∨ ∃ c cs, l.source.drop l.cur = c :: cs ∧ isspace c = false) →
      Lexer_comments fuel l
        = if (l.source.drop l.cur).drop (trivia_length false (l.source.drop l.cur)) = [47]
          then .error (.out_of_bounds l.source_len)
          else .ok (Lexer_advance (trivia_length false (l.source.drop l.cur)) l) := by
  intro fuel
  induction fuel with
  | zero => intro l _ hf; omega
  | succ n ih =>
    intro l hwf hf hhead
    rw [Lexer_comments]
    rcases hhead with hnil | ⟨c, cs, hcons, hsp⟩
    · have hge := Lexer_cur_ge_of_drop_nil hwf hnil
      simp [Lexer_is_not_empty, hge, hnil, trivia_length_nil]
    · obtain ⟨hlt, hc, hd1⟩ := Lexer_cur_lt_of_drop_cons hwf hcons
      simp only [Lexer_is_not_empty, hlt, decide_True, if_true, Lexer_read_of_getElem? hc]
      by_cases h47 : c = 47
      · subst h47
        simp only [if_true]
        cases cs with
        | nil =>
          have hlast : ¬ (l.cur + 1 < l.source.length) := by
            intro h
            have := List.drop_eq_getElem_cons h
            rw [hd1] at this
            cases this
          have hnone : l.source[l.cur + 1]? = none :=
            List.getElem?_eq_none (Nat.le_of_not_lt hlast)
          have hlen : l.cur + 1 = l.source_len := by
            rw [hwf] at hlt ⊢; omega
          have hstop : trivia_length false [47] = 0 :=
            trivia_length_stop (by decide) (by simp)
          have hnone1 : l.source[l.source_len]? = none := hlen ▸ hnone
          simp [Lexer_read, hnone, hnone1, hcons, hstop, hlen]
        | cons d cs1 =>
          have hd : l.source[l.cur + 1]? = some d := by
            have := congrArg List.head? hd1
            simpa [List.head?_drop] using this
          simp only [Lexer_read_of_getElem? hd]
          by_cases hd47 : d = 47
          · subst hd47
            simp only [if_true]
            rw [Lexer_drop_wf_count hwf]
            simp only
            have hwf2 : Lexer_wf (Lexer_advance (drop_length (l.source.drop l.cur)) l) :=
              Lexer_wf_advance _ hwf
            rw [Lexer_trim_wf hwf2]
            simp only
            rw [Lexer_advance_drop, hcons]
            generalize hk2 : drop_length (47 :: 47 :: cs1) = k2
            generalize hk3 : (((47 :: 47 :: cs1).drop k2).takeWhile isspace).length = k3
            have hwf3 : Lexer_wf (Lexer_advance k3 (Lexer_advance k2 l)) :=
              Lexer_wf_advance _ (Lexer_wf_advance _ hwf)
            have hrest3 : (Lexer_advance k3 (Lexer_advance k2 l)).source.drop
                (Lexer_advance k3 (Lexer_advance k2 l)).cur
                = ((47 :: 47 :: cs1).drop k2).drop k3 := by
              rw [Lexer_advance_drop, Lexer_advance_drop, hcons]
            have hk2pos : 2 ≤ k2 := hk2 ▸ drop_length_pos cs1
            have hfuel : (Lexer_advance k3 (Lexer_advance k2 l)).source_len
                - (Lexer_advance k3 (Lexer_advance k2 l)).cur < n := by
              simp only [Lexer_advance_source_len, Lexer_advance_cur]
              omega
            have hhead3 : ((47 :: 47 :: cs1).drop k2).drop k3 = [] ∨
                ∃ c cs, ((47 :: 47 :: cs1).drop k2).drop k3 = c :: cs ∧ isspace c = false := by
              rw [← hk3, drop_takeWhile_length]
              exact dropWhile_head isspace _
            rw [ih _ hwf3 hfuel (by rw [hrest3]; exact hhead3), hrest3]
            have hT : trivia_length false (47 :: 47 :: cs1)
                = k2 + k3 + trivia_length false (((47 :: 47 :: cs1).drop k2).drop k3) := by
              rw [trivia_length_drop cs1, hk2, trivia_length_trim ((47 :: 47 :: cs1).drop k2), hk3]
              omega
            have hdrop : (47 :: 47 :: cs1).drop (trivia_length false (47 :: 47 :: cs1))
                = (((47 :: 47 :: cs1).drop k2).drop k3).drop
                    (trivia_length false (((47 :: 47 :: cs1).drop k2).drop k3)) := by
              conv_lhs => rw [hT]
              rw [drop_add_right, drop_add_right]
            rw [hdrop]
            simp only [Lexer_advance_source_len]
            rw [hT, Lexer_advance_add, Lexer_advance_add]
          · have hstop : trivia_length false (47 :: d :: cs1) = 0 :=
              trivia_length_stop (by decide) (by simp [hd47])
            simp [hd47, hcons, hstop]
      · have hstop : trivia_length false (c :: cs) = 0 :=
          trivia_length_stop hsp (by simp [h47])
        simp [h47, hcons, hstop]

/-- The closed form of the trivia skip on a well-formed buffer. -/
theorem Lexer_skip_trivia_wf {l : Lexer} (hwf : Lexer_wf l) :
    Lexer_skip_trivia l
      = if (l.source.drop l.cur).drop (trivia_length false (l.source.drop l.cur)) = [47]
        then .error (.out_of_bounds l.source_len)
        else .ok (Lexer_advance (trivia_length false (l.source.drop l.cur)) l) := by
  unfold Lexer_skip_trivia
  rw [Lexer_trim_wf hwf]
  simp only
  generalize hk : ((l.source.drop l.cur).takeWhile isspace).length = k
  have hwf1 : Lexer_wf (Lexer_advance k l) := Lexer_wf_advance k hwf
  have hrest : (Lexer_advance k l).source.drop (Lexer_advance k l).cur
      = (l.source.drop l.cur).drop k := Lexer_advance_drop k l
  rw [Lexer_comments_wf _ _ hwf1 (by unfold Lexer_fuel; omega)
    (by rw [hrest, ← hk, drop_takeWhile_length]; exact dropWhile_head isspace _), hrest]
  have hT : trivia_length false (l.source.drop l.cur)
      = k + trivia_length false ((l.source.drop l.cur).drop k) := by
    rw [trivia_length_trim (l.source.drop l.cur), hk]
  have hdrop : (l.source.drop l.cur).drop (trivia_length false (l.source.drop l.cur))
      = ((l.source.drop l.cur).drop k).drop
          (trivia_length false ((l.source.drop l.cur).drop k)) := by
    conv_lhs => rw [hT]
    rw [drop_add_right]
  rw [hdrop]
  simp only [Lexer_advance_source_len]
  rw [hT, Lexer_advance_add]

/-! ## What the trivia skip consumes -/

theorem trivia_scan_space {c : Nat} (cs : List Nat) (h : isspace c = true) :
    trivia_scan false (c :: cs) = trivia_scan false cs := by
  rw [trivia_scan.eq_def]
  simp [h]

theorem trivia_scan_slashes (cs : List Nat) :
    trivia_scan false (47 :: 47 :: cs) = trivia_scan true cs := by
  rw [trivia_scan.eq_def]
  simp [show isspace 47 = false by decide]

theorem trivia_scan_nil (m : Bool) : trivia_scan m [] = true := by
  cases m <;> rfl

theorem comment_open_space {c : Nat} (cs : List Nat) (h : isspace c = true) :
    comment_open false (c :: cs) = comment_open false cs := by
  have hc : c ≠ 47 := by
    intro h47; subst h47; exact absurd h (by decide)
  cases cs with
  | nil => rfl
  | cons d cs =>
    rw [comment_open]
    simp [hc]

theorem comment_open_slashes (cs : List Nat) :
    comment_open false (47 :: 47 :: cs) = comment_open true cs := by
  rw [comment_open]
  simp

theorem significant_of_stop {c : Nat} {cs : List Nat} (h : isspace c = false)
    (hc : ¬ (c = 47 ∧ ∃ cs1, cs = 47 :: cs1)) : significant (c :: cs) = true := by
  rw [significant.eq_def]
  split
  · rename_i heq; cases heq
  · rename_i heq
    injection heq with h1 h2
    exact absurd ⟨h1, _, h2⟩ hc
  · rename_i heq
    injection heq with h1 h2
    subst h1
    simp [h]

/-- The properties of the maximal trivia at the head of the bytes: it lies in
the bytes, it consists of white space and line comments, a comment in it is
left open only by the end of the bytes, and what follows it is nothing or is
significant. -/
theorem trivia_length_props :
    ∀ (n : Nat) (xs : List Nat) (m : Bool), xs.length ≤ n →
      trivia_length m xs ≤ xs.length ∧
      trivia_scan m (xs.take (trivia_length m xs)) = true ∧
      (comment_open m (xs.take (trivia_length m xs)) = true →
        xs.drop (trivia_length m xs) = []) ∧
      (xs.drop (trivia_length m xs) = [] ∨
        significant (xs.drop (trivia_length m xs)) = true) := by
  intro n
  induction n with
  | zero =>
    intro xs m hlen
    have hnil : xs = [] := List.length_eq_zero.mp (Nat.le_zero.mp hlen)
    subst hnil
    simp [trivia_length_nil, trivia_scan_nil]
  | succ n ih =>
    intro xs m hlen
    cases xs with
    | nil => simp [trivia_length_nil, trivia_scan_nil]
    | cons c cs =>
      simp only [List.length_cons] at hlen
      have hcs : cs.length ≤ n := by omega
      cases m with
      | true =>
        obtain ⟨h1, h2, h3, h4⟩ := ih cs (c != 10) hcs
        rw [trivia_length_true_cons]
        have ht : (c :: cs).take (1 + trivia_length (c != 10) cs)
            = c :: cs.take (trivia_length (c != 10) cs) := by
          rw [Nat.add_comm]; rfl
        have hd : (c :: cs).drop (1 + trivia_length (c != 10) cs)
            = cs.drop (trivia_length (c != 10) cs) := by
          rw [Nat.add_comm]; rfl
        rw [ht, hd]
        refine ⟨by simp only [List.length_cons]; omega, ?_, ?_, h4⟩
        · rw [trivia_scan]; exact h2
        · rw [comment_open]; exact h3
      | false =>
        by_cases hsp : isspace c = true
        · obtain ⟨h1, h2, h3, h4⟩ := ih cs false hcs
          rw [trivia_length_space cs hsp]
          have ht : (c :: cs).take (1 + trivia_length false cs)
              = c :: cs.take (trivia_length false cs) := by
            rw [Nat.add_comm]; rfl
          have hd : (c :: cs).drop (1 + trivia_length false cs)
              = cs.drop (trivia_length false cs) := by
            rw [Nat.add_comm]; rfl
          rw [ht, hd]
          refine ⟨by simp only [List.length_cons]; omega, ?_, ?_, h4⟩
          · rw [trivia_scan_space _ hsp]; exact h2
          · rw [comment_open_space _ hsp]; exact h3
        · have hsp' : isspace c = false := by simpa using hsp
          by_cases hcom : c = 47 ∧ ∃ cs1, cs = 47 :: cs1
          · obtain ⟨rfl, cs1, rfl⟩ := hcom
            simp only [List.length_cons] at hcs
            obtain ⟨h1, h2, h3, h4⟩ := ih cs1 true (by omega)
            rw [trivia_length_comment]
            have ht : (47 :: 47 :: cs1).take (2 + trivia_length true cs1)
                = 47 :: 47 :: cs1.take (trivia_length true cs1) := by
              rw [Nat.add_comm]; rfl
            have hd : (47 :: 47 :: cs1).drop (2 + trivia_length true cs1)
                = cs1.drop (trivia_length true cs1) := by
              rw [Nat.add_comm]; rfl
            rw [ht, hd]
            refine ⟨by simp only [List.length_cons]; omega, ?_, ?_, h4⟩
            · rw [trivia_scan_slashes]; exact h2
            · rw [comment_open_slashes]; exact h3
          · rw [trivia_length_stop hsp' hcom]
            refine ⟨Nat.zero_le _, rfl, ?_, Or.inr ?_⟩
            · intro h; cases h
            · exact significant_of_stop hsp' hcom

/-- The trivia skip on a buffer of exactly `source_len` bytes, in general.
Unless what is left after the maximal trivia is a slash that ends the buffer,
the skip returns with the cursor after that trivia: white space and line
comments only, a comment being left open only by the end of input; then the
call returns the sentinel at the end of input, and otherwise the cursor is on
a significant byte.  In the excepted case the comment test reads past the
buffer.  A slash followed by another byte that is no slash is not skipped. -/
theorem Lexer_skip_trivia_spec (l : Lexer) (hwf : Lexer_wf l) (hcur : l.cur ≤ l.source_len) :
    ((l.source.drop l.cur).drop (trivia_length false (l.source.drop l.cur)) = [47] →
      Lexer_skip_trivia l = .error (.out_of_bounds l.source_len)) ∧
    ((l.source.drop l.cur).drop (trivia_length false (l.source.drop l.cur)) ≠ [47] →
      Lexer_skip_trivia l
          = .ok (Lexer_advance (trivia_length false (l.source.drop l.cur)) l) ∧
        l.cur + trivia_length false (l.source.drop l.cur) ≤ l.source_len ∧
        trivia_only ((l.source.drop l.cur).take (trivia_length false (l.source.drop l.cur)))
          = true ∧
        (comment_open false
            ((l.source.drop l.cur).take (trivia_length false (l.source.drop l.cur))) = true →
          l.cur + trivia_length false (l.source.drop l.cur) = l.source_len) ∧
        ((l.cur + trivia_length false (l.source.drop l.cur) = l.source_len ∧
            Lexer_next_token l
              = .ok (Token_zero,
                     Lexer_advance (trivia_length false (l.source.drop l.cur)) l)) ∨
          (l.cur + trivia_length false (l.source.drop l.cur) < l.source_len ∧
            significant
              ((l.source.drop l.cur).drop (trivia_length false (l.source.drop l.cur)))
              = true))) ∧
    (∀ b cs, l.source.drop l.cur = 47 :: b :: cs → b ≠ 47 → Lexer_skip_trivia l = .ok l) := by
  obtain ⟨h1, h2, h3, h4⟩ :=
    trivia_length_props _ (l.source.drop l.cur) false (Nat.le_refl _)
  have hlen := Lexer_rest_length hwf
  have hdlen : ((l.source.drop l.cur).drop (trivia_length false (l.source.drop l.cur))).length
      = l.source_len - (l.cur + trivia_length false (l.source.drop l.cur)) := by
    rw [List.length_drop, hlen]; omega
  refine ⟨?_, ?_, ?_⟩
  · intro h
    rw [Lexer_skip_trivia_wf hwf, if_pos h]
  · intro h
    have hskip : Lexer_skip_trivia l
        = .ok (Lexer_advance (trivia_length false (l.source.drop l.cur)) l) := by
      rw [Lexer_skip_trivia_wf hwf, if_neg h]
    refine ⟨hskip, by omega, h2, ?_, ?_⟩
    · intro ho
      have := h3 ho
      rw [this] at hdlen
      simp only [List.length_nil] at hdlen
      omega
    · rcases h4 with hnil | hsig
      · left
        rw [hnil] at hdlen
        simp only [List.length_nil] at hdlen
        have hend : l.cur + trivia_length false (l.source.drop l.cur) = l.source_len := by omega
        refine ⟨hend, ?_⟩
        unfold Lexer_next_token
        rw [hskip]
        simp only
        unfold Lexer_dispatch
        simp [Lexer_is_empty, Lexer_is_not_empty, hend]
      · right
        refine ⟨?_, hsig⟩
        have hne : (l.source.drop l.cur).drop (trivia_length false (l.source.drop l.cur))
            ≠ [] := by
          intro hn; rw [hn] at hsig; cases hsig
        have := List.length_pos.mpr hne
        omega
  · intro b cs hrest hb
    have hstop : trivia_length false (47 :: b :: cs) = 0 :=
      trivia_length_stop (by decide) (by simp [hb])
    rw [Lexer_skip_trivia_wf hwf, hrest, hstop]
    simp

/-- C16, on the failing input. A slash that is the last byte of the buffer:
the comment test of the trivia skip reads the byte after it, outside the
buffer, so the skip does not return with the cursor on the slash.  The same
happens after white space and comments.  With a byte after the slash the skip
stops on it. -/
theorem C16_lone_final_slash :
    Lexer_skip_trivia (Lexer_init "f.cx" (bytes "/")) = .error (.out_of_bounds 1) ∧
      Lexer_next_token (Lexer_init "f.cx" (bytes "/")) = .error (.out_of_bounds 1) ∧
      Lexer_next_token (Lexer_init "f.cx" (bytes " // c\n /")) = .error (.out_of_bounds 8) ∧
      Lexer_skip_trivia (Lexer_init "f.cx" (bytes "/ "))
        = .ok (Lexer_init "f.cx" (bytes "/ ")) :=
  ⟨rfl, rfl, rfl, rfl⟩

/-! ## Every outcome of a call on a well-formed buffer -/

theorem Lexer_step_of_not_newline {l : Lexer} {c : Nat} (hc : l.source[l.cur]? = some c)
    (h10 : c ≠ 10) : Lexer_step l = { l with cur := l.cur + 1 } := by
  simp [Lexer_step, hc, h10]

theorem punctuation_table_mem {c : Nat} (h : c ∈ punctuation_table.map Prod.fst) :
    ∃ k, (c, k) ∈ punctuation_table := by
  obtain ⟨⟨b, k⟩, hmem, heq⟩ := List.mem_map.mp h
  simp only at heq
  subst heq
  exact ⟨k, hmem⟩

theorem select_kind_ne_null (next : Option Nat) (type : Token_Type)
    (alts : List (Nat × Token_Type)) (h0 : type ≠ TOKEN_NULL)
    (halts : ∀ a ∈ alts, a.2 ≠ TOKEN_NULL) : select_kind next type alts ≠ TOKEN_NULL := by
  induction alts with
  | nil => exact h0
  | cons a alts ih =>
    obtain ⟨b, t⟩ := a
    rw [select_kind]
    split
    · exact halts (b, t) (List.mem_cons_self _ _)
    · exact ih (fun a h => halts a (List.mem_cons_of_mem _ h))

/-- On a byte that is neither white space nor a slash the call is the
classification. -/
theorem Lexer_next_token_of_stop {lp : Lexer} {c : Nat} (hlt : lp.cur < lp.source_len)
    (hc : lp.source[lp.cur]? = some c) (hsp : isspace c = false) (h47 : c ≠ 47) :
    Lexer_next_token lp = Lexer_dispatch lp ∧ Lexer_first lp lp c := by
  have hs := Lexer_skip_trivia_stop hlt hc hsp h47
  refine ⟨?_, hs, hlt, hc⟩
  unfold Lexer_next_token
  rw [hs]

/-- The outcomes of the classification entered inside a well-formed buffer:
a token other than the sentinel, located at the entry cursor, with at least
one byte consumed and the cursor inside the buffer; or the exit through
`loc_panic`; or a read at offset `source_len`; or, on a byte from 128 on, a
read of the punctuation table at a negative index. -/
theorem Lexer_dispatch_total (lp : Lexer) (hwf : Lexer_wf lp) (hlt : lp.cur < lp.source_len) :
    (∃ t k, Lexer_dispatch lp = .ok (t, Lexer_advance k lp) ∧ 0 < k ∧
        lp.cur + k ≤ lp.source_len ∧ t.type ≠ TOKEN_NULL ∧
        t.location = Lexer_location lp) ∨
    (∃ c, Lexer_dispatch lp = .error (.loc_panic (Lexer_location lp) c)) ∨
    Lexer_dispatch lp = .error (.out_of_bounds lp.source_len) ∨
    (∃ c, 128 ≤ c ∧ lp.source[lp.cur]? = some c ∧
      Lexer_dispatch lp = .error (.table_index ((c : Int) - 256))) := by
  obtain ⟨c, hc, hdrop⟩ := Lexer_getElem?_cur hwf hlt
  have hrest := Lexer_rest_length hwf
  by_cases hname : isalpha c = true ∨ c = 95
  · left
    refine ⟨_, _, Lexer_dispatch_name hwf hlt hc hname, ?_, ?_, by simp, rfl⟩
    · rw [hdrop]
      have hp : (isalnum c || c == 95) = true := by
        rcases hname with h | h
        · simp [isalnum, h]
        · simp [h]
      rw [List.takeWhile_cons]
      simp only [hp, if_true, List.length_cons]
      omega
    · have h1 := takeWhile_length_le (fun c => isalnum c || c == 95) (lp.source.drop lp.cur)
      omega
  · have halpha : isalpha c = false := by
      cases h : isalpha c
      · rfl
      · exact absurd (Or.inl h) hname
    have hunder : c ≠ 95 := fun h => hname (Or.inr h)
    by_cases hpunct : c ∈ punctuation_table.map Prod.fst
    · left
      obtain ⟨k, hk⟩ := punctuation_table_mem hpunct
      have h10 := (literal_tokens_of_mem hk).2.2.2.2
      have hd := Lexer_dispatch_literal hlt hc hk
      rw [← Lexer_step_of_not_newline hc h10] at hd
      exact ⟨_, 1, hd, by omega, by omega, (literal_tokens_of_mem hk).2.1, rfl⟩
    · by_cases h34 : c = 34
      · subst h34
        rw [Lexer_dispatch_string hlt hc]
        cases hclose : closing_offset 34 (lp.source.drop (lp.cur + 1)) with
        | none =>
          right; left
          obtain ⟨l1, h1, _⟩ := Lexer_string_open (Lexer_location lp) hwf hlt hclose
          exact ⟨34, by rw [h1]⟩
        | some d =>
          left
          have hd := closing_offset_lt hclose
          rw [List.length_drop, ← hwf] at hd
          rw [Lexer_string_closed (Lexer_location lp) hwf hlt hclose]
          exact ⟨_, d + 2, rfl, by omega, by omega, by simp, rfl⟩
      · by_cases h39 : c = 39
        · subst h39
          rw [Lexer_dispatch_char hlt hc]
          cases hclose : closing_offset 39 (lp.source.drop (lp.cur + 1)) with
          | none =>
            right; left
            obtain ⟨l1, h1, _⟩ := Lexer_char_open (Lexer_location lp) hwf hlt hclose
            exact ⟨39, by rw [h1]⟩
          | some d =>
            left
            have hd := closing_offset_lt hclose
            rw [List.length_drop, ← hwf] at hd
            rw [Lexer_char_closed (Lexer_location lp) hwf hlt hclose]
            exact ⟨_, d + 2, rfl, by omega, by omega, by simp, rfl⟩
        · by_cases hdig : isdigit c = true
          · have hd' := hdig
            simp only [isdigit, Bool.and_eq_true, decide_eq_true_eq] at hd'
            have hsp : isspace c = false := by
              simp only [isspace, Bool.or_eq_false_iff, beq_eq_false_iff_ne, ne_eq,
                Bool.and_eq_false_iff, decide_eq_false_iff_not]
              omega
            obtain ⟨heq, hfirst⟩ := Lexer_next_token_of_stop hlt hc hsp (by omega)
            obtain ⟨hin, hout, _⟩ := Lexer_next_token_number lp lp c hwf hfirst hdig
            have hle := takeWhile_length_le isdigit (lp.source.drop lp.cur)
            have hpos : 0 < ((lp.source.drop lp.cur).takeWhile isdigit).length := by
              rw [hdrop, List.takeWhile_cons]
              simp only [hdig, if_true, List.length_cons]
              omega
            by_cases hend : lp.cur + ((lp.source.drop lp.cur).takeWhile isdigit).length
                < lp.source_len
            · left
              rw [← heq, hin hend]
              exact ⟨_, _, rfl, hpos, by omega, by simp, rfl⟩
            · right; right; left
              rw [← heq]
              exact hout (by omega)
          · have hdigit : isdigit c = false := by simpa using hdig
            by_cases hop : c ∈ operator_leads
            · left
              obtain ⟨kind, hk, hd⟩ := Lexer_dispatch_operator hwf hlt hc hop
              have h10 := (operator_cases_of_mem hop).2.2.2.2.2.2
              rw [← Lexer_step_of_not_newline hc h10] at hd
              refine ⟨_, 1, hd, by omega, by omega, ?_, rfl⟩
              obtain ⟨⟨type, alts, hcase⟩, _⟩ := operator_cases_of_mem hop
              rw [operator_kind_of_cases hcase] at hk
              obtain ⟨h0, ha⟩ := operator_cases_ne_null hcase
              simp only [Option.some.injEq] at hk
              rw [← hk]
              exact select_kind_ne_null _ _ _ h0 ha
            · by_cases h128 : c < 128
              · right; left
                exact ⟨c, Lexer_dispatch_unknown hlt hc h128 halpha hunder hdigit h34 h39
                  hpunct hop⟩
              · right; right; right
                exact ⟨c, Nat.le_of_not_lt h128, hc,
                  Lexer_dispatch_high hlt hc (Nat.le_of_not_lt h128)⟩

/-- The outcomes of a call on a buffer of exactly `source_len` bytes, with the
cursor in it: the call returns, after the trivia skip consumed `k1` bytes,
either the sentinel at the end of input, or a token located where the skip
stopped, of which at least one byte was consumed; or it leaves through
`loc_panic`; or it reads the byte at offset `source_len`; or, the skip having
stopped on a byte from 128 on, it reads the punctuation table at a negative
index.  The fuel of the loops never runs out. -/
theorem Lexer_next_token_total (l : Lexer) (hwf : Lexer_wf l) (hcur : l.cur ≤ l.source_len) :
    (∃ t k1 k2, Lexer_next_token l = .ok (t, Lexer_advance k2 (Lexer_advance k1 l)) ∧
        Lexer_skip_trivia l = .ok (Lexer_advance k1 l) ∧
        l.cur + k1 + k2 ≤ l.source_len ∧
        ((t = Token_zero ∧ k2 = 0 ∧ l.cur + k1 = l.source_len) ∨
          (t.type ≠ TOKEN_NULL ∧ t.location = Lexer_location (Lexer_advance k1 l) ∧
            0 < k2))) ∨
    (∃ loc c, Lexer_next_token l = .error (.loc_panic loc c)) ∨
    Lexer_next_token l = .error (.out_of_bounds l.source_len) ∨
    (∃ c : Nat, 128 ≤ c ∧ Lexer_next_token l = .error (.table_index ((c : Int) - 256))) := by
  obtain ⟨hbad, hgood, _⟩ := Lexer_skip_trivia_spec l hwf hcur
  by_cases hrem : (l.source.drop l.cur).drop (trivia_length false (l.source.drop l.cur)) = [47]
  · right; right; left
    unfold Lexer_next_token
    rw [hbad hrem]
  · obtain ⟨hskip, hbound, _, _, hcases⟩ := hgood hrem
    generalize trivia_length false (l.source.drop l.cur) = k1 at hskip hbound hcases
    rcases hcases with ⟨hend, hnext⟩ | ⟨hlt, _⟩
    · left
      exact ⟨Token_zero, k1, 0, hnext, hskip, by omega, Or.inl ⟨rfl, rfl, hend⟩⟩
    · have hwf1 : Lexer_wf (Lexer_advance k1 l) := Lexer_wf_advance k1 hwf
      have hlt1 : (Lexer_advance k1 l).cur < (Lexer_advance k1 l).source_len := by
        simp only [Lexer_advance_cur, Lexer_advance_source_len]; exact hlt
      have hnext : Lexer_next_token l = Lexer_dispatch (Lexer_advance k1 l) := by
        unfold Lexer_next_token
        rw [hskip]
      rcases Lexer_dispatch_total (Lexer_advance k1 l) hwf1 hlt1 with
        ⟨t, k2, hd, hpos, hle, hty, hloc⟩ | ⟨c, hd⟩ | hd | ⟨c, h128, _, hd⟩
      · left
        simp only [Lexer_advance_cur, Lexer_advance_source_len] at hle
        exact ⟨t, k1, k2, by rw [hnext, hd], hskip, hle, Or.inr ⟨hty, hloc, hpos⟩⟩
      · right; left
        exact ⟨_, c, by rw [hnext, hd]⟩
      · right; right; left
        rw [hnext, hd]
        simp
      · right; right; right
        exact ⟨c, h128, by rw [hnext, hd]⟩

/-! ## The cursor invariant -/

theorem Lexer_inv_step {l : Lexer} (h : l.bol ≤ l.cur) : (Lexer_step l).bol ≤ (Lexer_step l).cur := by
  unfold Lexer_step
  split
  · simp
  · simp only; omega

theorem Lexer_inv_advance {l : Lexer} (k : Nat) (h : Lexer_inv l)
    (hk : l.cur + k ≤ l.source_len) : Lexer_inv (Lexer_advance k l) := by
  refine ⟨?_, by simpa using hk⟩
  have hb : ∀ (k : Nat) (l : Lexer), l.bol ≤ l.cur →
      (Lexer_advance k l).bol ≤ (Lexer_advance k l).cur := by
    intro k
    induction k with
    | zero => intro l h; exact h
    | succ k ih => intro l h; exact ih _ (Lexer_inv_step h)
  exact hb k l h.1

/-- C15. The predicate `bol <= cur <= source_len` holds in the initial state
and, on a buffer of exactly `source_len` bytes, is kept by `Lexer_chop_char`,
`Lexer_trim`, `Lexer_drop` and every call of `Lexer_next_token` that returns;
where it holds, the column `cur - bol` of `Lexer_location` does not wrap. -/
theorem C15_cursor_invariant :
    (∀ (fp : String) (src : List Nat), Lexer_inv (Lexer_init fp src)) ∧
    (∀ (l l1 : Lexer), Lexer_inv l → Lexer_chop_char l = .ok l1 → Lexer_inv l1) ∧
    (∀ (l l1 : Lexer), Lexer_wf l → Lexer_inv l → Lexer_trim l = .ok l1 → Lexer_inv l1) ∧
    (∀ (l l1 : Lexer), Lexer_wf l → Lexer_inv l → Lexer_drop l = .ok l1 → Lexer_inv l1) ∧
    (∀ (l l1 : Lexer) (t : Token), Lexer_wf l → Lexer_inv l →
      Lexer_next_token l = .ok (t, l1) → Lexer_inv l1) ∧
    (∀ (l : Lexer), Lexer_inv l →
      (Lexer_location l).row = l.cur - l.bol ∧ (Lexer_location l).row + l.bol = l.cur) := by
  refine ⟨?_, ?_, ?_, ?_, ?_, ?_⟩
  · intro fp src
    simp [Lexer_inv, Lexer_init]
  · intro l l1 hinv h
    rcases Lexer_chop_char_ok h with ⟨hlt, h1⟩ | ⟨_, h1⟩
    · rw [h1]
      exact Lexer_inv_advance 1 hinv (by omega)
    · rw [h1]; exact hinv
  · intro l l1 hwf hinv h
    rw [Lexer_trim_wf hwf] at h
    cases h
    apply Lexer_inv_advance _ hinv
    have h1 := takeWhile_length_le isspace (l.source.drop l.cur)
    have h2 := Lexer_rest_length hwf
    have h3 := hinv.2
    omega
  · intro l l1 hwf hinv h
    rw [Lexer_drop_wf_count hwf] at h
    cases h
    apply Lexer_inv_advance _ hinv
    have h1 := drop_length_le (l.source.drop l.cur)
    have h2 := Lexer_rest_length hwf
    have h3 := hinv.2
    omega
  · intro l l1 t hwf hinv h
    rcases Lexer_next_token_total l hwf hinv.2 with
      ⟨t', k1, k2, hn, _, hle, _⟩ | ⟨loc, c, hn⟩ | hn | ⟨c, _, hn⟩
    · rw [hn] at h
      cases h
      rw [← Lexer_advance_add]
      exact Lexer_inv_advance _ hinv (by omega)
    · rw [hn] at h; cases h
    · rw [hn] at h; cases h
    · rw [hn] at h; cases h
  · intro l hinv
    have h : (Lexer_location l).row = l.cur - l.bol := size_sub_of_le hinv.1
    refine ⟨h, ?_⟩
    rw [h]
    have := hinv.1
    omega

theorem C15_cursor_invariant_witness :
    Lexer_wf (Lexer_init "f.cx" (bytes "a\n bc")) ∧
      Lexer_inv { Lexer_init "f.cx" (bytes "a\n bc") with cur := 1 } ∧
      Lexer_next_token { Lexer_init "f.cx" (bytes "a\n bc") with cur := 1 }
        = .ok ({ location := { file_path := some "f.cx", line := 1, row := 1 },
                 type := TOKEN_NAME, value := value_sv { data := some 3, size := 2 } },
               { Lexer_init "f.cx" (bytes "a\n bc") with cur := 5, bol := 2, row := 1 }) ∧
      Lexer_inv { Lexer_init "f.cx" (bytes "a\n bc") with cur := 5, bol := 2, row := 1 } :=
  have hwf : Lexer_wf { Lexer_init "f.cx" (bytes "a\n bc") with cur := 1 } := rfl
  have hinv : Lexer_inv { Lexer_init "f.cx" (bytes "a\n bc") with cur := 1 } := by
    constructor <;> decide
  ⟨rfl, hinv, rfl, C15_cursor_invariant.2.2.2.2.1 _ _ _ hwf hinv rfl⟩

/-! ## Progress and the driver loop -/

theorem Lexer_next_token_progress {l l1 : Lexer} {t : Token} (hwf : Lexer_wf l)
    (hlt : l.cur < l.source_len) (h : Lexer_next_token l = .ok (t, l1)) :
    l.cur < l1.cur ∧ l1.cur ≤ l.source_len ∧ Lexer_wf l1 ∧ l1.source_len = l.source_len := by
  rcases Lexer_next_token_total l hwf (by omega) with
    ⟨t', k1, k2, hn, _, hle, hc⟩ | ⟨loc, c, hn⟩ | hn | ⟨c, _, hn⟩
  · rw [hn] at h
    cases h
    simp only [Lexer_advance_cur, Lexer_advance_source_len]
    refine ⟨?_, by omega, Lexer_wf_advance _ (Lexer_wf_advance _ hwf), trivial⟩
    rcases hc with ⟨_, _, hend⟩ | ⟨_, _, hpos⟩ <;> omega
  · rw [hn] at h; cases h
  · rw [hn] at h; cases h
  · rw [hn] at h; cases h

/-- The driver loop never runs out of fuel, and what it pushes is bounded by
the bytes that are left. -/
theorem main_loop_bound :
    ∀ (fuel : Nat) (l : Lexer) (da : DARRAY Token), Lexer_wf l → l.cur ≤ l.source_len →
      l.source_len - l.cur < fuel → DARRAY_inv da → 1 ≤ da._allocated →
      main_loop fuel l da ≠ .error .out_of_fuel ∧
      ∀ l1 da1, main_loop fuel l da = .ok (l1, da1) →
        da1.len ≤ da.len + (l.source_len - l.cur) ∧ l1.cur = l.source_len := by
  intro fuel
  induction fuel with
  | zero => intro l da _ _ hf; omega
  | succ n ih =>
    intro l da hwf hcur hf hinv hcap
    rw [main_loop]
    by_cases hlt : l.cur < l.source_len
    · simp only [Lexer_is_not_empty, hlt, decide_True, if_true]
      cases hn : Lexer_next_token l with
      | error e =>
        simp only
        refine ⟨?_, fun l1 da1 h => by cases h⟩
        rcases Lexer_next_token_total l hwf hcur with
          ⟨t', k1, k2, hn', _⟩ | ⟨loc, c, hn'⟩ | hn' | ⟨c, _, hn'⟩
        · rw [hn'] at hn; cases hn
        · rw [hn'] at hn; cases hn; simp
        · rw [hn'] at hn; cases hn; simp
        · rw [hn'] at hn; cases hn; simp
      | ok r =>
        obtain ⟨t, l1⟩ := r
        simp only
        obtain ⟨hprog, hle, hwf1, hlen1⟩ := Lexer_next_token_progress hwf hlt hn
        obtain ⟨da1, hpush, hlen, _, hinv1, hcap1, _, _⟩ := DARRAY_PUSH_spec da t hinv hcap
        have hcap1' : 1 ≤ da1._allocated := by
          rw [hcap1]; split <;> omega
        rw [hpush]
        simp only
        obtain ⟨h1, h2⟩ := ih l1 da1 hwf1 (by omega) (by omega) hinv1 hcap1'
        refine ⟨h1, ?_⟩
        intro l2 da2 h
        obtain ⟨h3, h4⟩ := h2 l2 da2 h
        constructor
        · omega
        · rw [h4, hlen1]
    · simp only [Lexer_is_not_empty, hlt, decide_False]
      refine ⟨by simp, ?_⟩
      intro l1 da1 h
      simp only [Bool.false_eq_true, if_false, Except.ok.injEq, Prod.mk.injEq] at h
      obtain ⟨rfl, rfl⟩ := h
      constructor <;> omega

/-- C18. On a buffer of exactly `source_len` bytes, a call of
`Lexer_next_token` entered with `cur < source_len` that returns leaves a
strictly larger `cur`, at most `source_len`.  Hence the driver loop ends
within the `source_len + 1` tests of its condition that the model allows, so
after at most `source_len` iterations, and the array holds at most
`source_len` tokens. -/
theorem C18_progress :
    (∀ (l l1 : Lexer) (t : Token), Lexer_wf l → l.cur < l.source_len →
      Lexer_next_token l = .ok (t, l1) → l.cur < l1.cur ∧ l1.cur ≤ l.source_len) ∧
    (∀ (fp : String) (src : List Nat),
      main_lex fp src ≠ .error .out_of_fuel ∧
      main_loop (src.length + 1) (Lexer_init fp src) (DARRAY_INIT 1000)
        ≠ .error .out_of_fuel ∧
      ∀ tokens, main_lex fp src = .ok tokens → tokens.len ≤ src.length) := by
  constructor
  · intro l l1 t hwf hlt h
    obtain ⟨h1, h2, _⟩ := Lexer_next_token_progress hwf hlt h
    exact ⟨h1, h2⟩
  · intro fp src
    have hb := main_loop_bound (src.length + 1) (Lexer_init fp src) (DARRAY_INIT 1000) rfl
      (by simp [Lexer_init]) (by simp [Lexer_init]) (DARRAY_inv_init 1000)
      (by show (1 : Nat) ≤ 1000; omega)
    obtain ⟨h1, h2⟩ := hb
    refine ⟨?_, h1, ?_⟩
    · unfold main_lex
      cases hm : main_loop (src.length + 1) (Lexer_init fp src) (DARRAY_INIT 1000) with
      | error e =>
        simp only
        intro he
        cases he
        exact h1 hm
      | ok r => simp
    · intro tokens h
      unfold main_lex at h
      cases hm : main_loop (src.length + 1) (Lexer_init fp src) (DARRAY_INIT 1000) with
      | error e => rw [hm] at h; cases h
      | ok r =>
        obtain ⟨l1, da1⟩ := r
        rw [hm] at h
        cases h
        have hlen := (h2 l1 tokens hm).1
        have h0 : (DARRAY_INIT 1000 : DARRAY Token).len = 0 := rfl
        have e1 : (Lexer_init fp src).source_len = src.length := rfl
        have e2 : (Lexer_init fp src).cur = 0 := rfl
        rw [h0, e1, e2] at hlen
        omega

theorem C18_progress_witness :
    Lexer_wf (Lexer_init "f.cx" (bytes "ab c")) ∧
      (Lexer_init "f.cx" (bytes "ab c")).cur < (Lexer_init "f.cx" (bytes "ab c")).source_len ∧
      Lexer_next_token (Lexer_init "f.cx" (bytes "ab c"))
        = .ok ({ location := { file_path := some "f.cx", line := 0, row := 0 },
                 type := TOKEN_NAME, value := value_sv { data := some 0, size := 2 } },
               { Lexer_init "f.cx" (bytes "ab c") with cur := 2 }) ∧
      (Lexer_init "f.cx" (bytes "ab c")).cur < 2 ∧ 2 ≤ (Lexer_init "f.cx" (bytes "ab c")).source_len :=
  have hwf : Lexer_wf (Lexer_init "f.cx" (bytes "ab c")) := rfl
  ⟨hwf, by decide, rfl, C18_progress.1 _ _ _ hwf (by decide) rfl⟩

/-! ## Reads outside the buffer -/

/-- C19, on the failing inputs. On the one-byte buffer of a slash the comment
test reads `s[1]`, the byte at offset 1, and on the two-byte buffer `42` the
integer conversion reads the byte at offset 2: both reads are outside the
buffer, whose state is well formed with the cursor in it. -/
theorem C19_reads_past_the_buffer :
    Lexer_wf (Lexer_init "f.cx" (bytes "/")) ∧
      (Lexer_init "f.cx" (bytes "/")).cur ≤ (Lexer_init "f.cx" (bytes "/")).source_len ∧
      (Lexer_init "f.cx" (bytes "/")).source_len = 1 ∧
      Lexer_read (Lexer_init "f.cx" (bytes "/")) 1 = .error (.out_of_bounds 1) ∧
      Lexer_next_token (Lexer_init "f.cx" (bytes "/")) = .error (.out_of_bounds 1) ∧
      Lexer_wf (Lexer_init "f.cx" (bytes "42")) ∧
      (Lexer_init "f.cx" (bytes "42")).source_len = 2 ∧
      atoi ((bytes "42").drop 0) = none ∧
      Lexer_next_token (Lexer_init "f.cx" (bytes "42")) = .error (.out_of_bounds 2) :=
  ⟨rfl, by decide, rfl, rfl, rfl, rfl, rfl, rfl, rfl⟩

/-! ## Source order of the token array -/

theorem bol_at_succ (src : List Nat) (p : Nat) :
    bol_at src (p + 1) = if src[p]? = some 10 then p + 1 else bol_at src p := rfl

theorem location_at_lt_succ (fp : String) (src : List Nat) (p : Nat) :
    Location_lt (location_at fp src p) (location_at fp src (p + 1)) := by
  unfold Location_lt location_at
  simp only [line_at_succ, bol_at_succ]
  have hb := bol_at_le src p
  by_cases h : src[p]? = some 10
  · left; simp [h]
  · right
    simp only [h, if_false]
    omega

theorem location_at_mono (fp : String) (src : List Nat) {p q : Nat} (h : p < q) :
    Location_lt (location_at fp src p) (location_at fp src q) := by
  obtain ⟨d, rfl⟩ : ∃ d, q = p + 1 + d := ⟨q - (p + 1), by omega⟩
  clear h
  induction d with
  | zero => exact location_at_lt_succ fp src p
  | succ d ih =>
    have hs := location_at_lt_succ fp src (p + 1 + d)
    unfold Location_lt at ih hs ⊢
    rw [show p + 1 + (d + 1) = p + 1 + d + 1 by omega]
    rcases ih with h1 | ⟨h1, h2⟩ <;> rcases hs with h3 | ⟨h3, h4⟩
    · left; omega
    · left; omega
    · left; omega
    · right; constructor <;> omega

theorem Lexer_location_of_advance (fp : String) (src : List Nat) (k : Nat) :
    Lexer_location (Lexer_advance k (Lexer_init fp src))
      = location_at fp src (Lexer_advance k (Lexer_init fp src)).cur := by
  have htr := Lexer_tracked_advance k (Lexer_tracked_init fp src)
  obtain ⟨hrow, hbol⟩ := htr
  simp only [Lexer_advance_source] at hrow hbol
  have hsrc : (Lexer_init fp src).source = src := rfl
  rw [hsrc] at hrow hbol
  unfold Lexer_location location_at
  rw [hrow, hbol, size_sub_of_le (bol_at_le _ _)]
  simp [Lexer_init]

/-- The driver loop keeps the tokens of the array in source order. -/
theorem main_loop_order (fp : String) (src : List Nat) :
    ∀ (fuel : Nat) (l : Lexer) (da : DARRAY Token) (l1 : Lexer) (da1 : DARRAY Token),
      (∃ k, l = Lexer_advance k (Lexer_init fp src)) → l.cur ≤ src.length →
      DARRAY_inv da → 1 ≤ da._allocated → da.elems.Pairwise Token_before →
      (∀ t, some t ∈ da.elems → t.type ≠ TOKEN_NULL →
        ∃ p, p < l.cur ∧ t.location = location_at fp src p) →
      main_loop fuel l da = .ok (l1, da1) → da1.elems.Pairwise Token_before := by
  intro fuel
  induction fuel with
  | zero => intro l da l1 da1 _ _ _ _ _ _ h; simp [main_loop] at h
  | succ n ih =>
    intro l da l1 da1 hk hcur hinv hcap hpw hloc h
    rw [main_loop] at h
    by_cases hlt : l.cur < l.source_len
    · simp only [Lexer_is_not_empty, hlt, decide_True, if_true] at h
      obtain ⟨k, hk⟩ := hk
      have hwf : Lexer_wf l := hk ▸ Lexer_wf_advance k rfl
      have hlen : l.source_len = src.length := by rw [hk]; simp [Lexer_init]
      rcases Lexer_next_token_total l hwf (by omega) with
        ⟨t, k1, k2, hn, _, hle, hc⟩ | ⟨loc, c, hn⟩ | hn | ⟨c, _, hn⟩
      · rw [hn] at h
        simp only at h
        obtain ⟨da2, hpush, _, helems, hinv2, hcap2, _, _⟩ := DARRAY_PUSH_spec da t hinv hcap
        have hcap2' : 1 ≤ da2._allocated := by
          rw [hcap2]; split <;> omega
        rw [hpush] at h
        simp only at h
        have hcur2 : (Lexer_advance k2 (Lexer_advance k1 l)).cur = l.cur + k1 + k2 := by
          simp only [Lexer_advance_cur]
        refine ih _ da2 l1 da1 ⟨k + k1 + k2, ?_⟩ ?_ hinv2 hcap2' ?_ ?_ h
        · rw [hk, Lexer_advance_add, Lexer_advance_add]
        · rw [hcur2]; omega
        · rw [helems, List.pairwise_append]
          refine ⟨hpw, List.pairwise_singleton _ _, ?_⟩
          intro a ha b hb
          simp only [List.mem_singleton] at hb
          subst hb
          intro ta tb hta htb hna hnb
          cases htb
          subst hta
          rcases hc with ⟨hz, _, _⟩ | ⟨_, hloc2, _⟩
          · subst hz; exact absurd rfl hnb
          · obtain ⟨p, hp, hpl⟩ := hloc ta ha hna
            rw [hpl, hloc2, hk, ← Lexer_advance_add, Lexer_location_of_advance]
            apply location_at_mono
            simp only [Lexer_advance_cur]
            rw [hk] at hp
            simp only [Lexer_advance_cur] at hp
            omega
        · intro t2 ht2 hn2
          rw [helems, List.mem_append] at ht2
          rcases ht2 with hold | hnew
          · obtain ⟨p, hp, hpl⟩ := hloc t2 hold hn2
            exact ⟨p, by rw [hcur2]; omega, hpl⟩
          · simp only [List.mem_singleton, Option.some.injEq] at hnew
            subst hnew
            rcases hc with ⟨hz, _, _⟩ | ⟨_, hloc2, hpos⟩
            · subst hz; exact absurd rfl hn2
            · refine ⟨l.cur + k1, by rw [hcur2]; omega, ?_⟩
              rw [hloc2, hk, ← Lexer_advance_add, Lexer_location_of_advance]
              simp only [Lexer_advance_cur, Nat.add_assoc]
      · rw [hn] at h; cases h
      · rw [hn] at h; cases h
      · rw [hn] at h; cases h
    · simp only [Lexer_is_not_empty, hlt, decide_False, Bool.false_eq_true, if_false,
        Except.ok.injEq, Prod.mk.injEq] at h
      obtain ⟨_, rfl⟩ := h
      exact hpw

/-- C12. For every input on which the lexing does not abort, the array built
by the driver is in source order: of two tokens other than the sentinel at
positions `i < j`, the location of the first is strictly smaller than that of
the second in the order by line and then column. -/
theorem C12_source_order (fp : String) (src : List Nat) (tokens : DARRAY Token)
    (h : main_lex fp src = .ok tokens) :
    ∀ (i j : Nat) (ti tj : Token), i < j →
      tokens.elems[i]? = some (some ti) → tokens.elems[j]? = some (some tj) →
      ti.type ≠ TOKEN_NULL → tj.type ≠ TOKEN_NULL →
      Location_lt ti.location tj.location ∧
        (ti.location.line < tj.location.line ∨
          (ti.location.line = tj.location.line ∧ ti.location.row < tj.location.row)) := by
  have hpw : tokens.elems.Pairwise Token_before := by
    unfold main_lex at h
    cases hm : main_loop (src.length + 1) (Lexer_init fp src) (DARRAY_INIT 1000) with
    | error e => rw [hm] at h; cases h
    | ok r =>
      obtain ⟨l1, da1⟩ := r
      rw [hm] at h
      cases h
      refine main_loop_order fp src _ _ _ _ _ ⟨0, rfl⟩ (Nat.zero_le _) (DARRAY_inv_init 1000)
        (by show (1 : Nat) ≤ 1000; omega) ?_ ?_ hm
      · rw [DARRAY_elems_init]; exact List.Pairwise.nil
      · intro t ht
        rw [DARRAY_elems_init] at ht
        exact absurd ht (List.not_mem_nil _)
  intro i j ti tj hij hi hj hni hnj
  rw [List.pairwise_iff_getElem] at hpw
  obtain ⟨hi1, hi2⟩ := List.getElem?_eq_some.mp hi
  obtain ⟨hj1, hj2⟩ := List.getElem?_eq_some.mp hj
  have := hpw i j hi1 hj1 hij ti tj hi2 hj2 hni hnj
  exact ⟨this, this⟩

set_option maxRecDepth 20000 in
theorem C12_source_order_witness :
    (∃ tokens, main_lex "f.cx" (bytes "b =\n a") = .ok tokens ∧
      tokens.elems[0]? = some (some (Token.mk (Location.mk (some "f.cx") 0 0) TOKEN_NAME
        (value_sv (StringView.mk (some 0) 1)))) ∧
      tokens.elems[2]? = some (some (Token.mk (Location.mk (some "f.cx") 1 1) TOKEN_NAME
        (value_sv (StringView.mk (some 5) 1))))) ∧
      Location_lt { file_path := some "f.cx", line := 0, row := 0 }
        { file_path := some "f.cx", line := 1, row := 1 } :=
  ⟨⟨_, rfl, rfl, rfl⟩,
   (C12_source_order "f.cx" (bytes "b =\n a") _ rfl 0 2 _ _ (by decide) rfl rfl
      (by decide) (by decide)).1⟩

end Cx
